import Mathlib

/-!
Verification of the 0/1-knapsack solvers of this repository.

The Go sources are shallowly embedded: the mutable `[]Item` slice is a
`List Item` threaded explicitly through each recursion, machine integers
become `Int` (the spec rules out inputs that overflow native arithmetic),
and each recursive solver carries an explicit fuel argument, always invoked
with fuel equal to the number of undecided items, which makes the
recursion structural; the fuel-exhaustion branch is unreachable for the
actual entry points because the list length is invariant under the search.
-/

structure Item where
  id : Nat
  blockedBy : Int
  blockList : List Nat
  value : Int
  weight : Int
  isSelected : Bool
deriving Repr, DecidableEq, Inhabited

/-- Array indexing `items[p]`; all reads in the sources are in range. -/
def getItem (items : List Item) (p : Nat) : Item :=
  items.getD p default

/-- `sumValues(items, addAll)` from the sources. -/
def sumValues (items : List Item) (addAll : Bool) : Int :=
  items.foldl (fun total it => if addAll || it.isSelected then total + it.value else total) 0

/-- `sumWeights(items, addAll)` from the sources. -/
def sumWeights (items : List Item) (addAll : Bool) : Int :=
  items.foldl (fun total it => if addAll || it.isSelected then total + it.weight else total) 0

/-- `solutionValue(items, allowedWeight)` from the sources. -/
def solutionValue (items : List Item) (allowedWeight : Int) : Int :=
  if sumWeights items false > allowedWeight then -1 else sumValues items false

/-- `copyItems` returns a value copy; on immutable lists this is the identity. -/
def copyItems (items : List Item) : List Item :=
  items

/-- In-place update `items[i] = f(items[i])` (out-of-range writes never occur in the sources). -/
def updateAt : List Item → Nat → (Item → Item) → List Item
  | [], _, _ => []
  | x :: xs, 0, f => f x :: xs
  | x :: xs, n + 1, f => x :: updateAt xs n f

/-- `items[i].isSelected = b`. -/
def setSelected (items : List Item) (i : Nat) (b : Bool) : List Item :=
  updateAt items i fun it => { it with isSelected := b }

/-- `blockItems(source, items)` from the sources. -/
def blockItems (source : Item) (items : List Item) : List Item :=
  source.blockList.foldl
    (fun its otherId =>
      if (getItem its otherId).blockedBy < 0 then
        updateAt its otherId fun it => { it with blockedBy := (source.id : Int) }
      else its)
    items

/-- `unblockItems(source, items)` from the sources. -/
def unblockItems (source : Item) (items : List Item) : List Item :=
  source.blockList.foldl
    (fun its otherId =>
      if (getItem its otherId).blockedBy = (source.id : Int) then
        updateAt its otherId fun it => { it with blockedBy := -1 }
      else its)
    items

/-- Inner loop of `makeBlockLists`: ids of the items that item `i` dominates. -/
def blockListFor (items : List Item) (i : Nat) : List Nat :=
  ((List.range items.length).filter fun j =>
      decide (i ≠ j ∧ (getItem items i).value ≥ (getItem items j).value ∧
        (getItem items i).weight ≤ (getItem items j).weight)).map
    fun j => (getItem items j).id

/-- `makeBlockLists(items)` from the sources (value, weight and id fields are
never written by it, so the row-by-row mutation reads the same data as this
snapshot version). -/
def makeBlockLists (items : List Item) : List Item :=
  (List.range items.length).map fun i => { getItem items i with blockList := blockListFor items i }

/-- The id-renumbering loop of `rodsTechniqueSorted`. -/
def resetIds (items : List Item) : List Item :=
  (List.range items.length).map fun i => { getItem items i with id := i }

/-- Result of one solver invocation: the shared item array as left by the call,
plus the returned `(solution, value, calls)` triple. -/
structure SearchResult where
  state : List Item
  solution : List Item
  value : Int
  calls : Nat
deriving Repr, DecidableEq

/-- `doExhaustiveSearch` from the sources. -/
def doExhaustiveSearch : Nat → List Item → Int → Nat → SearchResult
  | fuel, items, allowedWeight, nextIndex =>
    if nextIndex ≥ items.length then
      { state := items, solution := copyItems items,
        value := solutionValue (copyItems items) allowedWeight, calls := 1 }
    else
      match fuel with
      | 0 =>
        -- fuel exhaustion: unreachable from `exhaustiveSearch` (length is invariant)
        { state := items, solution := copyItems items,
          value := solutionValue (copyItems items) allowedWeight, calls := 1 }
      | fuel + 1 =>
        let r1 := doExhaustiveSearch fuel (setSelected items nextIndex true) allowedWeight (nextIndex + 1)
        let r2 := doExhaustiveSearch fuel (setSelected r1.state nextIndex false) allowedWeight (nextIndex + 1)
        if r1.value > r2.value then
          { state := r2.state, solution := r1.solution, value := r1.value, calls := r1.calls + r2.calls + 1 }
        else
          { state := r2.state, solution := r2.solution, value := r2.value, calls := r1.calls + r2.calls + 1 }

/-- `exhaustiveSearch(items, allowedWeight)` from the sources. -/
def exhaustiveSearch (items : List Item) (allowedWeight : Int) : SearchResult :=
  doExhaustiveSearch items.length items allowedWeight 0

/-- `doBranchAndBound` from the sources.  The search mutates only `isSelected`,
so the `value` and `weight` reads of `items[nextIndex]` commute with the
recursive calls and are taken once up front; the dead local update of
`bestValue` at the leaf (the function returns immediately after) is dropped. -/
def doBranchAndBound : Nat → List Item → Int → Nat → Int → Int → Int → Int → SearchResult
  | fuel, items, allowedWeight, nextIndex, bestValue, currentValue, currentWeight, remainingValue =>
    if nextIndex ≥ items.length then
      { state := items, solution := copyItems items,
        value := solutionValue (copyItems items) allowedWeight, calls := 1 }
    else if currentValue + remainingValue < bestValue then
      { state := items, solution := [], value := 0, calls := 1 }
    else
      match fuel with
      | 0 =>
        -- fuel exhaustion: unreachable from `branchAndBound`
        { state := items, solution := [], value := 0, calls := 1 }
      | fuel + 1 =>
        let it := getItem items nextIndex
        let r1 :=
          if currentWeight + it.weight ≤ allowedWeight then
            doBranchAndBound fuel (setSelected items nextIndex true) allowedWeight (nextIndex + 1)
              bestValue (currentValue + it.value) (currentWeight + it.weight) (remainingValue - it.value)
          else { state := items, solution := [], value := 0, calls := 1 }
        let best1 := if r1.value > bestValue then r1.value else bestValue
        let r2 :=
          if currentValue + remainingValue - it.value > best1 then
            doBranchAndBound fuel (setSelected r1.state nextIndex false) allowedWeight (nextIndex + 1)
              best1 currentValue currentWeight (remainingValue - it.value)
          else { state := r1.state, solution := [], value := 0, calls := 1 }
        if r1.value ≥ r2.value then
          { state := r2.state, solution := r1.solution, value := r1.value, calls := r1.calls + r2.calls + 1 }
        else
          { state := r2.state, solution := r2.solution, value := r2.value, calls := r1.calls + r2.calls + 1 }

/-- `branchAndBound(items, allowedWeight)` from the sources. -/
def branchAndBound (items : List Item) (allowedWeight : Int) : SearchResult :=
  doBranchAndBound items.length items allowedWeight 0 0 0 0 (sumValues items true)

/-- `doRodsTechnique` from the sources.  Unlike `doBranchAndBound` the exclude
branch is unconditional; `blockItems`/`unblockItems` read their `source`
argument from the array at the point of the call (only `id` and `blockList`
are consulted, and those fields are never mutated by the search); the dead
trailing `bestValue` updates are dropped. -/
def doRodsTechnique : Nat → List Item → Int → Nat → Int → Int → Int → Int → SearchResult
  | fuel, items, allowedWeight, nextIndex, bestValue, currentValue, currentWeight, remainingValue =>
    if nextIndex ≥ items.length then
      { state := items, solution := copyItems items,
        value := solutionValue (copyItems items) allowedWeight, calls := 1 }
    else if currentValue + remainingValue < bestValue then
      { state := items, solution := [], value := 0, calls := 1 }
    else
      match fuel with
      | 0 =>
        -- fuel exhaustion: unreachable from `rodsTechnique`/`rodsTechniqueSorted`
        { state := items, solution := [], value := 0, calls := 1 }
      | fuel + 1 =>
        let it := getItem items nextIndex
        let r1 :=
          if currentWeight + it.weight ≤ allowedWeight ∧ it.blockedBy < 0 then
            doRodsTechnique fuel (setSelected items nextIndex true) allowedWeight (nextIndex + 1)
              bestValue (currentValue + it.value) (currentWeight + it.weight) (remainingValue - it.value)
          else { state := items, solution := [], value := 0, calls := 1 }
        let best1 := if r1.value > bestValue then r1.value else bestValue
        let r2 :=
          doRodsTechnique fuel
            (setSelected (blockItems (getItem r1.state nextIndex) r1.state) nextIndex false)
            allowedWeight (nextIndex + 1) best1 currentValue currentWeight (remainingValue - it.value)
        let finalState := unblockItems (getItem r2.state nextIndex) r2.state
        if r1.value ≥ r2.value then
          { state := finalState, solution := r1.solution, value := r1.value, calls := r1.calls + r2.calls + 1 }
        else
          { state := finalState, solution := r2.solution, value := r2.value, calls := r1.calls + r2.calls + 1 }

/-- `rodsTechnique(items, allowedWeight)` from the sources. -/
def rodsTechnique (items : List Item) (allowedWeight : Int) : SearchResult :=
  let items1 := makeBlockLists items
  doRodsTechnique items1.length items1 allowedWeight 0 0 0 0 (sumValues items1 true)

/-- `rodsTechniqueSorted(items, allowedWeight)` from the sources.  Go's
`sort.Slice` is an unspecified (unstable) sort; the model fixes one
admissible order via insertion sort on the same comparator (longer
`blockList` first).  Every property proved about the result is invariant
under which admissible order the sort produces. -/
def rodsTechniqueSorted (items : List Item) (allowedWeight : Int) : SearchResult :=
  let items1 := makeBlockLists items
  let sorted := items1.insertionSort fun a b => b.blockList.length ≤ a.blockList.length
  let items2 := makeBlockLists (resetIds sorted)
  doRodsTechnique items2.length items2 allowedWeight 0 0 0 0 (sumValues items2 true)

/-- The `solutionValue[i][w]` table of `dynamicProgramming`, as a function of
the row and column index (the Go table is its memoization; only columns
`0 ≤ w ≤ allowedWeight` are ever read). -/
def bestVal (items : List Item) : Nat → Int → Int
  | 0, w => if (getItem items 0).weight ≤ w then (getItem items 0).value else 0
  | i + 1, w =>
    let valueWithoutI := bestVal items i w
    let valueWithI :=
      if (getItem items (i + 1)).weight ≤ w then
        bestVal items i (w - (getItem items (i + 1)).weight) + (getItem items (i + 1)).value
      else 0
    if valueWithoutI ≥ valueWithI then valueWithoutI else valueWithI

/-- The `prevWeight[i][w]` table of `dynamicProgramming`. -/
def prevWeight (items : List Item) : Nat → Int → Int
  | 0, w => if (getItem items 0).weight ≤ w then -1 else w
  | i + 1, w =>
    let valueWithoutI := bestVal items i w
    let valueWithI :=
      if (getItem items (i + 1)).weight ≤ w then
        bestVal items i (w - (getItem items (i + 1)).weight) + (getItem items (i + 1)).value
      else 0
    if valueWithoutI ≥ valueWithI then w else w - (getItem items (i + 1)).weight

/-- The reconstruction loop of `dynamicProgramming`: walk rows `i, i-1, ..., 0`;
`tbl` is the item data the precomputed tables were built from, `items` the
array being mutated (they start out as the same array). -/
def dpReconstruct (tbl : List Item) : List Item → Nat → Int → List Item
  | items, 0, w => if prevWeight tbl 0 w = w then items else setSelected items 0 true
  | items, i + 1, w =>
    let prevW := prevWeight tbl (i + 1) w
    if prevW = w then dpReconstruct tbl items i w
    else dpReconstruct tbl (setSelected items (i + 1) true) i prevW

/-- `dynamicProgramming(items, allowedWeight)` from the sources.  It returns
the input array itself (mutated in place by the reconstruction), so `state`
and `solution` are the same list.  Faithful for non-empty `items`; the Go
code panics on an empty slice (`items[0]` out of range). -/
def dynamicProgramming (items : List Item) (allowedWeight : Int) : SearchResult :=
  let solution := dpReconstruct items items (items.length - 1) allowedWeight
  { state := solution, solution := solution,
    value := bestVal items (items.length - 1) allowedWeight, calls := 1 }

/-- The optimal 0/1-knapsack value over value-weight pairs: the textbook
include/exclude recursion.  This definition follows the specification, not
the code; the solvers are proved to refine it. -/
def specOpt : List (Int × Int) → Int → Int
  | [], _ => 0
  | (v, w) :: rest, cap =>
    max (specOpt rest cap) (if w ≤ cap then v + specOpt rest (cap - w) else specOpt rest cap)

/-- The value-weight data of an item collection. -/
def pairsOf (items : List Item) : List (Int × Int) :=
  items.map fun it => (it.value, it.weight)

/-- Total value of a choice vector over value-weight pairs. -/
def chosenValue : List (Int × Int) → List Bool → Int
  | _, [] => 0
  | [], _ => 0
  | (v, _) :: ps, d :: c => (if d then v else 0) + chosenValue ps c

/-- Total weight of a choice vector over value-weight pairs. -/
def chosenWeight : List (Int × Int) → List Bool → Int
  | _, [] => 0
  | [], _ => 0
  | (_, w) :: ps, d :: c => (if d then w else 0) + chosenWeight ps c

/-- All items have strictly positive value and weight (the stated precondition). -/
def PosItems (items : List Item) : Prop :=
  ∀ it ∈ items, 0 < it.value ∧ 0 < it.weight

/-- Item ids coincide with positions (established by `makeItems` and by the
renumbering loop of `rodsTechniqueSorted`). -/
def IdsOk (items : List Item) : Prop :=
  ∀ p, p < items.length → (getItem items p).id = p

/-- No item is blocked (the state in which the driver hands items to a solver). -/
def AllUnblocked (items : List Item) : Prop :=
  ∀ p, p < items.length → (getItem items p).blockedBy = -1

/-- No item is selected (the state in which the driver hands items to a solver). -/
def AllUnselected (items : List Item) : Prop :=
  ∀ it ∈ items, it.isSelected = false

/-! ### Basic lemmas about indexing, updates and sums -/

lemma getItem_eq_get (items : List Item) (p : Nat) (h : p < items.length) :
    getItem items p = items.get ⟨p, h⟩ := by
  simp [getItem, List.getD_eq_getElem?_getD, List.getElem?_eq_getElem h]

lemma getItem_cons_zero (x : Item) (xs : List Item) : getItem (x :: xs) 0 = x := rfl

lemma getItem_cons_succ (x : Item) (xs : List Item) (p : Nat) :
    getItem (x :: xs) (p + 1) = getItem xs p := rfl

lemma updateAt_length (l : List Item) (n : Nat) (f : Item → Item) :
    (updateAt l n f).length = l.length := by
  induction l generalizing n with
  | nil => rfl
  | cons x xs ih => cases n <;> simp [updateAt, ih]

lemma getItem_updateAt_self (l : List Item) (n : Nat) (f : Item → Item) (h : n < l.length) :
    getItem (updateAt l n f) n = f (getItem l n) := by
  induction l generalizing n with
  | nil => simp at h
  | cons x xs ih =>
    cases n with
    | zero => rfl
    | succ m => simpa [updateAt, getItem_cons_succ] using ih m (by simpa using h)

lemma getItem_updateAt_ne (l : List Item) (n : Nat) (f : Item → Item) (p : Nat) (h : p ≠ n) :
    getItem (updateAt l n f) p = getItem l p := by
  induction l generalizing n p with
  | nil => simp [updateAt]
  | cons x xs ih =>
    cases n with
    | zero => cases p with
      | zero => exact absurd rfl h
      | succ q => rfl
    | succ m =>
      cases p with
      | zero => rfl
      | succ q => simpa [updateAt, getItem_cons_succ] using ih m q (by omega)

lemma setSelected_length (l : List Item) (n : Nat) (b : Bool) :
    (setSelected l n b).length = l.length := updateAt_length l n _

lemma getItem_setSelected_self (l : List Item) (n : Nat) (b : Bool) (h : n < l.length) :
    getItem (setSelected l n b) n = { getItem l n with isSelected := b } :=
  getItem_updateAt_self l n _ h

lemma getItem_setSelected_ne (l : List Item) (n : Nat) (b : Bool) (p : Nat) (h : p ≠ n) :
    getItem (setSelected l n b) p = getItem l p :=
  getItem_updateAt_ne l n _ p h

/-- Selected-value contribution of one item. -/
def selVal (it : Item) : Int := if it.isSelected then it.value else 0

/-- Selected-weight contribution of one item. -/
def selWt (it : Item) : Int := if it.isSelected then it.weight else 0

lemma foldl_add_init (g : Item → Int) (l : List Item) :
    ∀ a : Int, l.foldl (fun t it => t + g it) a = a + l.foldl (fun t it => t + g it) 0 := by
  induction l with
  | nil => intro a; simp
  | cons x xs ih =>
    intro a
    simp only [List.foldl_cons]
    rw [ih (a + g x), ih (0 + g x)]
    ring

lemma foldl_add_eq_sum (g : Item → Int) (l : List Item) :
    l.foldl (fun t it => t + g it) 0 = (l.map g).sum := by
  induction l with
  | nil => rfl
  | cons x xs ih =>
    simp only [List.foldl_cons, List.map_cons, List.sum_cons]
    rw [foldl_add_init g xs (0 + g x), ih]
    ring

lemma sumValues_false_eq (l : List Item) : sumValues l false = (l.map selVal).sum := by
  have h : sumValues l false = l.foldl (fun t it => t + selVal it) 0 := by
    unfold sumValues
    congr 1
    funext t it
    by_cases hs : it.isSelected <;> simp [selVal, hs]
  rw [h, foldl_add_eq_sum]

lemma sumValues_true_eq (l : List Item) : sumValues l true = (l.map Item.value).sum := by
  have h : sumValues l true = l.foldl (fun t it => t + it.value) 0 := by
    unfold sumValues
    congr 1
  rw [h, foldl_add_eq_sum]

lemma sumWeights_false_eq (l : List Item) : sumWeights l false = (l.map selWt).sum := by
  have h : sumWeights l false = l.foldl (fun t it => t + selWt it) 0 := by
    unfold sumWeights
    congr 1
    funext t it
    by_cases hs : it.isSelected <;> simp [selWt, hs]
  rw [h, foldl_add_eq_sum]

lemma sumWeights_true_eq (l : List Item) : sumWeights l true = (l.map Item.weight).sum := by
  have h : sumWeights l true = l.foldl (fun t it => t + it.weight) 0 := by
    unfold sumWeights
    congr 1
  rw [h, foldl_add_eq_sum]

/-- Value of the selected items among the first `n` positions. -/
def valueBefore (items : List Item) (n : Nat) : Int := sumValues (items.take n) false

/-- Weight of the selected items among the first `n` positions. -/
def weightBefore (items : List Item) (n : Nat) : Int := sumWeights (items.take n) false

/-- Total value of all items from position `n` on. -/
def valueFrom (items : List Item) (n : Nat) : Int := sumValues (items.drop n) true

lemma take_map_congr {α : Type} (f g : Item → α) (l1 l2 : List Item) (n : Nat)
    (hl : l1.length = l2.length)
    (h : ∀ p, p < n → p < l1.length → f (getItem l1 p) = g (getItem l2 p)) :
    (l1.take n).map f = (l2.take n).map g := by
  apply List.ext_get
  · simp [hl]
  · intro p h1 h2
    simp only [List.get_eq_getElem, List.getElem_map, List.getElem_take]
    have hp1 : p < l1.length := by simp at h1; omega
    have hp2 : p < n := by simp at h1; omega
    have e1 : l1[p] = getItem l1 p := (getItem_eq_get l1 p hp1).symm
    have e2 : l2[p] = getItem l2 p := (getItem_eq_get l2 p (hl ▸ hp1)).symm
    rw [e1, e2]
    exact h p hp2 hp1

lemma drop_map_congr {α : Type} (f g : Item → α) (l1 l2 : List Item) (n : Nat)
    (hl : l1.length = l2.length)
    (h : ∀ p, n ≤ p → p < l1.length → f (getItem l1 p) = g (getItem l2 p)) :
    (l1.drop n).map f = (l2.drop n).map g := by
  apply List.ext_get
  · simp [hl]
  · intro p h1 h2
    simp only [List.get_eq_getElem, List.getElem_map, List.getElem_drop]
    have hp1 : n + p < l1.length := by simp at h1; omega
    have e1 : l1[n + p] = getItem l1 (n + p) := (getItem_eq_get l1 _ hp1).symm
    have e2 : l2[n + p] = getItem l2 (n + p) := (getItem_eq_get l2 _ (hl ▸ hp1)).symm
    rw [e1, e2]
    exact h (n + p) (by omega) hp1

lemma valueBefore_congr (l1 l2 : List Item) (n : Nat) (hl : l1.length = l2.length)
    (h : ∀ p, p < n → p < l1.length → getItem l1 p = getItem l2 p) :
    valueBefore l1 n = valueBefore l2 n := by
  unfold valueBefore
  rw [sumValues_false_eq, sumValues_false_eq,
    take_map_congr selVal selVal l1 l2 n hl (fun p h1 h2 => by rw [h p h1 h2])]

lemma weightBefore_congr (l1 l2 : List Item) (n : Nat) (hl : l1.length = l2.length)
    (h : ∀ p, p < n → p < l1.length → getItem l1 p = getItem l2 p) :
    weightBefore l1 n = weightBefore l2 n := by
  unfold weightBefore
  rw [sumWeights_false_eq, sumWeights_false_eq,
    take_map_congr selWt selWt l1 l2 n hl (fun p h1 h2 => by rw [h p h1 h2])]

lemma take_succ_getItem (l : List Item) (n : Nat) (h : n < l.length) :
    l.take (n + 1) = l.take n ++ [getItem l n] := by
  rw [List.take_succ, List.getElem?_eq_getElem h, getItem_eq_get l n h]
  rfl

lemma valueBefore_succ (l : List Item) (n : Nat) (h : n < l.length) :
    valueBefore l (n + 1) = valueBefore l n + selVal (getItem l n) := by
  unfold valueBefore
  rw [take_succ_getItem l n h, sumValues_false_eq, sumValues_false_eq]
  simp

lemma weightBefore_succ (l : List Item) (n : Nat) (h : n < l.length) :
    weightBefore l (n + 1) = weightBefore l n + selWt (getItem l n) := by
  unfold weightBefore
  rw [take_succ_getItem l n h, sumWeights_false_eq, sumWeights_false_eq]
  simp

lemma drop_eq_getItem_cons (l : List Item) (n : Nat) (h : n < l.length) :
    l.drop n = getItem l n :: l.drop (n + 1) := by
  rw [getItem_eq_get l n h]
  exact List.drop_eq_getElem_cons h

lemma valueFrom_succ (l : List Item) (n : Nat) (h : n < l.length) :
    valueFrom l n = (getItem l n).value + valueFrom l (n + 1) := by
  unfold valueFrom
  rw [drop_eq_getItem_cons l n h, sumValues_true_eq, sumValues_true_eq]
  simp

lemma valueBefore_zero (l : List Item) : valueBefore l 0 = 0 := rfl

lemma weightBefore_zero (l : List Item) : weightBefore l 0 = 0 := rfl

lemma valueFrom_zero (l : List Item) : valueFrom l 0 = sumValues l true := rfl

lemma valueFrom_length (l : List Item) (n : Nat) (h : l.length ≤ n) : valueFrom l n = 0 := by
  unfold valueFrom
  rw [List.drop_eq_nil_of_le h]
  rfl

lemma valueBefore_all (l : List Item) (n : Nat) (h : l.length ≤ n) :
    valueBefore l n = sumValues l false := by
  unfold valueBefore
  rw [List.take_of_length_le h]

lemma weightBefore_all (l : List Item) (n : Nat) (h : l.length ≤ n) :
    weightBefore l n = sumWeights l false := by
  unfold weightBefore
  rw [List.take_of_length_le h]

/-- All item values and weights are nonnegative. -/
def NonnegItems (items : List Item) : Prop :=
  ∀ it ∈ items, 0 ≤ it.value ∧ 0 ≤ it.weight

lemma PosItems.nonneg {items : List Item} (h : PosItems items) : NonnegItems items :=
  fun it hm => ⟨le_of_lt (h it hm).1, le_of_lt (h it hm).2⟩

lemma getItem_eq_getElem (l : List Item) (p : Nat) (h : p < l.length) :
    getItem l p = l[p] := by
  rw [getItem_eq_get l p h]
  simp

lemma getItem_mem (l : List Item) (p : Nat) (h : p < l.length) : getItem l p ∈ l := by
  rw [getItem_eq_getElem l p h]
  exact List.getElem_mem h

lemma nonneg_transfer (l1 l2 : List Item) (hl : l2.length = l1.length)
    (h : ∀ p, p < l2.length →
      (getItem l2 p).value = (getItem l1 p).value ∧ (getItem l2 p).weight = (getItem l1 p).weight)
    (h1 : NonnegItems l1) : NonnegItems l2 := by
  intro it hm
  obtain ⟨p, hp, rfl⟩ := List.mem_iff_getElem.mp hm
  rw [← getItem_eq_getElem l2 p hp]
  obtain ⟨hv, hw⟩ := h p hp
  rw [hv, hw]
  exact h1 _ (getItem_mem l1 p (by omega))

lemma valueBefore_nonneg (l : List Item) (n : Nat) (h : NonnegItems l) :
    0 ≤ valueBefore l n := by
  unfold valueBefore
  rw [sumValues_false_eq]
  apply List.sum_nonneg
  intro x hx
  obtain ⟨it, hit, rfl⟩ := List.mem_map.mp hx
  have := h it (List.mem_of_mem_take hit)
  unfold selVal
  split <;> simp [this.1]

lemma valueFrom_nonneg (l : List Item) (n : Nat) (h : NonnegItems l) :
    0 ≤ valueFrom l n := by
  unfold valueFrom
  rw [sumValues_true_eq]
  apply List.sum_nonneg
  intro x hx
  obtain ⟨it, hit, rfl⟩ := List.mem_map.mp hx
  exact (h it (List.mem_of_mem_drop hit)).1

/-! ### Basic facts about `specOpt` -/

lemma specOpt_nonneg (pairs : List (Int × Int)) (cap : Int) : 0 ≤ specOpt pairs cap := by
  induction pairs generalizing cap with
  | nil => simp [specOpt]
  | cons p ps ih =>
    obtain ⟨v, w⟩ := p
    simp only [specOpt]
    exact le_max_of_le_left (ih cap)

lemma specOpt_le_total (pairs : List (Int × Int)) (cap : Int)
    (hv : ∀ p ∈ pairs, 0 ≤ p.1) :
    specOpt pairs cap ≤ (pairs.map Prod.fst).sum := by
  induction pairs generalizing cap with
  | nil => simp [specOpt]
  | cons p ps ih =>
    obtain ⟨v, w⟩ := p
    simp only [specOpt, List.map_cons, List.sum_cons, max_le_iff]
    have hv0 : (0 : Int) ≤ v := hv (v, w) (by simp)
    have hps : ∀ q ∈ ps, 0 ≤ q.1 := fun q hq => hv q (List.mem_cons_of_mem _ hq)
    refine ⟨le_trans (ih cap hps) (by omega), ?_⟩
    split
    · have := ih (cap - w) hps
      omega
    · have := ih cap hps
      omega

lemma specOpt_mono (pairs : List (Int × Int)) (c1 c2 : Int) (h : c1 ≤ c2) :
    specOpt pairs c1 ≤ specOpt pairs c2 := by
  induction pairs generalizing c1 c2 with
  | nil => simp [specOpt]
  | cons p ps ih =>
    obtain ⟨v, w⟩ := p
    simp only [specOpt, max_le_iff]
    constructor
    · exact le_max_of_le_left (ih c1 c2 h)
    · split
      · apply le_max_of_le_right
        have hw : w ≤ c2 := by omega
        simp only [if_pos hw]
        have := ih (c1 - w) (c2 - w) (by omega)
        omega
      · exact le_max_of_le_left (ih c1 c2 h)

/-! ### Frame machinery -/

lemma updateAt_oob (l : List Item) (n : Nat) (f : Item → Item) (h : l.length ≤ n) :
    updateAt l n f = l := by
  induction l generalizing n with
  | nil => rfl
  | cons x xs ih =>
    cases n with
    | zero => simp at h
    | succ m => simp [updateAt, ih m (by simpa using h)]

/-- All fields except `isSelected` agree. -/
def fieldsEq (a b : Item) : Prop :=
  a.id = b.id ∧ a.blockedBy = b.blockedBy ∧ a.blockList = b.blockList ∧
  a.value = b.value ∧ a.weight = b.weight

lemma fieldsEq_refl (a : Item) : fieldsEq a a := ⟨rfl, rfl, rfl, rfl, rfl⟩

lemma fieldsEq_trans {a b c : Item} (h1 : fieldsEq a b) (h2 : fieldsEq b c) : fieldsEq a c := by
  obtain ⟨e1, e2, e3, e4, e5⟩ := h1
  obtain ⟨f1, f2, f3, f4, f5⟩ := h2
  exact ⟨e1.trans f1, e2.trans f2, e3.trans f3, e4.trans f4, e5.trans f5⟩

lemma item_eq_of_fieldsEq {a b : Item} (h : fieldsEq a b) (hs : a.isSelected = b.isSelected) :
    a = b := by
  cases a; cases b
  obtain ⟨e1, e2, e3, e4, e5⟩ := h
  simp_all

lemma setSelected_fieldsEq (l : List Item) (n : Nat) (b : Bool) (p : Nat) :
    fieldsEq (getItem (setSelected l n b) p) (getItem l p) := by
  by_cases hn : n < l.length
  · by_cases hp : p = n
    · subst hp
      rw [getItem_setSelected_self l p b hn]
      exact ⟨rfl, rfl, rfl, rfl, rfl⟩
    · rw [getItem_setSelected_ne l n b p hp]
      exact fieldsEq_refl _
  · unfold setSelected
    rw [updateAt_oob l n _ (by omega)]
    exact fieldsEq_refl _

lemma ifGT_eq_max (a b : Int) : (if a > b then a else b) = max a b := by
  rcases le_or_lt a b with h | h
  · rw [if_neg (by omega), max_eq_right h]
  · rw [if_pos h, max_eq_left (le_of_lt h)]

lemma ifGE_eq_max (a b : Int) : (if a ≥ b then a else b) = max a b := by
  rcases le_or_lt b a with h | h
  · rw [if_pos h, max_eq_left h]
  · rw [if_neg (by omega), max_eq_right (le_of_lt h)]

lemma pairsOf_drop_congr (l1 l2 : List Item) (n : Nat) (hl : l1.length = l2.length)
    (h : ∀ p, n ≤ p → p < l1.length →
      (getItem l1 p).value = (getItem l2 p).value ∧ (getItem l1 p).weight = (getItem l2 p).weight) :
    pairsOf (l1.drop n) = pairsOf (l2.drop n) := by
  unfold pairsOf
  exact drop_map_congr _ _ l1 l2 n hl fun p h1 h2 => by
    obtain ⟨hv, hw⟩ := h p h1 h2
    rw [hv, hw]

lemma pairsOf_drop_cons (l : List Item) (n : Nat) (h : n < l.length) :
    pairsOf (l.drop n) =
      ((getItem l n).value, (getItem l n).weight) :: pairsOf (l.drop (n + 1)) := by
  unfold pairsOf
  rw [drop_eq_getItem_cons l n h]
  rfl

lemma valueFrom_congr (l1 l2 : List Item) (n : Nat) (hl : l1.length = l2.length)
    (h : ∀ p, n ≤ p → p < l1.length → (getItem l1 p).value = (getItem l2 p).value) :
    valueFrom l1 n = valueFrom l2 n := by
  unfold valueFrom
  rw [sumValues_true_eq, sumValues_true_eq, drop_map_congr _ _ l1 l2 n hl h]

/-! ### The exhaustive search computes the spec optimum -/

lemma doExhaustiveSearch_base (k : Nat) (items : List Item) (aw : Int) (n : Nat)
    (h : items.length ≤ n) :
    doExhaustiveSearch k items aw n =
      { state := items, solution := items, value := solutionValue items aw, calls := 1 } := by
  cases k <;> simp [doExhaustiveSearch, copyItems, h]

lemma doExhaustiveSearch_node (k : Nat) (items : List Item) (aw : Int) (n : Nat)
    (h : n < items.length) :
    doExhaustiveSearch (k + 1) items aw n =
      (let r1 := doExhaustiveSearch k (setSelected items n true) aw (n + 1)
       let r2 := doExhaustiveSearch k (setSelected r1.state n false) aw (n + 1)
       if r1.value > r2.value then
         { state := r2.state, solution := r1.solution, value := r1.value,
           calls := r1.calls + r2.calls + 1 }
       else
         { state := r2.state, solution := r2.solution, value := r2.value,
           calls := r1.calls + r2.calls + 1 }) := by
  rw [doExhaustiveSearch]
  rw [if_neg (by omega)]


lemma doExhaustiveSearch_spec (k : Nat) :
    ∀ (items : List Item) (aw : Int) (n : Nat),
      n + k = items.length → NonnegItems items →
      (doExhaustiveSearch k items aw n).state.length = items.length ∧
      (∀ p, fieldsEq (getItem (doExhaustiveSearch k items aw n).state p) (getItem items p)) ∧
      (∀ p, p < n → (getItem (doExhaustiveSearch k items aw n).state p).isSelected =
        (getItem items p).isSelected) ∧
      (∀ p, n ≤ p → p < items.length →
        (getItem (doExhaustiveSearch k items aw n).state p).isSelected = false) ∧
      (doExhaustiveSearch k items aw n).value =
        (if weightBefore items n ≤ aw then
          valueBefore items n + specOpt (pairsOf (items.drop n)) (aw - weightBefore items n)
        else -1) ∧
      solutionValue (doExhaustiveSearch k items aw n).solution aw =
        (doExhaustiveSearch k items aw n).value ∧
      (doExhaustiveSearch k items aw n).solution.length = items.length ∧
      (doExhaustiveSearch k items aw n).calls = 2 ^ (k + 1) - 1 := by
  induction k with
  | zero =>
    intro items aw n hn hnn
    have hlen : items.length ≤ n := by omega
    rw [doExhaustiveSearch_base 0 items aw n hlen]
    refine ⟨rfl, fun p => fieldsEq_refl _, fun p _ => rfl, fun p h1 h2 => by omega, ?_, rfl, rfl, rfl⟩
    rw [valueBefore_all items n hlen, weightBefore_all items n hlen,
      List.drop_eq_nil_of_le hlen]
    have hze : specOpt (pairsOf []) (aw - sumWeights items false) = 0 := rfl
    rw [hze]
    unfold solutionValue
    rcases le_or_lt (sumWeights items false) aw with h | h
    · rw [if_neg (by omega), if_pos h]
      ring
    · rw [if_pos h, if_neg (by omega)]
  | succ k ih =>
    intro items aw n hn hnn
    have hlt : n < items.length := by omega
    rw [doExhaustiveSearch_node k items aw n hlt]
    simp only
    set items1 := setSelected items n true with hitems1
    have hl1 : items1.length = items.length := setSelected_length items n true
    have hf1 : ∀ p, fieldsEq (getItem items1 p) (getItem items p) :=
      setSelected_fieldsEq items n true
    have hs1ne : ∀ p, p ≠ n → getItem items1 p = getItem items p :=
      fun p hp => getItem_setSelected_ne items n true p hp
    have hs1n : getItem items1 n = { getItem items n with isSelected := true } :=
      getItem_setSelected_self items n true hlt
    have hnn1 : NonnegItems items1 :=
      nonneg_transfer items items1 hl1 (fun p _ => ⟨(hf1 p).2.2.2.1, (hf1 p).2.2.2.2⟩) hnn
    obtain ⟨ih1len, ih1f, ih1lo, ih1hi, ih1val, ih1sol, ih1sollen, ih1calls⟩ :=
      ih items1 aw (n + 1) (by omega) hnn1
    set r1 := doExhaustiveSearch k items1 aw (n + 1) with hr1
    set items2 := setSelected r1.state n false with hitems2
    have hl2 : items2.length = items.length := by
      rw [hitems2, setSelected_length, ih1len, hl1]
    have hf2 : ∀ p, fieldsEq (getItem items2 p) (getItem items p) := fun p =>
      fieldsEq_trans (setSelected_fieldsEq r1.state n false p) (fieldsEq_trans (ih1f p) (hf1 p))
    have hnn2 : NonnegItems items2 :=
      nonneg_transfer items items2 hl2 (fun p _ => ⟨(hf2 p).2.2.2.1, (hf2 p).2.2.2.2⟩) hnn
    obtain ⟨ih2len, ih2f, ih2lo, ih2hi, ih2val, ih2sol, ih2sollen, ih2calls⟩ :=
      ih items2 aw (n + 1) (by omega) hnn2
    set r2 := doExhaustiveSearch k items2 aw (n + 1) with hr2
    have hsel1lo : ∀ p, p < n → (getItem items1 p).isSelected = (getItem items p).isSelected :=
      fun p hp => by rw [hs1ne p (by omega)]
    have hsel2lo : ∀ p, p < n → (getItem items2 p).isSelected = (getItem items p).isSelected := by
      intro p hp
      rw [hitems2, getItem_setSelected_ne _ n false p (by omega)]
      rw [ih1lo p (by omega), hsel1lo p hp]
    have hsel2n : (getItem items2 n).isSelected = false := by
      rw [hitems2, getItem_setSelected_self _ n false (by rw [ih1len, hl1]; omega)]
    have hvb1 : valueBefore items1 (n + 1) = valueBefore items n + (getItem items n).value := by
      rw [valueBefore_succ items1 n (by omega), hs1n,
        valueBefore_congr items1 items n (by omega) (fun p h1 _ => hs1ne p (by omega))]
      simp [selVal]
    have hwb1 : weightBefore items1 (n + 1) = weightBefore items n + (getItem items n).weight := by
      rw [weightBefore_succ items1 n (by omega), hs1n,
        weightBefore_congr items1 items n (by omega) (fun p h1 _ => hs1ne p (by omega))]
      simp [selWt]
    have hitems2eqlo : ∀ p, p < n → getItem items2 p = getItem items p := by
      intro p hp
      exact item_eq_of_fieldsEq (hf2 p) (hsel2lo p hp)
    have hvb2 : valueBefore items2 (n + 1) = valueBefore items n := by
      rw [valueBefore_succ items2 n (by omega),
        valueBefore_congr items2 items n (by omega) (fun p h1 _ => hitems2eqlo p h1)]
      simp [selVal, hsel2n]
    have hwb2 : weightBefore items2 (n + 1) = weightBefore items n := by
      rw [weightBefore_succ items2 n (by omega),
        weightBefore_congr items2 items n (by omega) (fun p h1 _ => hitems2eqlo p h1)]
      simp [selWt, hsel2n]
    have hp1 : pairsOf (items1.drop (n + 1)) = pairsOf (items.drop (n + 1)) :=
      pairsOf_drop_congr items1 items (n + 1) (by omega)
        (fun p _ _ => ⟨(hf1 p).2.2.2.1, (hf1 p).2.2.2.2⟩)
    have hp2 : pairsOf (items2.drop (n + 1)) = pairsOf (items.drop (n + 1)) :=
      pairsOf_drop_congr items2 items (n + 1) (by omega)
        (fun p _ _ => ⟨(hf2 p).2.2.2.1, (hf2 p).2.2.2.2⟩)
    have hpcons : pairsOf (items.drop n) =
        ((getItem items n).value, (getItem items n).weight) :: pairsOf (items.drop (n + 1)) :=
      pairsOf_drop_cons items n hlt
    have hvnn : 0 ≤ (getItem items n).value := (hnn _ (getItem_mem items n hlt)).1
    have hwnn : 0 ≤ (getItem items n).weight := (hnn _ (getItem_mem items n hlt)).2
    have hvbnn : 0 ≤ valueBefore items n := valueBefore_nonneg items n hnn
    -- the value of the combined result is the max of the branch values
    have hmaxval : max r1.value r2.value =
        (if weightBefore items n ≤ aw then
          valueBefore items n + specOpt (pairsOf (items.drop n)) (aw - weightBefore items n)
        else -1) := by
      rw [ih1val, ih2val, hvb1, hwb1, hvb2, hwb2, hp1, hp2, hpcons]
      rcases le_or_lt (weightBefore items n) aw with hw | hw
      · rcases le_or_lt (weightBefore items n + (getItem items n).weight) aw with hw1 | hw1
        · rw [if_pos hw1, if_pos hw, if_pos hw]
          simp only [specOpt]
          rw [if_pos (by omega : (getItem items n).weight ≤ aw - weightBefore items n)]
          rw [show aw - (weightBefore items n + (getItem items n).weight) =
            aw - weightBefore items n - (getItem items n).weight by ring]
          rw [max_def, max_def]
          split_ifs <;> omega
        · rw [if_neg (by omega), if_pos hw, if_pos hw]
          simp only [specOpt]
          rw [if_neg (by omega : ¬ (getItem items n).weight ≤ aw - weightBefore items n)]
          rw [max_self]
          have h0 : 0 ≤ specOpt (pairsOf (items.drop (n + 1))) (aw - weightBefore items n) :=
            specOpt_nonneg _ _
          rw [max_eq_right (by omega)]
      · rw [if_neg (by omega), if_neg (by omega), if_neg (by omega)]
        simp
    refine ⟨?_, ?_, ?_, ?_, ?_, ?_, ?_, ?_⟩
    · split <;> simpa [ih2len, hl2]
    · intro p
      have hchain : fieldsEq (getItem r2.state p) (getItem items p) :=
        fieldsEq_trans (ih2f p) (hf2 p)
      split <;> simpa using hchain
    · intro p hp
      have hchain : (getItem r2.state p).isSelected = (getItem items p).isSelected := by
        rw [ih2lo p (by omega), hsel2lo p hp]
      split <;> simpa using hchain
    · intro p h1 h2
      have hchain : (getItem r2.state p).isSelected = false := by
        rcases eq_or_lt_of_le h1 with heq | hgt
        · rw [ih2lo p (by omega), ← heq]
          exact hsel2n
        · exact ih2hi p (by omega) (by omega)
      split <;> simpa using hchain
    · rcases le_or_lt r1.value r2.value with h | h
      · rw [if_neg (by omega)]
        show r2.value = _
        rw [← hmaxval, max_eq_right h]
      · rw [if_pos h]
        show r1.value = _
        rw [← hmaxval, max_eq_left (le_of_lt h)]
    · rcases le_or_lt r1.value r2.value with h | h
      · rw [if_neg (by omega)]
        exact ih2sol
      · rw [if_pos h]
        exact ih1sol
    · rcases le_or_lt r1.value r2.value with h | h
      · rw [if_neg (by omega)]
        show r2.solution.length = _
        rw [ih2sollen, hl2]
      · rw [if_pos h]
        show r1.solution.length = _
        rw [ih1sollen, hl1]
    · have h1 : (1 : Nat) ≤ 2 ^ (k + 1) := Nat.one_le_two_pow
      have h2 : 2 ^ (k + 1 + 1) = 2 ^ (k + 1) * 2 := pow_succ 2 (k + 1)
      split <;> show _ + _ + 1 = _ <;> rw [ih1calls, ih2calls] <;> omega

lemma exhaustiveSearch_calls_aux (k : Nat) :
    ∀ (items : List Item) (aw : Int) (n : Nat), n + k = items.length →
      (doExhaustiveSearch k items aw n).state.length = items.length ∧
      (doExhaustiveSearch k items aw n).calls = 2 ^ (k + 1) - 1 := by
  induction k with
  | zero =>
    intro items aw n hn
    rw [doExhaustiveSearch_base 0 items aw n (by omega)]
    exact ⟨rfl, rfl⟩
  | succ k ih =>
    intro items aw n hn
    have hlt : n < items.length := by omega
    rw [doExhaustiveSearch_node k items aw n hlt]
    simp only
    set items1 := setSelected items n true with hitems1
    have hl1 : items1.length = items.length := setSelected_length items n true
    obtain ⟨ih1len, ih1calls⟩ := ih items1 aw (n + 1) (by omega)
    set r1 := doExhaustiveSearch k items1 aw (n + 1) with hr1
    set items2 := setSelected r1.state n false with hitems2
    have hl2 : items2.length = items.length := by
      rw [hitems2, setSelected_length, ih1len, hl1]
    obtain ⟨ih2len, ih2calls⟩ := ih items2 aw (n + 1) (by omega)
    set r2 := doExhaustiveSearch k items2 aw (n + 1) with hr2
    have h1 : (1 : Nat) ≤ 2 ^ (k + 1) := Nat.one_le_two_pow
    have h2 : 2 ^ (k + 1 + 1) = 2 ^ (k + 1) * 2 := pow_succ 2 (k + 1)
    constructor
    · split <;> show r2.state.length = _ <;> rw [ih2len, hl2]
    · split <;> show _ + _ + 1 = _ <;> rw [ih1calls, ih2calls] <;> omega

/-! ### Branch and bound: unfolding equations -/

lemma doBranchAndBound_base (k : Nat) (items : List Item) (aw : Int) (n : Nat)
    (best curV curW remV : Int) (h : items.length ≤ n) :
    doBranchAndBound k items aw n best curV curW remV =
      { state := items, solution := items, value := solutionValue items aw, calls := 1 } := by
  cases k <;> simp [doBranchAndBound, copyItems, h]

lemma doBranchAndBound_prune (k : Nat) (items : List Item) (aw : Int) (n : Nat)
    (best curV curW remV : Int) (h1 : n < items.length) (h2 : curV + remV < best) :
    doBranchAndBound k items aw n best curV curW remV =
      { state := items, solution := [], value := 0, calls := 1 } := by
  cases k <;> simp [doBranchAndBound, h2, show ¬ items.length ≤ n by omega]

lemma doBranchAndBound_zero_node (items : List Item) (aw : Int) (n : Nat)
    (best curV curW remV : Int) (h1 : n < items.length) :
    doBranchAndBound 0 items aw n best curV curW remV =
      { state := items, solution := [], value := 0, calls := 1 } := by
  rw [doBranchAndBound]
  rw [if_neg (by omega)]
  split <;> rfl

lemma doBranchAndBound_node (k : Nat) (items : List Item) (aw : Int) (n : Nat)
    (best curV curW remV : Int) (h1 : n < items.length) (h2 : ¬ (curV + remV < best)) :
    doBranchAndBound (k + 1) items aw n best curV curW remV =
      (let it := getItem items n
       let r1 :=
         if curW + it.weight ≤ aw then
           doBranchAndBound k (setSelected items n true) aw (n + 1)
             best (curV + it.value) (curW + it.weight) (remV - it.value)
         else { state := items, solution := [], value := 0, calls := 1 }
       let best1 := if r1.value > best then r1.value else best
       let r2 :=
         if curV + remV - it.value > best1 then
           doBranchAndBound k (setSelected r1.state n false) aw (n + 1)
             best1 curV curW (remV - it.value)
         else { state := r1.state, solution := [], value := 0, calls := 1 }
       if r1.value ≥ r2.value then
         { state := r2.state, solution := r1.solution, value := r1.value,
           calls := r1.calls + r2.calls + 1 }
       else
         { state := r2.state, solution := r2.solution, value := r2.value,
           calls := r1.calls + r2.calls + 1 }) := by
  rw [doBranchAndBound]
  rw [if_neg (by omega), if_neg h2]

/-- The best value obtainable by completing the current partial assignment
(the prefix before `n` is fixed, the rest is free). -/
def bnbM (items : List Item) (aw : Int) (n : Nat) : Int :=
  valueBefore items n + specOpt (pairsOf (items.drop n)) (aw - weightBefore items n)

lemma pairsOf_fst_sum (l : List Item) : ((pairsOf l).map Prod.fst).sum = (l.map Item.value).sum := by
  unfold pairsOf
  rw [List.map_map]
  rfl

lemma specOpt_le_valueFrom (items : List Item) (n : Nat) (c : Int) (hnn : NonnegItems items) :
    specOpt (pairsOf (items.drop n)) c ≤ valueFrom items n := by
  have hv : ∀ p ∈ pairsOf (items.drop n), 0 ≤ p.1 := by
    intro p hp
    obtain ⟨it, hit, rfl⟩ := List.mem_map.mp hp
    exact (hnn it (List.mem_of_mem_drop hit)).1
  have h := specOpt_le_total (pairsOf (items.drop n)) c hv
  rw [pairsOf_fst_sum] at h
  unfold valueFrom
  rw [sumValues_true_eq]
  exact h

lemma bnbM_nonneg (items : List Item) (aw : Int) (n : Nat) (hnn : NonnegItems items) :
    0 ≤ bnbM items aw n := by
  unfold bnbM
  have h1 := valueBefore_nonneg items n hnn
  have h2 := specOpt_nonneg (pairsOf (items.drop n)) (aw - weightBefore items n)
  omega

lemma bnbM_le (items : List Item) (aw : Int) (n : Nat) (hnn : NonnegItems items) :
    bnbM items aw n ≤ valueBefore items n + valueFrom items n := by
  unfold bnbM
  have := specOpt_le_valueFrom items n (aw - weightBefore items n) hnn
  omega

lemma doBranchAndBound_spec (k : Nat) :
    ∀ (items : List Item) (aw : Int) (n : Nat) (best : Int),
      n + k = items.length → NonnegItems items →
      weightBefore items n ≤ aw → 0 ≤ best →
      (doBranchAndBound k items aw n best (valueBefore items n) (weightBefore items n)
        (valueFrom items n)).state.length = items.length ∧
      (∀ p, fieldsEq (getItem (doBranchAndBound k items aw n best (valueBefore items n)
        (weightBefore items n) (valueFrom items n)).state p) (getItem items p)) ∧
      (∀ p, p < n → (getItem (doBranchAndBound k items aw n best (valueBefore items n)
        (weightBefore items n) (valueFrom items n)).state p).isSelected =
        (getItem items p).isSelected) ∧
      0 ≤ (doBranchAndBound k items aw n best (valueBefore items n) (weightBefore items n)
        (valueFrom items n)).value ∧
      (doBranchAndBound k items aw n best (valueBefore items n) (weightBefore items n)
        (valueFrom items n)).value ≤ bnbM items aw n ∧
      (best < bnbM items aw n →
        (doBranchAndBound k items aw n best (valueBefore items n) (weightBefore items n)
          (valueFrom items n)).value = bnbM items aw n) ∧
      ((doBranchAndBound k items aw n best (valueBefore items n) (weightBefore items n)
        (valueFrom items n)).solution = [] →
        (doBranchAndBound k items aw n best (valueBefore items n) (weightBefore items n)
          (valueFrom items n)).value = 0) ∧
      ((doBranchAndBound k items aw n best (valueBefore items n) (weightBefore items n)
        (valueFrom items n)).solution ≠ [] →
        (doBranchAndBound k items aw n best (valueBefore items n) (weightBefore items n)
          (valueFrom items n)).solution.length = items.length ∧
        sumWeights (doBranchAndBound k items aw n best (valueBefore items n)
          (weightBefore items n) (valueFrom items n)).solution false ≤ aw ∧
        sumValues (doBranchAndBound k items aw n best (valueBefore items n)
          (weightBefore items n) (valueFrom items n)).solution false =
        (doBranchAndBound k items aw n best (valueBefore items n) (weightBefore items n)
          (valueFrom items n)).value) := by
  induction k with
  | zero =>
    intro items aw n best hn hnn hwle hbest
    have hlen : items.length ≤ n := by omega
    rw [doBranchAndBound_base 0 items aw n best _ _ _ hlen]
    have hwall : sumWeights items false = weightBefore items n := (weightBefore_all items n hlen).symm
    have hvall : sumValues items false = valueBefore items n := (valueBefore_all items n hlen).symm
    have hsv : solutionValue items aw = valueBefore items n := by
      unfold solutionValue
      rw [if_neg (by omega), hvall]
    have hM : bnbM items aw n = valueBefore items n := by
      unfold bnbM
      rw [List.drop_eq_nil_of_le hlen]
      have hze : specOpt (pairsOf []) (aw - weightBefore items n) = 0 := rfl
      rw [hze]
      ring
    have hvb0 : 0 ≤ valueBefore items n := valueBefore_nonneg items n hnn
    refine ⟨rfl, fun p => fieldsEq_refl _, fun p _ => rfl, ?_, ?_, ?_, ?_, ?_⟩
    · show 0 ≤ solutionValue items aw
      rw [hsv]; exact hvb0
    · show solutionValue items aw ≤ _
      rw [hsv, hM]
    · intro _
      show solutionValue items aw = _
      rw [hsv, hM]
    · intro hsol
      show solutionValue items aw = 0
      rw [hsv]
      have : items.length = 0 := by
        have := congrArg List.length hsol
        simpa using this
      have hnil : items = [] := List.length_eq_zero.mp this
      rw [hnil] at hvall ⊢
      rw [← hvall]
      rfl
    · intro hsol
      refine ⟨rfl, by rw [hwall]; exact hwle, by rw [hvall, hsv]⟩
  | succ k ih =>
    intro items aw n best hn hnn hwle hbest
    have hlt : n < items.length := by omega
    by_cases hpr : valueBefore items n + valueFrom items n < best
    · -- prune: nothing can beat the best found so far
      rw [doBranchAndBound_prune (k + 1) items aw n best _ _ _ hlt hpr]
      have hMle : bnbM items aw n ≤ valueBefore items n + valueFrom items n := bnbM_le items aw n hnn
      have hM0 : 0 ≤ bnbM items aw n := bnbM_nonneg items aw n hnn
      exact ⟨rfl, fun p => fieldsEq_refl _, fun p _ => rfl, le_refl 0,
        show (0 : Int) ≤ _ by omega,
        fun h => absurd h (by omega), fun _ => rfl, fun h => absurd rfl h⟩
    · rw [doBranchAndBound_node k items aw n best _ _ _ hlt hpr]
      simp only
      -- abbreviations for the structure of bnbM at this node
      set A := valueBefore items n with hA
      set W := weightBefore items n with hW
      set R := valueFrom items n with hR
      set v := (getItem items n).value with hv
      set w := (getItem items n).weight with hwdef
      set S2 := specOpt (pairsOf (items.drop (n + 1))) (aw - W) with hS2
      set S1 := specOpt (pairsOf (items.drop (n + 1))) (aw - W - w) with hS1
      have hvnn : 0 ≤ v := (hnn _ (getItem_mem items n hlt)).1
      have hwnn : 0 ≤ w := (hnn _ (getItem_mem items n hlt)).2
      have hAnn : 0 ≤ A := valueBefore_nonneg items n hnn
      have hS1nn : 0 ≤ S1 := specOpt_nonneg _ _
      have hS2nn : 0 ≤ S2 := specOpt_nonneg _ _
      have hRsucc : R = v + valueFrom items (n + 1) := valueFrom_succ items n hlt
      have hS2le : S2 ≤ valueFrom items (n + 1) :=
        specOpt_le_valueFrom items (n + 1) (aw - W) hnn
      have hS1le : S1 ≤ valueFrom items (n + 1) :=
        specOpt_le_valueFrom items (n + 1) (aw - W - w) hnn
      have hMsplit : bnbM items aw n = valueBefore items n +
          max (specOpt (pairsOf (items.drop (n + 1))) (aw - weightBefore items n))
            (if (getItem items n).weight ≤ aw - weightBefore items n then
              (getItem items n).value +
                specOpt (pairsOf (items.drop (n + 1)))
                  (aw - weightBefore items n - (getItem items n).weight)
            else specOpt (pairsOf (items.drop (n + 1))) (aw - weightBefore items n)) := by
        unfold bnbM
        rw [pairsOf_drop_cons items n hlt]
        rfl
      have hvnn : 0 ≤ (getItem items n).value := (hnn _ (getItem_mem items n hlt)).1
      have hwnn : 0 ≤ (getItem items n).weight := (hnn _ (getItem_mem items n hlt)).2
      have hAnn : 0 ≤ valueBefore items n := valueBefore_nonneg items n hnn
      have hS1nn : 0 ≤ specOpt (pairsOf (items.drop (n + 1)))
          (aw - weightBefore items n - (getItem items n).weight) := specOpt_nonneg _ _
      have hS2nn : 0 ≤ specOpt (pairsOf (items.drop (n + 1))) (aw - weightBefore items n) :=
        specOpt_nonneg _ _
      have hRsucc : valueFrom items n = (getItem items n).value + valueFrom items (n + 1) :=
        valueFrom_succ items n hlt
      have hS2le : specOpt (pairsOf (items.drop (n + 1))) (aw - weightBefore items n) ≤
          valueFrom items (n + 1) := specOpt_le_valueFrom items (n + 1) _ hnn
      have hS1le : specOpt (pairsOf (items.drop (n + 1)))
          (aw - weightBefore items n - (getItem items n).weight) ≤ valueFrom items (n + 1) :=
        specOpt_le_valueFrom items (n + 1) _ hnn
      have hS2max : valueBefore items n +
          specOpt (pairsOf (items.drop (n + 1))) (aw - weightBefore items n) ≤ bnbM items aw n := by
        rw [hMsplit]
        have := le_max_left
          (specOpt (pairsOf (items.drop (n + 1))) (aw - weightBefore items n))
          (if (getItem items n).weight ≤ aw - weightBefore items n then
            (getItem items n).value + specOpt (pairsOf (items.drop (n + 1)))
              (aw - weightBefore items n - (getItem items n).weight)
          else specOpt (pairsOf (items.drop (n + 1))) (aw - weightBefore items n))
        omega
      by_cases hinc : weightBefore items n + (getItem items n).weight ≤ aw
      · -- include branch explored
        rw [if_pos hinc]
        have hM' : bnbM items aw n = valueBefore items n +
            max (specOpt (pairsOf (items.drop (n + 1))) (aw - weightBefore items n))
              ((getItem items n).value + specOpt (pairsOf (items.drop (n + 1)))
                (aw - weightBefore items n - (getItem items n).weight)) := by
          rw [hMsplit, if_pos (by omega : (getItem items n).weight ≤ aw - weightBefore items n)]
        have hM1le : valueBefore items n + (getItem items n).value +
            specOpt (pairsOf (items.drop (n + 1)))
              (aw - weightBefore items n - (getItem items n).weight) ≤ bnbM items aw n := by
          rw [hM']
          have := le_max_right
            (specOpt (pairsOf (items.drop (n + 1))) (aw - weightBefore items n))
            ((getItem items n).value + specOpt (pairsOf (items.drop (n + 1)))
              (aw - weightBefore items n - (getItem items n).weight))
          omega
        have hMch : bnbM items aw n = valueBefore items n +
              specOpt (pairsOf (items.drop (n + 1))) (aw - weightBefore items n) ∨
            bnbM items aw n = valueBefore items n + (getItem items n).value +
              specOpt (pairsOf (items.drop (n + 1)))
                (aw - weightBefore items n - (getItem items n).weight) := by
          rw [hM']
          rcases max_choice
            (specOpt (pairsOf (items.drop (n + 1))) (aw - weightBefore items n))
            ((getItem items n).value + specOpt (pairsOf (items.drop (n + 1)))
              (aw - weightBefore items n - (getItem items n).weight)) with h | h
          · left; rw [h]
          · right; rw [h]; ring
        have hl1 : (setSelected items n true).length = items.length := setSelected_length items n true
        have hf1 : ∀ p, fieldsEq (getItem (setSelected items n true) p) (getItem items p) :=
          setSelected_fieldsEq items n true
        have hs1ne : ∀ p, p ≠ n → getItem (setSelected items n true) p = getItem items p :=
          fun p hp => getItem_setSelected_ne items n true p hp
        have hs1n : getItem (setSelected items n true) n =
            { getItem items n with isSelected := true } :=
          getItem_setSelected_self items n true hlt
        have hnn1 : NonnegItems (setSelected items n true) :=
          nonneg_transfer items _ hl1 (fun p _ => ⟨(hf1 p).2.2.2.1, (hf1 p).2.2.2.2⟩) hnn
        have hvb1 : valueBefore (setSelected items n true) (n + 1) =
            valueBefore items n + (getItem items n).value := by
          rw [valueBefore_succ _ n (by omega), hs1n,
            valueBefore_congr (setSelected items n true) items n (by omega)
              (fun p h1 _ => hs1ne p (by omega))]
          simp [selVal]
        have hwb1 : weightBefore (setSelected items n true) (n + 1) =
            weightBefore items n + (getItem items n).weight := by
          rw [weightBefore_succ _ n (by omega), hs1n,
            weightBefore_congr (setSelected items n true) items n (by omega)
              (fun p h1 _ => hs1ne p (by omega))]
          simp [selWt]
        have hp1 : pairsOf ((setSelected items n true).drop (n + 1)) =
            pairsOf (items.drop (n + 1)) :=
          pairsOf_drop_congr _ items (n + 1) (by omega)
            (fun p _ _ => ⟨(hf1 p).2.2.2.1, (hf1 p).2.2.2.2⟩)
        have hvf1 : valueFrom (setSelected items n true) (n + 1) =
            valueFrom items n - (getItem items n).value := by
          rw [valueFrom_congr (setSelected items n true) items (n + 1) (by omega)
            (fun p _ _ => (hf1 p).2.2.2.1), hRsucc]
          ring
        have hM1 : bnbM (setSelected items n true) aw (n + 1) =
            valueBefore items n + (getItem items n).value +
              specOpt (pairsOf (items.drop (n + 1)))
                (aw - weightBefore items n - (getItem items n).weight) := by
          unfold bnbM
          rw [hvb1, hwb1, hp1, show aw - (weightBefore items n + (getItem items n).weight) =
            aw - weightBefore items n - (getItem items n).weight by ring]
        obtain ⟨ih1len, ih1f, ih1lo, ih1v0, ih1le, ih1eq, ih1solnil, ih1solok⟩ :=
          ih (setSelected items n true) aw (n + 1) best (by omega) hnn1
            (by rw [hwb1]; exact hinc) hbest
        rw [hvb1, hwb1, hvf1] at ih1len ih1f ih1lo ih1v0 ih1le ih1eq ih1solnil ih1solok
        rw [hM1] at ih1le ih1eq
        rw [hl1] at ih1len
        set r1 := doBranchAndBound k (setSelected items n true) aw (n + 1) best
          (valueBefore items n + (getItem items n).value)
          (weightBefore items n + (getItem items n).weight)
          (valueFrom items n - (getItem items n).value) with hr1def
        have hb1ge1 : best ≤ (if r1.value > best then r1.value else best) := by
          split <;> omega
        have hb1ge2 : r1.value ≤ (if r1.value > best then r1.value else best) := by
          split <;> omega
        have hb1cases : (if r1.value > best then r1.value else best) = best ∨
            (if r1.value > best then r1.value else best) = r1.value := by
          split
          · right; rfl
          · left; rfl
        have hb1nn : 0 ≤ (if r1.value > best then r1.value else best) := by omega
        have f1len : r1.state.length = items.length := ih1len
        have f1f : ∀ p, fieldsEq (getItem r1.state p) (getItem items p) :=
          fun p => fieldsEq_trans (ih1f p) (hf1 p)
        have f1sel : ∀ p, p < n → (getItem r1.state p).isSelected =
            (getItem items p).isSelected := by
          intro p hp
          rw [ih1lo p (by omega), getItem_setSelected_ne items n true p (by omega)]
        have hl2 : (setSelected r1.state n false).length = items.length := by
          rw [setSelected_length, f1len]
        have hf2 : ∀ p, fieldsEq (getItem (setSelected r1.state n false) p) (getItem items p) :=
          fun p => fieldsEq_trans (setSelected_fieldsEq r1.state n false p) (f1f p)
        have heq2lo : ∀ p, p < n → getItem (setSelected r1.state n false) p = getItem items p := by
          intro p hp
          rw [getItem_setSelected_ne r1.state n false p (by omega)]
          exact item_eq_of_fieldsEq (f1f p) (f1sel p hp)
        have hsel2n : (getItem (setSelected r1.state n false) n).isSelected = false := by
          rw [getItem_setSelected_self r1.state n false (by rw [f1len]; omega)]
        have hnn2 : NonnegItems (setSelected r1.state n false) :=
          nonneg_transfer items _ hl2 (fun p _ => ⟨(hf2 p).2.2.2.1, (hf2 p).2.2.2.2⟩) hnn
        have hvb2 : valueBefore (setSelected r1.state n false) (n + 1) = valueBefore items n := by
          rw [valueBefore_succ _ n (by rw [hl2]; omega),
            valueBefore_congr (setSelected r1.state n false) items n (by rw [hl2])
              (fun p h1 _ => heq2lo p h1)]
          simp [selVal, hsel2n]
        have hwb2 : weightBefore (setSelected r1.state n false) (n + 1) = weightBefore items n := by
          rw [weightBefore_succ _ n (by rw [hl2]; omega),
            weightBefore_congr (setSelected r1.state n false) items n (by rw [hl2])
              (fun p h1 _ => heq2lo p h1)]
          simp [selWt, hsel2n]
        have hp2 : pairsOf ((setSelected r1.state n false).drop (n + 1)) =
            pairsOf (items.drop (n + 1)) :=
          pairsOf_drop_congr _ items (n + 1) (by rw [hl2])
            (fun p _ _ => ⟨(hf2 p).2.2.2.1, (hf2 p).2.2.2.2⟩)
        have hvf2 : valueFrom (setSelected r1.state n false) (n + 1) =
            valueFrom items n - (getItem items n).value := by
          rw [valueFrom_congr (setSelected r1.state n false) items (n + 1) (by rw [hl2])
            (fun p _ _ => (hf2 p).2.2.2.1), hRsucc]
          ring
        have hM2 : bnbM (setSelected r1.state n false) aw (n + 1) =
            valueBefore items n +
              specOpt (pairsOf (items.drop (n + 1))) (aw - weightBefore items n) := by
          unfold bnbM
          rw [hvb2, hwb2, hp2]
        by_cases g2 : valueBefore items n + valueFrom items n - (getItem items n).value >
            (if r1.value > best then r1.value else best)
        · rw [if_pos g2]
          obtain ⟨ih2len, ih2f, ih2lo, ih2v0, ih2le, ih2eq, ih2solnil, ih2solok⟩ :=
            ih (setSelected r1.state n false) aw (n + 1)
              (if r1.value > best then r1.value else best) (by rw [hl2]; omega) hnn2
              (by rw [hwb2]; exact hwle) hb1nn
          rw [hvb2, hwb2, hvf2] at ih2len ih2f ih2lo ih2v0 ih2le ih2eq ih2solnil ih2solok
          rw [hM2] at ih2le ih2eq
          rw [hl2] at ih2len
          set r2 := doBranchAndBound k (setSelected r1.state n false) aw (n + 1)
            (if r1.value > best then r1.value else best) (valueBefore items n)
            (weightBefore items n) (valueFrom items n - (getItem items n).value) with hr2def
          rcases le_or_lt r2.value r1.value with hc | hc
          · rw [if_pos (show r1.value ≥ r2.value from hc)]
            refine ⟨ih2len, fun p => fieldsEq_trans (ih2f p) (hf2 p), ?_, ih1v0, ?_, ?_, ?_, ?_⟩
            · intro p hp
              show (getItem r2.state p).isSelected = (getItem items p).isSelected
              rw [ih2lo p (by omega)]
              exact congrArg Item.isSelected (heq2lo p hp)
            · show r1.value ≤ bnbM items aw n
              omega
            · intro hbM
              show r1.value = bnbM items aw n
              rcases hMch with hcase | hcase
              · by_cases hg : (if r1.value > best then r1.value else best) <
                    valueBefore items n +
                      specOpt (pairsOf (items.drop (n + 1))) (aw - weightBefore items n)
                · have hr2 := ih2eq hg
                  omega
                · rcases hb1cases with hbc | hbc
                  · exfalso
                    omega
                  · omega
              · have hr1 := ih1eq (by omega)
                omega
            · intro hsol
              exact ih1solnil hsol
            · intro hsol
              obtain ⟨e1, e2, e3⟩ := ih1solok hsol
              exact ⟨e1.trans hl1, e2, e3⟩
          · rw [if_neg (show ¬ (r1.value ≥ r2.value) by omega)]
            refine ⟨ih2len, fun p => fieldsEq_trans (ih2f p) (hf2 p), ?_, ih2v0, ?_, ?_, ?_, ?_⟩
            · intro p hp
              show (getItem r2.state p).isSelected = (getItem items p).isSelected
              rw [ih2lo p (by omega)]
              exact congrArg Item.isSelected (heq2lo p hp)
            · show r2.value ≤ bnbM items aw n
              omega
            · intro hbM
              show r2.value = bnbM items aw n
              rcases hMch with hcase | hcase
              · by_cases hg : (if r1.value > best then r1.value else best) <
                    valueBefore items n +
                      specOpt (pairsOf (items.drop (n + 1))) (aw - weightBefore items n)
                · have hr2 := ih2eq hg
                  omega
                · rcases hb1cases with hbc | hbc
                  · exfalso
                    omega
                  · omega
              · have hr1 := ih1eq (by omega)
                omega
            · intro hsol
              exact ih2solnil hsol
            · intro hsol
              obtain ⟨e1, e2, e3⟩ := ih2solok hsol
              exact ⟨e1.trans hl2, e2, e3⟩
        · rw [if_neg g2]
          simp only
          have hS2R : specOpt (pairsOf (items.drop (n + 1))) (aw - weightBefore items n) ≤
              valueFrom items n - (getItem items n).value := by omega
          rw [if_pos (show r1.value ≥ (0 : Int) from ih1v0)]
          refine ⟨f1len, fun p => f1f p, ?_, ih1v0, ?_, ?_, ?_, ?_⟩
          · intro p hp
            show (getItem r1.state p).isSelected = (getItem items p).isSelected
            exact f1sel p hp
          · show r1.value ≤ bnbM items aw n
            omega
          · intro hbM
            show r1.value = bnbM items aw n
            rcases hMch with hcase | hcase
            · rcases hb1cases with hbc | hbc
              · exfalso
                omega
              · omega
            · have hr1 := ih1eq (by omega)
              omega
          · intro hsol
            exact ih1solnil hsol
          · intro hsol
            obtain ⟨e1, e2, e3⟩ := ih1solok hsol
            exact ⟨e1.trans hl1, e2, e3⟩
      · -- include branch skipped: the item does not fit
        rw [if_neg hinc]
        simp only
        have hM2' : bnbM items aw n = valueBefore items n +
            specOpt (pairsOf (items.drop (n + 1))) (aw - weightBefore items n) := by
          rw [hMsplit, if_neg (by omega : ¬ (getItem items n).weight ≤ aw - weightBefore items n),
            max_self]
        rw [if_neg (show ¬ ((0 : Int) > best) by omega)]
        have hl2 : (setSelected items n false).length = items.length :=
          setSelected_length items n false
        have hf2 : ∀ p, fieldsEq (getItem (setSelected items n false) p) (getItem items p) :=
          setSelected_fieldsEq items n false
        have heq2lo : ∀ p, p < n → getItem (setSelected items n false) p = getItem items p :=
          fun p hp => getItem_setSelected_ne items n false p (by omega)
        have hsel2n : (getItem (setSelected items n false) n).isSelected = false := by
          rw [getItem_setSelected_self items n false hlt]
        have hnn2 : NonnegItems (setSelected items n false) :=
          nonneg_transfer items _ hl2 (fun p _ => ⟨(hf2 p).2.2.2.1, (hf2 p).2.2.2.2⟩) hnn
        have hvb2 : valueBefore (setSelected items n false) (n + 1) = valueBefore items n := by
          rw [valueBefore_succ _ n (by omega),
            valueBefore_congr (setSelected items n false) items n (by omega)
              (fun p h1 _ => heq2lo p h1)]
          simp [selVal, hsel2n]
        have hwb2 : weightBefore (setSelected items n false) (n + 1) = weightBefore items n := by
          rw [weightBefore_succ _ n (by omega),
            weightBefore_congr (setSelected items n false) items n (by omega)
              (fun p h1 _ => heq2lo p h1)]
          simp [selWt, hsel2n]
        have hp2 : pairsOf ((setSelected items n false).drop (n + 1)) =
            pairsOf (items.drop (n + 1)) :=
          pairsOf_drop_congr _ items (n + 1) (by omega)
            (fun p _ _ => ⟨(hf2 p).2.2.2.1, (hf2 p).2.2.2.2⟩)
        have hvf2 : valueFrom (setSelected items n false) (n + 1) =
            valueFrom items n - (getItem items n).value := by
          rw [valueFrom_congr (setSelected items n false) items (n + 1) (by omega)
            (fun p _ _ => (hf2 p).2.2.2.1), hRsucc]
          ring
        have hM2 : bnbM (setSelected items n false) aw (n + 1) =
            valueBefore items n +
              specOpt (pairsOf (items.drop (n + 1))) (aw - weightBefore items n) := by
          unfold bnbM
          rw [hvb2, hwb2, hp2]
        by_cases g2 : valueBefore items n + valueFrom items n - (getItem items n).value > best
        · rw [if_pos g2]
          obtain ⟨ih2len, ih2f, ih2lo, ih2v0, ih2le, ih2eq, ih2solnil, ih2solok⟩ :=
            ih (setSelected items n false) aw (n + 1) best (by omega) hnn2
              (by rw [hwb2]; exact hwle) hbest
          rw [hvb2, hwb2, hvf2] at ih2len ih2f ih2lo ih2v0 ih2le ih2eq ih2solnil ih2solok
          rw [hM2] at ih2le ih2eq
          rw [hl2] at ih2len
          set r2 := doBranchAndBound k (setSelected items n false) aw (n + 1) best
            (valueBefore items n) (weightBefore items n)
            (valueFrom items n - (getItem items n).value) with hr2def
          rcases le_or_lt r2.value (0 : Int) with hc | hc
          · rw [if_pos (show (0 : Int) ≥ r2.value from hc)]
            refine ⟨ih2len, fun p => fieldsEq_trans (ih2f p) (hf2 p), ?_, le_refl (0 : Int),
              ?_, ?_, ?_, ?_⟩
            · intro p hp
              show (getItem r2.state p).isSelected = (getItem items p).isSelected
              rw [ih2lo p (by omega)]
              exact congrArg Item.isSelected (heq2lo p hp)
            · show (0 : Int) ≤ bnbM items aw n
              omega
            · intro hbM
              show (0 : Int) = bnbM items aw n
              have hr2 := ih2eq (by omega)
              omega
            · intro hsol
              rfl
            · intro hsol
              exact absurd rfl hsol
          · rw [if_neg (show ¬ ((0 : Int) ≥ r2.value) by omega)]
            refine ⟨ih2len, fun p => fieldsEq_trans (ih2f p) (hf2 p), ?_, ih2v0, ?_, ?_, ?_, ?_⟩
            · intro p hp
              show (getItem r2.state p).isSelected = (getItem items p).isSelected
              rw [ih2lo p (by omega)]
              exact congrArg Item.isSelected (heq2lo p hp)
            · show r2.value ≤ bnbM items aw n
              omega
            · intro hbM
              show r2.value = bnbM items aw n
              have hr2 := ih2eq (by omega)
              omega
            · intro hsol
              exact ih2solnil hsol
            · intro hsol
              obtain ⟨e1, e2, e3⟩ := ih2solok hsol
              exact ⟨e1.trans hl2, e2, e3⟩
        · rw [if_neg g2]
          simp only
          rw [if_pos (show (0 : Int) ≥ 0 from le_refl 0)]
          refine ⟨rfl, fun p => fieldsEq_refl _, fun p hp => rfl, le_refl (0 : Int),
            ?_, ?_, ?_, ?_⟩
          · show (0 : Int) ≤ bnbM items aw n
            have := bnbM_nonneg items aw n hnn
            omega
          · intro hbM
            exfalso
            have hS2R : specOpt (pairsOf (items.drop (n + 1))) (aw - weightBefore items n) ≤
                valueFrom items n - (getItem items n).value := by omega
            omega
          · intro hsol
            rfl
          · intro hsol
            exact absurd rfl hsol

/-! ### Entry-point corollaries for exhaustive search and branch and bound -/

lemma exhaustiveSearch_facts (items : List Item) (aw : Int) (hnn : NonnegItems items)
    (haw : 0 ≤ aw) :
    (exhaustiveSearch items aw).value = specOpt (pairsOf items) aw ∧
    (exhaustiveSearch items aw).solution.length = items.length ∧
    sumWeights (exhaustiveSearch items aw).solution false ≤ aw ∧
    sumValues (exhaustiveSearch items aw).solution false = (exhaustiveSearch items aw).value := by
  obtain ⟨-, -, -, -, hval, hsol, hsollen, -⟩ :=
    doExhaustiveSearch_spec items.length items aw 0 (by omega) hnn
  have hsubj : exhaustiveSearch items aw = doExhaustiveSearch items.length items aw 0 := rfl
  rw [← hsubj] at hval hsol hsollen
  rw [weightBefore_zero, valueBefore_zero, List.drop_zero, if_pos haw, zero_add, sub_zero] at hval
  have hveq : (exhaustiveSearch items aw).value = specOpt (pairsOf items) aw := hval
  have hv0 : 0 ≤ (exhaustiveSearch items aw).value := by
    rw [hveq]; exact specOpt_nonneg _ _
  refine ⟨hveq, hsollen, ?_, ?_⟩
  · by_contra hgt
    have : solutionValue (exhaustiveSearch items aw).solution aw = -1 := by
      unfold solutionValue
      rw [if_pos (by omega)]
    rw [this] at hsol
    omega
  · have hle : ¬ sumWeights (exhaustiveSearch items aw).solution false > aw := by
      by_contra hgt
      have : solutionValue (exhaustiveSearch items aw).solution aw = -1 := by
        unfold solutionValue
        rw [if_pos (by omega)]
      rw [this] at hsol
      omega
    unfold solutionValue at hsol
    rw [if_neg hle] at hsol
    exact hsol

lemma exhaustiveSearch_calls (items : List Item) (aw : Int) :
    (exhaustiveSearch items aw).calls = 2 ^ (items.length + 1) - 1 :=
  (exhaustiveSearch_calls_aux items.length items aw 0 (by omega)).2

lemma bnbM_zero (items : List Item) (aw : Int) :
    bnbM items aw 0 = specOpt (pairsOf items) aw := by
  unfold bnbM
  rw [valueBefore_zero, weightBefore_zero, List.drop_zero, zero_add, sub_zero]

lemma branchAndBound_facts (items : List Item) (aw : Int) (hnn : NonnegItems items)
    (haw : 0 ≤ aw) :
    (branchAndBound items aw).value = specOpt (pairsOf items) aw ∧
    ((branchAndBound items aw).solution = [] → (branchAndBound items aw).value = 0) ∧
    ((branchAndBound items aw).solution ≠ [] →
      (branchAndBound items aw).solution.length = items.length ∧
      sumWeights (branchAndBound items aw).solution false ≤ aw ∧
      sumValues (branchAndBound items aw).solution false = (branchAndBound items aw).value) := by
  have hsubj : branchAndBound items aw =
      doBranchAndBound items.length items aw 0 0 (valueBefore items 0) (weightBefore items 0)
        (valueFrom items 0) := rfl
  obtain ⟨-, -, -, hv0, hle, heq, hnil, hok⟩ :=
    doBranchAndBound_spec items.length items aw 0 0 (by omega) hnn
      (by rw [weightBefore_zero]; exact haw) (le_refl 0)
  rw [← hsubj] at hv0 hle heq hnil hok
  rw [bnbM_zero] at hle heq
  refine ⟨?_, hnil, hok⟩
  rcases lt_or_eq_of_le (specOpt_nonneg (pairsOf items) aw) with hpos | hzero
  · exact heq hpos
  · omega

lemma doBranchAndBound_calls_le (k : Nat) :
    ∀ (items : List Item) (aw : Int) (n : Nat) (best curV curW remV : Int),
      (doBranchAndBound k items aw n best curV curW remV).calls ≤ 2 ^ (k + 1) - 1 := by
  induction k with
  | zero =>
    intro items aw n best curV curW remV
    by_cases h : items.length ≤ n
    · rw [doBranchAndBound_base 0 items aw n best curV curW remV h]
      exact le_refl 1
    · rw [doBranchAndBound_zero_node items aw n best curV curW remV (by omega)]
      exact le_refl 1
  | succ k ih =>
    intro items aw n best curV curW remV
    have hp0 : (1 : Nat) ≤ 2 ^ k := Nat.one_le_two_pow
    have hp1 : 2 ^ (k + 1) = 2 ^ k * 2 := pow_succ 2 k
    have hp2 : 2 ^ (k + 1 + 1) = 2 ^ (k + 1) * 2 := pow_succ 2 (k + 1)
    by_cases h : items.length ≤ n
    · rw [doBranchAndBound_base (k + 1) items aw n best curV curW remV h]
      show 1 ≤ _
      omega
    · by_cases hpr : curV + remV < best
      · rw [doBranchAndBound_prune (k + 1) items aw n best curV curW remV (by omega) hpr]
        show 1 ≤ _
        omega
      · rw [doBranchAndBound_node k items aw n best curV curW remV (by omega) hpr]
        simp only
        set R1 := if curW + (getItem items n).weight ≤ aw then
            doBranchAndBound k (setSelected items n true) aw (n + 1) best
              (curV + (getItem items n).value) (curW + (getItem items n).weight)
              (remV - (getItem items n).value)
          else { state := items, solution := [], value := 0, calls := 1 } with hR1
        have h1 : R1.calls ≤ 2 ^ (k + 1) - 1 := by
          rw [hR1]
          split
          · exact ih _ _ _ _ _ _ _
          · show 1 ≤ _
            omega
        set R2 := if curV + remV - (getItem items n).value >
              (if R1.value > best then R1.value else best) then
            doBranchAndBound k (setSelected R1.state n false) aw (n + 1)
              (if R1.value > best then R1.value else best) curV curW
              (remV - (getItem items n).value)
          else { state := R1.state, solution := [], value := 0, calls := 1 } with hR2
        have h2 : R2.calls ≤ 2 ^ (k + 1) - 1 := by
          rw [hR2]
          by_cases hg : curV + remV - (getItem items n).value >
              (if R1.value > best then R1.value else best)
          · rw [if_pos hg]
            exact ih _ _ _ _ _ _ _
          · rw [if_neg hg]
            show 1 ≤ _
            omega
        rcases le_or_lt R2.value R1.value with hc | hc
        · rw [if_pos (show R1.value ≥ R2.value from hc)]
          show R1.calls + R2.calls + 1 ≤ _
          omega
        · rw [if_neg (show ¬ (R1.value ≥ R2.value) by omega)]
          show R1.calls + R2.calls + 1 ≤ _
          omega

/-! ### Permutation invariance of the spec optimum -/

lemma specOpt_swap (x y : Int × Int) (l : List (Int × Int)) (cap : Int)
    (hx : 0 ≤ x.2) (hy : 0 ≤ y.2) :
    specOpt (x :: y :: l) cap = specOpt (y :: x :: l) cap := by
  obtain ⟨vx, wx⟩ := x
  obtain ⟨vy, wy⟩ := y
  simp only at hx hy
  simp only [specOpt]
  rw [show cap - wx - wy = cap - wy - wx by ring]
  split_ifs <;> simp only [max_def] <;> split_ifs <;> omega

lemma specOpt_perm {l1 l2 : List (Int × Int)} (h : l1.Perm l2) :
    (∀ p ∈ l1, 0 ≤ p.2) → ∀ cap, specOpt l1 cap = specOpt l2 cap := by
  induction h with
  | nil => intro _ cap; rfl
  | cons x h ih =>
    intro hw cap
    obtain ⟨v, w⟩ := x
    have ih2 := ih (fun p hp => hw p (List.mem_cons_of_mem _ hp))
    simp only [specOpt, ih2]
  | swap x y l =>
    intro hw cap
    exact specOpt_swap y x l cap (hw y (by simp)) (hw x (by simp))
  | trans h1 h2 ih1 ih2 =>
    intro hw cap
    rw [ih1 hw cap, ih2 (fun p hp => hw p (h1.mem_iff.mpr hp)) cap]

/-! ### The dynamic-programming table computes the spec optimum -/

lemma bestVal_zero (items : List Item) (w : Int) :
    bestVal items 0 w =
      (if (getItem items 0).weight ≤ w then (getItem items 0).value else 0) := rfl

lemma bestVal_succ (items : List Item) (i : Nat) (w : Int) :
    bestVal items (i + 1) w =
      (if bestVal items i w ≥ (if (getItem items (i + 1)).weight ≤ w then
          bestVal items i (w - (getItem items (i + 1)).weight) + (getItem items (i + 1)).value
        else 0) then bestVal items i w
      else (if (getItem items (i + 1)).weight ≤ w then
          bestVal items i (w - (getItem items (i + 1)).weight) + (getItem items (i + 1)).value
        else 0)) := rfl

lemma prevWeight_zero (items : List Item) (w : Int) :
    prevWeight items 0 w = (if (getItem items 0).weight ≤ w then -1 else w) := rfl

lemma prevWeight_succ (items : List Item) (i : Nat) (w : Int) :
    prevWeight items (i + 1) w =
      (if bestVal items i w ≥ (if (getItem items (i + 1)).weight ≤ w then
          bestVal items i (w - (getItem items (i + 1)).weight) + (getItem items (i + 1)).value
        else 0) then w
      else w - (getItem items (i + 1)).weight) := rfl

lemma bestVal_nonneg (items : List Item) (hnn : NonnegItems items) :
    ∀ (i : Nat), i < items.length → ∀ w, 0 ≤ bestVal items i w := by
  intro i
  induction i with
  | zero =>
    intro hi w
    rw [bestVal_zero]
    split
    · exact (hnn _ (getItem_mem items 0 hi)).1
    · exact le_refl 0
  | succ i ih =>
    intro hi w
    rw [bestVal_succ]
    have h0 := ih (by omega) w
    by_cases hfit : (getItem items (i + 1)).weight ≤ w
    · rw [if_pos hfit] at *
      have h1 := ih (by omega) (w - (getItem items (i + 1)).weight)
      have h2 := (hnn _ (getItem_mem items (i + 1) hi)).1
      split <;> omega
    · rw [if_neg hfit]
      split <;> omega

lemma take_one_getItem (items : List Item) (h : 0 < items.length) :
    items.take 1 = [getItem items 0] := by
  have := take_succ_getItem items 0 h
  simpa using this

lemma reverse_take_succ (items : List Item) (i : Nat) (h : i < items.length) :
    (items.take (i + 1)).reverse = getItem items i :: (items.take i).reverse := by
  rw [take_succ_getItem items i h, List.reverse_append]
  rfl

lemma bestVal_eq_specOpt (items : List Item) (hnn : NonnegItems items) :
    ∀ (i : Nat), i < items.length → ∀ w,
      bestVal items i w = specOpt (pairsOf ((items.take (i + 1)).reverse)) w := by
  intro i
  induction i with
  | zero =>
    intro hi w
    rw [reverse_take_succ items 0 hi]
    show _ = specOpt (pairsOf (getItem items 0 :: ([] : List Item).reverse)) w
    rw [bestVal_zero]
    unfold pairsOf
    simp only [List.reverse_nil, List.map_cons, List.map_nil, specOpt]
    have hv := (hnn _ (getItem_mem items 0 hi)).1
    split
    · rw [max_eq_right (by omega)]
      ring
    · rw [max_self]
  | succ i ih =>
    intro hi w
    rw [reverse_take_succ items (i + 1) hi,
      show pairsOf (getItem items (i + 1) :: (items.take (i + 1)).reverse) =
        ((getItem items (i + 1)).value, (getItem items (i + 1)).weight) ::
          pairsOf ((items.take (i + 1)).reverse) from rfl]
    simp only [specOpt]
    rw [← ih (by omega) w, ← ih (by omega) (w - (getItem items (i + 1)).weight)]
    rw [bestVal_succ]
    have h0 := bestVal_nonneg items hnn i (by omega) w
    by_cases hfit : (getItem items (i + 1)).weight ≤ w
    · rw [if_pos hfit, if_pos hfit]
      rcases le_or_lt (bestVal items i (w - (getItem items (i + 1)).weight) +
          (getItem items (i + 1)).value) (bestVal items i w) with hc | hc
      · rw [if_pos (by omega : bestVal items i w ≥ _), max_eq_left (by omega)]
      · rw [if_neg (by omega), max_eq_right (by omega)]
        ring
    · rw [if_neg hfit, if_neg hfit]
      rw [if_pos (by omega : bestVal items i w ≥ 0), max_self]

/-! ### The dynamic-programming reconstruction -/

/-- `a` is `b` with `isSelected` possibly upgraded to `true` (never cleared). -/
def selUp (a b : Item) : Prop :=
  a = b ∨ a = { b with isSelected := true }

lemma selUp_refl (a : Item) : selUp a a := Or.inl rfl

lemma selUp_trans {a b c : Item} (h1 : selUp a b) (h2 : selUp b c) : selUp a c := by
  rcases h1 with h1 | h1 <;> rcases h2 with h2 | h2 <;> subst h1 <;> rw [h2]
  · exact Or.inl rfl
  · exact Or.inr rfl
  · exact Or.inr rfl
  · right
    cases c
    rfl

lemma setSelected_selUp (items : List Item) (i : Nat) (p : Nat) :
    selUp (getItem (setSelected items i true) p) (getItem items p) := by
  by_cases hi : i < items.length
  · by_cases hp : p = i
    · subst hp
      right
      exact getItem_setSelected_self items p true hi
    · left
      exact getItem_setSelected_ne items i true p hp
  · left
    unfold setSelected
    rw [updateAt_oob items i _ (by omega)]

lemma dpReconstruct_length (tbl : List Item) :
    ∀ (i : Nat) (items : List Item) (w : Int),
      (dpReconstruct tbl items i w).length = items.length := by
  intro i
  induction i with
  | zero =>
    intro items w
    unfold dpReconstruct
    split
    · rfl
    · exact setSelected_length items 0 true
  | succ i ih =>
    intro items w
    unfold dpReconstruct
    simp only
    split
    · exact ih items w
    · rw [ih _ _, setSelected_length]

lemma dpReconstruct_selUp (tbl : List Item) :
    ∀ (i : Nat) (items : List Item) (w : Int) (p : Nat),
      selUp (getItem (dpReconstruct tbl items i w) p) (getItem items p) := by
  intro i
  induction i with
  | zero =>
    intro items w p
    unfold dpReconstruct
    split
    · exact selUp_refl _
    · exact setSelected_selUp items 0 p
  | succ i ih =>
    intro items w p
    unfold dpReconstruct
    simp only
    split
    · exact ih items w p
    · exact selUp_trans (ih _ _ p) (setSelected_selUp items (i + 1) p)

lemma dpReconstruct_spec (tbl : List Item) (hnn : NonnegItems tbl)
    (hwpos : ∀ it ∈ tbl, 0 < it.weight) :
    ∀ (i : Nat), i < tbl.length → ∀ (w : Int) (items : List Item),
      0 ≤ w →
      items.length = tbl.length →
      (∀ p, (getItem items p).value = (getItem tbl p).value ∧
        (getItem items p).weight = (getItem tbl p).weight) →
      (∀ p, p ≤ i → (getItem items p).isSelected = false) →
      (∀ p, p > i → getItem (dpReconstruct tbl items i w) p = getItem items p) ∧
      valueBefore (dpReconstruct tbl items i w) (i + 1) = bestVal tbl i w ∧
      weightBefore (dpReconstruct tbl items i w) (i + 1) ≤ w := by
  intro i
  induction i with
  | zero =>
    intro hi w items hw hlen hvw hsel
    unfold dpReconstruct
    rw [prevWeight_zero]
    by_cases hfit : (getItem tbl 0).weight ≤ w
    · rw [if_pos hfit, if_neg (show ¬ ((-1 : Int) = w) by omega)]
      have hlt0 : 0 < items.length := by omega
      refine ⟨fun p hp => getItem_setSelected_ne items 0 true p (by omega), ?_, ?_⟩
      · rw [valueBefore_succ _ 0 (by rw [setSelected_length]; omega),
          getItem_setSelected_self items 0 true hlt0, valueBefore_zero, bestVal_zero, if_pos hfit]
        have := (hvw 0).1
        simp [selVal]
        omega
      · rw [weightBefore_succ _ 0 (by rw [setSelected_length]; omega),
          getItem_setSelected_self items 0 true hlt0, weightBefore_zero]
        have := (hvw 0).2
        simp [selWt]
        omega
    · rw [if_neg hfit, if_pos rfl]
      refine ⟨fun p hp => rfl, ?_, ?_⟩
      · rw [valueBefore_succ _ 0 (by omega), valueBefore_zero, bestVal_zero, if_neg hfit]
        simp [selVal, hsel 0 (le_refl 0)]
      · rw [weightBefore_succ _ 0 (by omega), weightBefore_zero]
        simp [selWt, hsel 0 (le_refl 0)]
        exact hw
  | succ i ih =>
    intro hi w items hw hlen hvw hsel
    unfold dpReconstruct
    simp only
    rw [prevWeight_succ]
    have hwt : 0 < (getItem tbl (i + 1)).weight := hwpos _ (getItem_mem tbl (i + 1) hi)
    have h0 := bestVal_nonneg tbl hnn i (by omega) w
    by_cases hfit : (getItem tbl (i + 1)).weight ≤ w
    · rw [if_pos hfit]
      rcases le_or_lt (bestVal tbl i (w - (getItem tbl (i + 1)).weight) +
          (getItem tbl (i + 1)).value) (bestVal tbl i w) with hc | hc
      · -- row i+1 was skipped
        rw [if_pos (show bestVal tbl i w ≥ _ from hc), if_pos rfl]
        obtain ⟨u1, v1, w1⟩ := ih (by omega) w items hw hlen hvw (fun p hp => hsel p (by omega))
        have hreslen : (dpReconstruct tbl items i w).length = items.length :=
          dpReconstruct_length tbl i items w
        refine ⟨fun p hp => u1 p (by omega), ?_, ?_⟩
        · rw [valueBefore_succ _ (i + 1) (by omega), v1, u1 (i + 1) (by omega),
            bestVal_succ, if_pos hfit, if_pos (show bestVal tbl i w ≥ _ from hc)]
          simp [selVal, hsel (i + 1) (le_refl _)]
        · rw [weightBefore_succ _ (i + 1) (by omega), u1 (i + 1) (by omega)]
          simp only [selWt, hsel (i + 1) (le_refl _)]
          simp
          omega
      · -- row i+1 was selected
        rw [if_neg (show ¬ (bestVal tbl i w ≥ _) by omega),
          if_neg (show ¬ (w - (getItem tbl (i + 1)).weight = w) by omega)]
        have hlen' : (setSelected items (i + 1) true).length = tbl.length := by
          rw [setSelected_length, hlen]
        have hlt1 : i + 1 < items.length := by omega
        obtain ⟨u1, v1, w1⟩ := ih (by omega) (w - (getItem tbl (i + 1)).weight)
          (setSelected items (i + 1) true) (by omega) hlen'
          (fun p => by
            rcases eq_or_ne p (i + 1) with hp | hne
            · rw [hp, getItem_setSelected_self items (i + 1) true hlt1]
              exact hvw (i + 1)
            · rw [getItem_setSelected_ne items (i + 1) true p hne]
              exact hvw p)
          (fun p hp => by
            rw [getItem_setSelected_ne items (i + 1) true p (by omega)]
            exact hsel p (by omega))
        have hreslen : (dpReconstruct tbl (setSelected items (i + 1) true) i
            (w - (getItem tbl (i + 1)).weight)).length = items.length := by
          rw [dpReconstruct_length, setSelected_length]
        refine ⟨?_, ?_, ?_⟩
        · intro p hp
          rw [u1 p (by omega), getItem_setSelected_ne items (i + 1) true p (by omega)]
        · rw [valueBefore_succ _ (i + 1) (by omega), v1, u1 (i + 1) (by omega),
            getItem_setSelected_self items (i + 1) true hlt1,
            bestVal_succ, if_pos hfit, if_neg (show ¬ (bestVal tbl i w ≥ _) by omega)]
          have := (hvw (i + 1)).1
          simp [selVal]
          omega
        · rw [weightBefore_succ _ (i + 1) (by omega), u1 (i + 1) (by omega),
            getItem_setSelected_self items (i + 1) true hlt1]
          have := (hvw (i + 1)).2
          simp [selWt]
          omega
    · -- row i+1 cannot fit: it is skipped
      rw [if_neg hfit, if_pos (show bestVal tbl i w ≥ 0 from h0), if_pos rfl]
      obtain ⟨u1, v1, w1⟩ := ih (by omega) w items hw hlen hvw (fun p hp => hsel p (by omega))
      have hreslen : (dpReconstruct tbl items i w).length = items.length :=
        dpReconstruct_length tbl i items w
      refine ⟨fun p hp => u1 p (by omega), ?_, ?_⟩
      · rw [valueBefore_succ _ (i + 1) (by omega), v1, u1 (i + 1) (by omega),
          bestVal_succ, if_neg hfit, if_pos (show bestVal tbl i w ≥ 0 from h0)]
        simp [selVal, hsel (i + 1) (le_refl _)]
      · rw [weightBefore_succ _ (i + 1) (by omega), u1 (i + 1) (by omega)]
        simp only [selWt, hsel (i + 1) (le_refl _)]
        simp
        omega

lemma dynamicProgramming_facts (items : List Item) (aw : Int)
    (hne : items ≠ []) (hpos : PosItems items) (haw : 0 ≤ aw) (hunsel : AllUnselected items) :
    (dynamicProgramming items aw).value = specOpt (pairsOf items) aw ∧
    sumValues (dynamicProgramming items aw).solution false = (dynamicProgramming items aw).value ∧
    sumWeights (dynamicProgramming items aw).solution false ≤ aw ∧
    (dynamicProgramming items aw).solution.length = items.length := by
  have hlen : 0 < items.length := List.length_pos.mpr hne
  have hnn : NonnegItems items := hpos.nonneg
  have hval : (dynamicProgramming items aw).value = specOpt (pairsOf items) aw := by
    show bestVal items (items.length - 1) aw = _
    rw [bestVal_eq_specOpt items hnn (items.length - 1) (by omega) aw]
    rw [show items.length - 1 + 1 = items.length by omega, List.take_length]
    have hperm : (pairsOf items.reverse).Perm (pairsOf items) := by
      unfold pairsOf
      exact (items.reverse_perm).map _
    rw [specOpt_perm hperm (fun p hp => by
      obtain ⟨it, hit, rfl⟩ := List.mem_map.mp hp
      exact le_of_lt (hpos it (List.mem_reverse.mp hit)).2) aw]
  obtain ⟨u1, v1, w1⟩ := dpReconstruct_spec items hnn (fun it h => (hpos it h).2)
    (items.length - 1) (by omega) aw items haw rfl (fun p => ⟨rfl, rfl⟩)
    (fun p hp => hunsel _ (getItem_mem items p (by omega)))
  have hreslen : (dpReconstruct items items (items.length - 1) aw).length = items.length :=
    dpReconstruct_length items (items.length - 1) items aw
  have hsolu : (dynamicProgramming items aw).solution =
      dpReconstruct items items (items.length - 1) aw := rfl
  rw [show items.length - 1 + 1 = items.length by omega] at v1 w1
  rw [valueBefore_all _ items.length (by omega)] at v1
  rw [weightBefore_all _ items.length (by omega)] at w1
  refine ⟨hval, ?_, ?_, ?_⟩
  · rw [hsolu, v1]
    rfl
  · rw [hsolu]
    exact w1
  · rw [hsolu, hreslen]

lemma dynamicProgramming_selUp (items : List Item) (aw : Int) :
    (dynamicProgramming items aw).solution.length = items.length ∧
    (dynamicProgramming items aw).state = (dynamicProgramming items aw).solution ∧
    ∀ p, selUp (getItem (dynamicProgramming items aw).solution p) (getItem items p) :=
  ⟨dpReconstruct_length items (items.length - 1) items aw, rfl,
    fun p => dpReconstruct_selUp items (items.length - 1) items aw p⟩

/-! ### Primitive lemmas about blocking and unblocking -/

/-- The fields `blockItems`/`unblockItems` never touch. -/
def coreEq (a b : Item) : Prop :=
  a.id = b.id ∧ a.blockList = b.blockList ∧ a.value = b.value ∧ a.weight = b.weight ∧
  a.isSelected = b.isSelected

lemma coreEq_refl (a : Item) : coreEq a a := ⟨rfl, rfl, rfl, rfl, rfl⟩

lemma coreEq_trans {a b c : Item} (h1 : coreEq a b) (h2 : coreEq b c) : coreEq a c := by
  obtain ⟨e1, e2, e3, e4, e5⟩ := h1
  obtain ⟨f1, f2, f3, f4, f5⟩ := h2
  exact ⟨e1.trans f1, e2.trans f2, e3.trans f3, e4.trans f4, e5.trans f5⟩

lemma blockFold_facts (src : Item) :
    ∀ (L : List Nat) (l : List Item),
      (L.foldl (fun its otherId =>
        if (getItem its otherId).blockedBy < 0 then
          updateAt its otherId fun it => { it with blockedBy := (src.id : Int) }
        else its) l).length = l.length ∧
      (∀ p, coreEq (getItem (L.foldl (fun its otherId =>
        if (getItem its otherId).blockedBy < 0 then
          updateAt its otherId fun it => { it with blockedBy := (src.id : Int) }
        else its) l) p) (getItem l p)) ∧
      (∀ p, p < l.length →
        (getItem (L.foldl (fun its otherId =>
          if (getItem its otherId).blockedBy < 0 then
            updateAt its otherId fun it => { it with blockedBy := (src.id : Int) }
          else its) l) p).blockedBy =
        (if (getItem l p).blockedBy < 0 ∧ p ∈ L then (src.id : Int)
         else (getItem l p).blockedBy)) := by
  intro L
  induction L with
  | nil =>
    intro l
    refine ⟨rfl, fun p => coreEq_refl _, fun p hp => ?_⟩
    simp only [List.foldl_nil]
    rw [if_neg (by simp)]
  | cons o L ih =>
    intro l
    simp only [List.foldl_cons]
    obtain ⟨ihlen, ihcore, ihbb⟩ := ih (if (getItem l o).blockedBy < 0 then
      updateAt l o fun it => { it with blockedBy := (src.id : Int) } else l)
    have hslen : (if (getItem l o).blockedBy < 0 then
        updateAt l o fun it => { it with blockedBy := (src.id : Int) } else l).length =
        l.length := by
      split
      · exact updateAt_length l o _
      · rfl
    have hscore : ∀ p, coreEq (getItem (if (getItem l o).blockedBy < 0 then
        updateAt l o fun it => { it with blockedBy := (src.id : Int) } else l) p)
        (getItem l p) := by
      intro p
      split
      · by_cases ho : o < l.length
        · by_cases hp : p = o
          · subst hp
            rw [getItem_updateAt_self l p _ ho]
            exact ⟨rfl, rfl, rfl, rfl, rfl⟩
          · rw [getItem_updateAt_ne l o _ p hp]
            exact coreEq_refl _
        · rw [updateAt_oob l o _ (by omega)]
          exact coreEq_refl _
      · exact coreEq_refl _
    have hsbb : ∀ p, p < l.length →
        (getItem (if (getItem l o).blockedBy < 0 then
          updateAt l o fun it => { it with blockedBy := (src.id : Int) } else l) p).blockedBy =
        (if (getItem l p).blockedBy < 0 ∧ p = o then (src.id : Int)
         else (getItem l p).blockedBy) := by
      intro p hp
      by_cases hb : (getItem l o).blockedBy < 0
      · rw [if_pos hb]
        by_cases hpo : p = o
        · subst hpo
          rw [getItem_updateAt_self l p _ hp]
          rw [if_pos ⟨hb, rfl⟩]
        · rw [getItem_updateAt_ne l o _ p hpo, if_neg (by tauto)]
      · rw [if_neg hb]
        by_cases hpo : p = o
        · subst hpo
          rw [if_neg (by tauto)]
        · rw [if_neg (by tauto)]
    refine ⟨ihlen.trans hslen, fun p => coreEq_trans (ihcore p) (hscore p), fun p hp => ?_⟩
    rw [ihbb p (by omega), hsbb p hp]
    by_cases h1 : (getItem l p).blockedBy < 0
    · by_cases h2 : p = o
      · have hE : (if (getItem l p).blockedBy < 0 ∧ p = o then (src.id : Int)
            else (getItem l p).blockedBy) = (src.id : Int) := if_pos ⟨h1, h2⟩
        rw [hE, ite_self,
          if_pos (show (getItem l p).blockedBy < 0 ∧ p ∈ o :: L from
            ⟨h1, List.mem_cons.mpr (Or.inl h2)⟩)]
      · have hE : (if (getItem l p).blockedBy < 0 ∧ p = o then (src.id : Int)
            else (getItem l p).blockedBy) = (getItem l p).blockedBy :=
          if_neg (fun hx => h2 hx.2)
        rw [hE]
        by_cases h3 : p ∈ L
        · rw [if_pos (show (getItem l p).blockedBy < 0 ∧ p ∈ L from ⟨h1, h3⟩),
            if_pos (show (getItem l p).blockedBy < 0 ∧ p ∈ o :: L from
              ⟨h1, List.mem_cons.mpr (Or.inr h3)⟩)]
        · rw [if_neg (show ¬((getItem l p).blockedBy < 0 ∧ p ∈ L) from fun hx => h3 hx.2),
            if_neg (show ¬((getItem l p).blockedBy < 0 ∧ p ∈ o :: L) from fun hx => by
              rcases List.mem_cons.mp hx.2 with hcc | hcc
              · exact h2 hcc
              · exact h3 hcc)]
    · have hE : (if (getItem l p).blockedBy < 0 ∧ p = o then (src.id : Int)
          else (getItem l p).blockedBy) = (getItem l p).blockedBy :=
        if_neg (fun hx => h1 hx.1)
      rw [hE,
        if_neg (show ¬((getItem l p).blockedBy < 0 ∧ p ∈ L) from fun hx => h1 hx.1),
        if_neg (show ¬((getItem l p).blockedBy < 0 ∧ p ∈ o :: L) from fun hx => h1 hx.1)]

lemma blockItems_facts (src : Item) (l : List Item) :
    (blockItems src l).length = l.length ∧
    (∀ p, coreEq (getItem (blockItems src l) p) (getItem l p)) ∧
    (∀ p, p < l.length → (getItem (blockItems src l) p).blockedBy =
      (if (getItem l p).blockedBy < 0 ∧ p ∈ src.blockList then (src.id : Int)
       else (getItem l p).blockedBy)) :=
  blockFold_facts src src.blockList l

lemma unblockFold_facts (src : Item) :
    ∀ (L : List Nat) (l : List Item),
      (L.foldl (fun its otherId =>
        if (getItem its otherId).blockedBy = (src.id : Int) then
          updateAt its otherId fun it => { it with blockedBy := -1 }
        else its) l).length = l.length ∧
      (∀ p, coreEq (getItem (L.foldl (fun its otherId =>
        if (getItem its otherId).blockedBy = (src.id : Int) then
          updateAt its otherId fun it => { it with blockedBy := -1 }
        else its) l) p) (getItem l p)) ∧
      (∀ p, p < l.length →
        (getItem (L.foldl (fun its otherId =>
          if (getItem its otherId).blockedBy = (src.id : Int) then
            updateAt its otherId fun it => { it with blockedBy := -1 }
          else its) l) p).blockedBy =
        (if (getItem l p).blockedBy = (src.id : Int) ∧ p ∈ L then (-1 : Int)
         else (getItem l p).blockedBy)) := by
  intro L
  induction L with
  | nil =>
    intro l
    refine ⟨rfl, fun p => coreEq_refl _, fun p hp => ?_⟩
    simp only [List.foldl_nil]
    rw [if_neg (by simp)]
  | cons o L ih =>
    intro l
    simp only [List.foldl_cons]
    obtain ⟨ihlen, ihcore, ihbb⟩ := ih (if (getItem l o).blockedBy = (src.id : Int) then
      updateAt l o fun it => { it with blockedBy := -1 } else l)
    have hslen : (if (getItem l o).blockedBy = (src.id : Int) then
        updateAt l o fun it => { it with blockedBy := -1 } else l).length = l.length := by
      split
      · exact updateAt_length l o _
      · rfl
    have hscore : ∀ p, coreEq (getItem (if (getItem l o).blockedBy = (src.id : Int) then
        updateAt l o fun it => { it with blockedBy := -1 } else l) p) (getItem l p) := by
      intro p
      split
      · by_cases ho : o < l.length
        · by_cases hp : p = o
          · subst hp
            rw [getItem_updateAt_self l p _ ho]
            exact ⟨rfl, rfl, rfl, rfl, rfl⟩
          · rw [getItem_updateAt_ne l o _ p hp]
            exact coreEq_refl _
        · rw [updateAt_oob l o _ (by omega)]
          exact coreEq_refl _
      · exact coreEq_refl _
    have hsbb : ∀ p, p < l.length →
        (getItem (if (getItem l o).blockedBy = (src.id : Int) then
          updateAt l o fun it => { it with blockedBy := -1 } else l) p).blockedBy =
        (if (getItem l p).blockedBy = (src.id : Int) ∧ p = o then (-1 : Int)
         else (getItem l p).blockedBy) := by
      intro p hp
      by_cases hb : (getItem l o).blockedBy = (src.id : Int)
      · rw [if_pos hb]
        by_cases hpo : p = o
        · subst hpo
          rw [getItem_updateAt_self l p _ hp]
          rw [if_pos ⟨hb, rfl⟩]
        · rw [getItem_updateAt_ne l o _ p hpo, if_neg (by tauto)]
      · rw [if_neg hb]
        by_cases hpo : p = o
        · subst hpo
          rw [if_neg (by tauto)]
        · rw [if_neg (by tauto)]
    refine ⟨ihlen.trans hslen, fun p => coreEq_trans (ihcore p) (hscore p), fun p hp => ?_⟩
    rw [ihbb p (by omega), hsbb p hp]
    by_cases h1 : (getItem l p).blockedBy = (src.id : Int)
    · by_cases h2 : p = o
      · have hE : (if (getItem l p).blockedBy = (src.id : Int) ∧ p = o then (-1 : Int)
            else (getItem l p).blockedBy) = (-1 : Int) := if_pos ⟨h1, h2⟩
        rw [hE, ite_self,
          if_pos (show (getItem l p).blockedBy = (src.id : Int) ∧ p ∈ o :: L from
            ⟨h1, List.mem_cons.mpr (Or.inl h2)⟩)]
      · have hE : (if (getItem l p).blockedBy = (src.id : Int) ∧ p = o then (-1 : Int)
            else (getItem l p).blockedBy) = (getItem l p).blockedBy :=
          if_neg (fun hx => h2 hx.2)
        rw [hE]
        by_cases h3 : p ∈ L
        · rw [if_pos (show (getItem l p).blockedBy = (src.id : Int) ∧ p ∈ L from ⟨h1, h3⟩),
            if_pos (show (getItem l p).blockedBy = (src.id : Int) ∧ p ∈ o :: L from
              ⟨h1, List.mem_cons.mpr (Or.inr h3)⟩)]
        · rw [if_neg (show ¬((getItem l p).blockedBy = (src.id : Int) ∧ p ∈ L) from
              fun hx => h3 hx.2),
            if_neg (show ¬((getItem l p).blockedBy = (src.id : Int) ∧ p ∈ o :: L) from
              fun hx => by
              rcases List.mem_cons.mp hx.2 with hcc | hcc
              · exact h2 hcc
              · exact h3 hcc)]
    · have hE : (if (getItem l p).blockedBy = (src.id : Int) ∧ p = o then (-1 : Int)
          else (getItem l p).blockedBy) = (getItem l p).blockedBy :=
        if_neg (fun hx => h1 hx.1)
      rw [hE,
        if_neg (show ¬((getItem l p).blockedBy = (src.id : Int) ∧ p ∈ L) from
          fun hx => h1 hx.1),
        if_neg (show ¬((getItem l p).blockedBy = (src.id : Int) ∧ p ∈ o :: L) from
          fun hx => h1 hx.1)]

lemma unblockItems_facts (src : Item) (l : List Item) :
    (unblockItems src l).length = l.length ∧
    (∀ p, coreEq (getItem (unblockItems src l) p) (getItem l p)) ∧
    (∀ p, p < l.length → (getItem (unblockItems src l) p).blockedBy =
      (if (getItem l p).blockedBy = (src.id : Int) ∧ p ∈ src.blockList then (-1 : Int)
       else (getItem l p).blockedBy)) :=
  unblockFold_facts src src.blockList l

/-! ### A value-level specification of the dominance-pruned search -/

lemma getItem_oob (l : List Item) (p : Nat) (h : l.length ≤ p) : getItem l p = default := by
  unfold getItem
  rw [List.getD_eq_getElem?_getD, List.getElem?_eq_none h]
  rfl

lemma getItem_value_nonneg (l : List Item) (hnn : NonnegItems l) (p : Nat) :
    0 ≤ (getItem l p).value := by
  by_cases hp : p < l.length
  · exact (hnn _ (getItem_mem l p hp)).1
  · rw [getItem_oob l p (by omega)]
    show (0 : Int) ≤ 0
    exact le_refl 0

lemma getItem_weight_nonneg (l : List Item) (hnn : NonnegItems l) (p : Nat) :
    0 ≤ (getItem l p).weight := by
  by_cases hp : p < l.length
  · exact (hnn _ (getItem_mem l p hp)).2
  · rw [getItem_oob l p (by omega)]
    show (0 : Int) ≤ 0
    exact le_refl 0

/-- Two states of the item array that agree on everything except `isSelected`. -/
def stateEq (l1 l2 : List Item) : Prop :=
  l1.length = l2.length ∧ ∀ p, fieldsEq (getItem l1 p) (getItem l2 p)

lemma stateEq_of_setSelected (l : List Item) (n : Nat) (b : Bool) :
    stateEq (setSelected l n b) l :=
  ⟨setSelected_length l n b, setSelected_fieldsEq l n b⟩

lemma stateEq_trans {l1 l2 l3 : List Item} (h1 : stateEq l1 l2) (h2 : stateEq l2 l3) :
    stateEq l1 l3 :=
  ⟨h1.1.trans h2.1, fun p => fieldsEq_trans (h1.2 p) (h2.2 p)⟩

lemma blockItems_length (src : Item) (l : List Item) :
    (blockItems src l).length = l.length :=
  (blockItems_facts src l).1

lemma unblockItems_length (src : Item) (l : List Item) :
    (unblockItems src l).length = l.length :=
  (unblockItems_facts src l).1

lemma blockItems_stateEq_congr (src src' : Item) (l l' : List Item)
    (hid : src.id = src'.id) (hbl : src.blockList = src'.blockList) (h : stateEq l l') :
    stateEq (blockItems src l) (blockItems src' l') := by
  obtain ⟨hlen, hf⟩ := h
  obtain ⟨len1, core1, bb1⟩ := blockItems_facts src l
  obtain ⟨len2, core2, bb2⟩ := blockItems_facts src' l'
  refine ⟨by rw [len1, len2, hlen], fun p => ?_⟩
  by_cases hp : p < l.length
  · have hp' : p < l'.length := by omega
    have e1 := bb1 p hp
    have e2 := bb2 p hp'
    obtain ⟨c1i, c1b, c1v, c1w, c1s⟩ := core1 p
    obtain ⟨c2i, c2b, c2v, c2w, c2s⟩ := core2 p
    obtain ⟨fi, fb, fbl, fv, fw⟩ := hf p
    refine ⟨by rw [c1i, c2i, fi], ?_, by rw [c1b, c2b, fbl], by rw [c1v, c2v, fv],
      by rw [c1w, c2w, fw]⟩
    rw [e1, e2, fb, hid, hbl]
  · have h1 : getItem (blockItems src l) p = default := getItem_oob _ p (by omega)
    have h2 : getItem (blockItems src' l') p = default := getItem_oob _ p (by omega)
    rw [h1, h2]
    exact fieldsEq_refl _

/-- The value the dominance-pruned search can reach from a node, as a pure
recursion over the state: include the next item when it fits and is not
blocked, and always try excluding it after blocking the items it dominates. -/
def rodsSpec : Nat → List Item → Nat → Int → Int
  | 0, _, _, _ => 0
  | k + 1, l, n, rem =>
    let it := getItem l n
    let exc := rodsSpec k (blockItems it l) (n + 1) rem
    if it.weight ≤ rem ∧ it.blockedBy < 0 then
      max (it.value + rodsSpec k l (n + 1) (rem - it.weight)) exc
    else exc

lemma rodsSpec_succ (k : Nat) (l : List Item) (n : Nat) (rem : Int) :
    rodsSpec (k + 1) l n rem =
      if (getItem l n).weight ≤ rem ∧ (getItem l n).blockedBy < 0 then
        max ((getItem l n).value + rodsSpec k l (n + 1) (rem - (getItem l n).weight))
          (rodsSpec k (blockItems (getItem l n) l) (n + 1) rem)
      else rodsSpec k (blockItems (getItem l n) l) (n + 1) rem := rfl

lemma rodsSpec_nonneg (k : Nat) : ∀ (l : List Item) (n : Nat) (rem : Int),
    0 ≤ rodsSpec k l n rem := by
  induction k with
  | zero => intro l n rem; exact le_refl 0
  | succ k ih =>
    intro l n rem
    rw [rodsSpec_succ]
    have hexc := ih (blockItems (getItem l n) l) (n + 1) rem
    split
    · exact le_trans hexc (le_max_right _ _)
    · exact hexc

lemma rodsSpec_congr (k : Nat) : ∀ (l l' : List Item) (n : Nat) (rem : Int),
    stateEq l l' → rodsSpec k l n rem = rodsSpec k l' n rem := by
  induction k with
  | zero => intro l l' n rem _; rfl
  | succ k ih =>
    intro l l' n rem h
    obtain ⟨fi, fb, fbl, fv, fw⟩ := h.2 n
    rw [rodsSpec_succ, rodsSpec_succ, fv, fw, fb]
    rw [ih l l' (n + 1) (rem - (getItem l' n).weight) h,
      ih (blockItems (getItem l n) l) (blockItems (getItem l' n) l') (n + 1) rem
        (blockItems_stateEq_congr _ _ l l' fi fbl h)]

lemma specOpt_cons (v w : Int) (rest : List (Int × Int)) (cap : Int) :
    specOpt ((v, w) :: rest) cap =
      max (specOpt rest cap)
        (if w ≤ cap then v + specOpt rest (cap - w) else specOpt rest cap) := rfl

lemma rodsSpec_le_specOpt (k : Nat) : ∀ (l : List Item) (n : Nat) (rem : Int),
    n + k = l.length → NonnegItems l →
    rodsSpec k l n rem ≤ specOpt (pairsOf (l.drop n)) rem := by
  induction k with
  | zero =>
    intro l n rem _ _
    exact specOpt_nonneg _ _
  | succ k ih =>
    intro l n rem hn hnn
    have hlt : n < l.length := by omega
    rw [rodsSpec_succ, pairsOf_drop_cons l n hlt, specOpt_cons]
    obtain ⟨blen, bcore, -⟩ := blockItems_facts (getItem l n) l
    have hnn' : NonnegItems (blockItems (getItem l n) l) :=
      nonneg_transfer l _ blen (fun p _ => ⟨(bcore p).2.2.1, (bcore p).2.2.2.1⟩) hnn
    have hpairs : pairsOf ((blockItems (getItem l n) l).drop (n + 1)) =
        pairsOf (l.drop (n + 1)) :=
      pairsOf_drop_congr _ l (n + 1) blen
        (fun p _ _ => ⟨(bcore p).2.2.1, (bcore p).2.2.2.1⟩)
    have hexc : rodsSpec k (blockItems (getItem l n) l) (n + 1) rem ≤
        specOpt (pairsOf (l.drop (n + 1))) rem := by
      have := ih (blockItems (getItem l n) l) (n + 1) rem (by rw [blen]; omega) hnn'
      rwa [hpairs] at this
    by_cases hcond : (getItem l n).weight ≤ rem ∧ (getItem l n).blockedBy < 0
    · rw [if_pos hcond]
      apply max_le
      · have hin := ih l (n + 1) (rem - (getItem l n).weight) (by omega) hnn
        have harm : (getItem l n).value +
            specOpt (pairsOf (l.drop (n + 1))) (rem - (getItem l n).weight) ≤
            (if (getItem l n).weight ≤ rem then
              (getItem l n).value +
                specOpt (pairsOf (l.drop (n + 1))) (rem - (getItem l n).weight)
            else specOpt (pairsOf (l.drop (n + 1))) rem) := by
          rw [if_pos hcond.1]
        have := le_max_right (specOpt (pairsOf (l.drop (n + 1))) rem)
          (if (getItem l n).weight ≤ rem then
            (getItem l n).value +
              specOpt (pairsOf (l.drop (n + 1))) (rem - (getItem l n).weight)
          else specOpt (pairsOf (l.drop (n + 1))) rem)
        omega
      · exact le_trans hexc (le_max_left _ _)
    · rw [if_neg hcond]
      exact le_trans hexc (le_max_left _ _)

/-- Total value of the items a completion selects among positions
`n, n+1, ..., n+k-1`. -/
def cvalF : Nat → List Item → Nat → (Nat → Bool) → Int
  | 0, _, _, _ => 0
  | k + 1, l, n, c => (if c n then (getItem l n).value else 0) + cvalF k l (n + 1) c

/-- Total weight of the items a completion selects among positions
`n, n+1, ..., n+k-1`. -/
def cwtF : Nat → List Item → Nat → (Nat → Bool) → Int
  | 0, _, _, _ => 0
  | k + 1, l, n, c => (if c n then (getItem l n).weight else 0) + cwtF k l (n + 1) c

lemma cvalF_succ (k : Nat) (l : List Item) (n : Nat) (c : Nat → Bool) :
    cvalF (k + 1) l n c = (if c n then (getItem l n).value else 0) + cvalF k l (n + 1) c := rfl

lemma cwtF_succ (k : Nat) (l : List Item) (n : Nat) (c : Nat → Bool) :
    cwtF (k + 1) l n c = (if c n then (getItem l n).weight else 0) + cwtF k l (n + 1) c := rfl

lemma cvalF_congr (k : Nat) : ∀ (l l' : List Item) (n : Nat) (c : Nat → Bool),
    (∀ p, (getItem l p).value = (getItem l' p).value) → cvalF k l n c = cvalF k l' n c := by
  induction k with
  | zero => intro l l' n c _; rfl
  | succ k ih =>
    intro l l' n c h
    rw [cvalF_succ, cvalF_succ, h n, ih l l' (n + 1) c h]

lemma cwtF_congr (k : Nat) : ∀ (l l' : List Item) (n : Nat) (c : Nat → Bool),
    (∀ p, (getItem l p).weight = (getItem l' p).weight) → cwtF k l n c = cwtF k l' n c := by
  induction k with
  | zero => intro l l' n c _; rfl
  | succ k ih =>
    intro l l' n c h
    rw [cwtF_succ, cwtF_succ, h n, ih l l' (n + 1) c h]

lemma cvalF_congrFn (k : Nat) : ∀ (l : List Item) (n : Nat) (c c' : Nat → Bool),
    (∀ p, n ≤ p → p < n + k → c p = c' p) → cvalF k l n c = cvalF k l n c' := by
  induction k with
  | zero => intro l n c c' _; rfl
  | succ k ih =>
    intro l n c c' h
    rw [cvalF_succ, cvalF_succ, h n (le_refl n) (by omega),
      ih l (n + 1) c c' (fun p h1 h2 => h p (by omega) (by omega))]

lemma cwtF_congrFn (k : Nat) : ∀ (l : List Item) (n : Nat) (c c' : Nat → Bool),
    (∀ p, n ≤ p → p < n + k → c p = c' p) → cwtF k l n c = cwtF k l n c' := by
  induction k with
  | zero => intro l n c c' _; rfl
  | succ k ih =>
    intro l n c c' h
    rw [cwtF_succ, cwtF_succ, h n (le_refl n) (by omega),
      ih l (n + 1) c c' (fun p h1 h2 => h p (by omega) (by omega))]

lemma cwtF_nonneg (k : Nat) : ∀ (l : List Item) (n : Nat) (c : Nat → Bool),
    (∀ p, 0 ≤ (getItem l p).weight) → 0 ≤ cwtF k l n c := by
  induction k with
  | zero => intro l n c _; exact le_refl 0
  | succ k ih =>
    intro l n c hw
    rw [cwtF_succ]
    have h1 := hw n
    have h2 := ih l (n + 1) c hw
    split <;> omega

/-- A completion of positions `n .. n+k-1` that the dominance-pruned search
can actually reach: every selected item is unblocked in the entry state, and
no earlier position that the completion excludes lists it on its block list. -/
def validCompl (l : List Item) (n k : Nat) (c : Nat → Bool) : Prop :=
  ∀ p, n ≤ p → p < n + k → c p = true →
    (getItem l p).blockedBy < 0 ∧
    ∀ a, n ≤ a → a < p → c a = false → p ∉ (getItem l a).blockList

lemma rodsSpec_ge_valid (k : Nat) : ∀ (l : List Item) (n : Nat) (rem : Int) (c : Nat → Bool),
    n + k ≤ l.length → (∀ p, 0 ≤ (getItem l p).weight) →
    validCompl l n k c → cwtF k l n c ≤ rem →
    cvalF k l n c ≤ rodsSpec k l n rem := by
  induction k with
  | zero => intro l n rem c _ _ _ _; exact le_refl 0
  | succ k ih =>
    intro l n rem c hlen hw hv hcw
    rw [cwtF_succ] at hcw
    cases hc : c n with
    | true =>
      rw [hc] at hcw
      rw [if_pos rfl] at hcw
      obtain ⟨hbb, -⟩ := hv n (le_refl n) (by omega) hc
      have hrest0 : 0 ≤ cwtF k l (n + 1) c := cwtF_nonneg k l (n + 1) c hw
      have hfit : (getItem l n).weight ≤ rem := by omega
      have hv' : validCompl l (n + 1) k c := by
        intro p hp1 hp2 hpc
        obtain ⟨h1, h2⟩ := hv p (by omega) (by omega) hpc
        exact ⟨h1, fun a ha1 ha2 hac => h2 a (by omega) ha2 hac⟩
      have hIH := ih l (n + 1) (rem - (getItem l n).weight) c (by omega) hw hv' (by omega)
      rw [rodsSpec_succ, if_pos ⟨hfit, hbb⟩, cvalF_succ, hc, if_pos rfl]
      have := le_max_left
        ((getItem l n).value + rodsSpec k l (n + 1) (rem - (getItem l n).weight))
        (rodsSpec k (blockItems (getItem l n) l) (n + 1) rem)
      omega
    | false =>
      rw [hc] at hcw
      rw [if_neg (by simp)] at hcw
      obtain ⟨blen, bcore, bbb⟩ := blockItems_facts (getItem l n) l
      have hw' : ∀ p, 0 ≤ (getItem (blockItems (getItem l n) l) p).weight := by
        intro p
        rw [(bcore p).2.2.2.1]
        exact hw p
      have hv' : validCompl (blockItems (getItem l n) l) (n + 1) k c := by
        intro p hp1 hp2 hpc
        obtain ⟨h1, h2⟩ := hv p (by omega) (by omega) hpc
        have hnotn : p ∉ (getItem l n).blockList := h2 n (le_refl n) (by omega) hc
        refine ⟨?_, ?_⟩
        · rw [bbb p (by omega), if_neg (fun hx => hnotn hx.2)]
          exact h1
        · intro a ha1 ha2 hac
          rw [(bcore a).2.1]
          exact h2 a (by omega) ha2 hac
      have hcw' : cwtF k (blockItems (getItem l n) l) (n + 1) c ≤ rem := by
        rw [cwtF_congr k _ l (n + 1) c (fun p => (bcore p).2.2.2.1)]
        omega
      have hIH := ih (blockItems (getItem l n) l) (n + 1) rem c (by omega) hw' hv' hcw'
      rw [← cvalF_congr k l (blockItems (getItem l n) l) (n + 1) c
        (fun p => ((bcore p).2.2.1).symm)] at hIH
      rw [cvalF_succ, hc, if_neg (by simp), rodsSpec_succ]
      split
      · have := le_max_right
          ((getItem l n).value + rodsSpec k l (n + 1) (rem - (getItem l n).weight))
          (rodsSpec k (blockItems (getItem l n) l) (n + 1) rem)
        omega
      · omega

/-- Point update of a completion. -/
def updFn (c : Nat → Bool) (j : Nat) (b : Bool) : Nat → Bool :=
  fun x => if x = j then b else c x

lemma updFn_self (c : Nat → Bool) (j : Nat) (b : Bool) : updFn c j b j = b := if_pos rfl

lemma updFn_ne (c : Nat → Bool) (j : Nat) (b : Bool) (x : Nat) (h : x ≠ j) :
    updFn c j b x = c x := if_neg h

lemma cvalF_upd (k : Nat) : ∀ (l : List Item) (n : Nat) (c : Nat → Bool) (j : Nat) (b : Bool),
    n ≤ j → j < n + k →
    cvalF k l n (updFn c j b) + (if c j then (getItem l j).value else 0) =
      cvalF k l n c + (if b then (getItem l j).value else 0) := by
  induction k with
  | zero => intro l n c j b h1 h2; omega
  | succ k ih =>
    intro l n c j b h1 h2
    by_cases hj : j = n
    · subst hj
      rw [cvalF_succ, cvalF_succ, updFn_self,
        cvalF_congrFn k l (j + 1) (updFn c j b) c
          (fun p hp1 _ => updFn_ne c j b p (by omega))]
      omega
    · rw [cvalF_succ, cvalF_succ, updFn_ne c j b n (fun h => hj h.symm)]
      have := ih l (n + 1) c j b (by omega) (by omega)
      omega

lemma cwtF_upd (k : Nat) : ∀ (l : List Item) (n : Nat) (c : Nat → Bool) (j : Nat) (b : Bool),
    n ≤ j → j < n + k →
    cwtF k l n (updFn c j b) + (if c j then (getItem l j).weight else 0) =
      cwtF k l n c + (if b then (getItem l j).weight else 0) := by
  induction k with
  | zero => intro l n c j b h1 h2; omega
  | succ k ih =>
    intro l n c j b h1 h2
    by_cases hj : j = n
    · subst hj
      rw [cwtF_succ, cwtF_succ, updFn_self,
        cwtF_congrFn k l (j + 1) (updFn c j b) c
          (fun p hp1 _ => updFn_ne c j b p (by omega))]
      omega
    · rw [cwtF_succ, cwtF_succ, updFn_ne c j b n (fun h => hj h.symm)]
      have := ih l (n + 1) c j b (by omega) (by omega)
      omega

/-- The exchange argument's termination measure: excluded positions weighted
so that flipping an earlier position to "included" dominates any later flips. -/
def NF : Nat → Nat → (Nat → Bool) → Nat
  | 0, _, _ => 0
  | k + 1, n, c => (if c n then 0 else 2 ^ k) + NF k (n + 1) c

lemma NF_succ (k n : Nat) (c : Nat → Bool) :
    NF (k + 1) n c = (if c n then 0 else 2 ^ k) + NF k (n + 1) c := rfl

lemma NF_congrFn (k : Nat) : ∀ (n : Nat) (c c' : Nat → Bool),
    (∀ p, n ≤ p → p < n + k → c p = c' p) → NF k n c = NF k n c' := by
  induction k with
  | zero => intro n c c' _; rfl
  | succ k ih =>
    intro n c c' h
    rw [NF_succ, NF_succ, h n (le_refl n) (by omega),
      ih (n + 1) c c' (fun p h1 h2 => h p (by omega) (by omega))]

lemma NF_upd (k : Nat) : ∀ (n : Nat) (c : Nat → Bool) (j : Nat) (b : Bool),
    n ≤ j → j < n + k →
    NF k n (updFn c j b) + (if c j then 0 else 2 ^ (n + k - 1 - j)) =
      NF k n c + (if b then 0 else 2 ^ (n + k - 1 - j)) := by
  induction k with
  | zero => intro n c j b h1 h2; omega
  | succ k ih =>
    intro n c j b h1 h2
    by_cases hj : j = n
    · subst hj
      have hexp : j + (k + 1) - 1 - j = k := by omega
      rw [hexp, NF_succ, NF_succ, updFn_self,
        NF_congrFn k (j + 1) (updFn c j b) c (fun p hp1 _ => updFn_ne c j b p (by omega))]
      omega
    · have hexp : n + (k + 1) - 1 - j = n + 1 + k - 1 - j := by omega
      rw [hexp, NF_succ, NF_succ, updFn_ne c j b n (fun h => hj h.symm)]
      have := ih (n + 1) c j b (by omega) (by omega)
      omega

lemma specOpt_achieve (k : Nat) : ∀ (l : List Item) (n : Nat) (cap : Int),
    n + k = l.length → 0 ≤ cap →
    ∃ c : Nat → Bool, cwtF k l n c ≤ cap ∧ cvalF k l n c = specOpt (pairsOf (l.drop n)) cap := by
  induction k with
  | zero =>
    intro l n cap hn hcap
    refine ⟨fun _ => false, hcap, ?_⟩
    rw [List.drop_eq_nil_of_le (by omega)]
    rfl
  | succ k ih =>
    intro l n cap hn hcap
    have hlt : n < l.length := by omega
    rw [pairsOf_drop_cons l n hlt, specOpt_cons]
    by_cases hfit : (getItem l n).weight ≤ cap
    · rw [if_pos hfit]
      rcases max_choice (specOpt (pairsOf (l.drop (n + 1))) cap)
        ((getItem l n).value + specOpt (pairsOf (l.drop (n + 1)))
          (cap - (getItem l n).weight)) with hm | hm
      · obtain ⟨c0, hc0w, hc0v⟩ := ih l (n + 1) cap (by omega) hcap
        refine ⟨updFn c0 n false, ?_, ?_⟩
        · rw [cwtF_succ, updFn_self, if_neg (by simp),
            cwtF_congrFn k l (n + 1) (updFn c0 n false) c0
              (fun p hp1 _ => updFn_ne c0 n false p (by omega))]
          omega
        · rw [hm, cvalF_succ, updFn_self, if_neg (by simp),
            cvalF_congrFn k l (n + 1) (updFn c0 n false) c0
              (fun p hp1 _ => updFn_ne c0 n false p (by omega))]
          omega
      · obtain ⟨c1, hc1w, hc1v⟩ := ih l (n + 1) (cap - (getItem l n).weight) (by omega)
          (by omega)
        refine ⟨updFn c1 n true, ?_, ?_⟩
        · rw [cwtF_succ, updFn_self, if_pos rfl,
            cwtF_congrFn k l (n + 1) (updFn c1 n true) c1
              (fun p hp1 _ => updFn_ne c1 n true p (by omega))]
          omega
        · rw [hm, cvalF_succ, updFn_self, if_pos rfl,
            cvalF_congrFn k l (n + 1) (updFn c1 n true) c1
              (fun p hp1 _ => updFn_ne c1 n true p (by omega))]
          omega
    · rw [if_neg hfit, max_self]
      obtain ⟨c0, hc0w, hc0v⟩ := ih l (n + 1) cap (by omega) hcap
      refine ⟨updFn c0 n false, ?_, ?_⟩
      · rw [cwtF_succ, updFn_self, if_neg (by simp),
          cwtF_congrFn k l (n + 1) (updFn c0 n false) c0
            (fun p hp1 _ => updFn_ne c0 n false p (by omega))]
        omega
      · rw [cvalF_succ, updFn_self, if_neg (by simp),
          cvalF_congrFn k l (n + 1) (updFn c0 n false) c0
            (fun p hp1 _ => updFn_ne c0 n false p (by omega))]
        omega

lemma exchange_step (l : List Item)
    (hub : ∀ p, p < l.length → (getItem l p).blockedBy < 0)
    (hdom : ∀ a p, a < l.length → p ∈ (getItem l a).blockList →
      p < l.length ∧ (getItem l p).value ≤ (getItem l a).value ∧
        (getItem l a).weight ≤ (getItem l p).weight) :
    ∀ (N : Nat) (c : Nat → Bool), NF l.length 0 c ≤ N →
      ∃ c', validCompl l 0 l.length c' ∧
        cwtF l.length l 0 c' ≤ cwtF l.length l 0 c ∧
        cvalF l.length l 0 c ≤ cvalF l.length l 0 c' := by
  intro N
  induction N using Nat.strong_induction_on with
  | _ N sih =>
    intro c hNc
    by_cases hvc : validCompl l 0 l.length c
    · exact ⟨c, hvc, le_refl _, le_refl _⟩
    · unfold validCompl at hvc
      push_neg at hvc
      obtain ⟨p, -, hp, hcp, hviol⟩ := hvc
      have hplen : p < l.length := by omega
      obtain ⟨a, -, hap, hca, hmem⟩ := hviol (hub p hplen)
      obtain ⟨-, hval, hwt⟩ := hdom a p (by omega) hmem
      have hane : p ≠ a := by omega
      -- swap: include the excluded dominator a, exclude the dominated p
      have e1v := cvalF_upd l.length l 0 c a true (by omega) (by omega)
      have e1w := cwtF_upd l.length l 0 c a true (by omega) (by omega)
      have e1n := NF_upd l.length 0 c a true (by omega) (by omega)
      rw [hca] at e1v e1w e1n
      rw [if_neg (by simp), if_pos rfl] at e1v e1w e1n
      have hc2p : updFn c a true p = c p := updFn_ne c a true p hane
      have e2v := cvalF_upd l.length l 0 (updFn c a true) p false (by omega) (by omega)
      have e2w := cwtF_upd l.length l 0 (updFn c a true) p false (by omega) (by omega)
      have e2n := NF_upd l.length 0 (updFn c a true) p false (by omega) (by omega)
      rw [hc2p, hcp] at e2v e2w e2n
      rw [if_pos rfl, if_neg (by simp)] at e2v e2w e2n
      have hpow : 2 ^ (0 + l.length - 1 - p) < 2 ^ (0 + l.length - 1 - a) :=
        Nat.pow_lt_pow_right (by omega) (by omega)
      have hNlt : NF l.length 0 (updFn (updFn c a true) p false) < NF l.length 0 c := by
        omega
      obtain ⟨c', hval', hw', hv'⟩ :=
        sih (NF l.length 0 (updFn (updFn c a true) p false)) (by omega) _ (le_refl _)
      refine ⟨c', hval', ?_, ?_⟩
      · omega
      · omega

lemma rodsSpec_eq_specOpt (l : List Item) (aw : Int)
    (hnn : NonnegItems l) (haw : 0 ≤ aw)
    (hub : ∀ p, p < l.length → (getItem l p).blockedBy < 0)
    (hdom : ∀ a p, a < l.length → p ∈ (getItem l a).blockList →
      p < l.length ∧ (getItem l p).value ≤ (getItem l a).value ∧
        (getItem l a).weight ≤ (getItem l p).weight) :
    rodsSpec l.length l 0 aw = specOpt (pairsOf l) aw := by
  apply le_antisymm
  · have h := rodsSpec_le_specOpt l.length l 0 aw (by omega) hnn
    rwa [List.drop_zero] at h
  · obtain ⟨c, hcw, hcv⟩ := specOpt_achieve l.length l 0 aw (by omega) haw
    obtain ⟨c', hvalid, hw', hv'⟩ :=
      exchange_step l hub hdom (NF l.length 0 c) c (le_refl _)
    have hg := rodsSpec_ge_valid l.length l 0 aw c' (by omega)
      (getItem_weight_nonneg l hnn) hvalid (by omega)
    rw [List.drop_zero] at hcv
    omega

/-! ### The dominance-pruned search explores exactly the unblocked completions -/

lemma doRodsTechnique_base (k : Nat) (items : List Item) (aw : Int) (n : Nat)
    (best curV curW remV : Int) (h : items.length ≤ n) :
    doRodsTechnique k items aw n best curV curW remV =
      { state := items, solution := items, value := solutionValue items aw, calls := 1 } := by
  cases k <;> simp [doRodsTechnique, copyItems, h]

lemma doRodsTechnique_prune (k : Nat) (items : List Item) (aw : Int) (n : Nat)
    (best curV curW remV : Int) (h1 : n < items.length) (h2 : curV + remV < best) :
    doRodsTechnique k items aw n best curV curW remV =
      { state := items, solution := [], value := 0, calls := 1 } := by
  cases k <;> simp [doRodsTechnique, h2, show ¬ items.length ≤ n by omega]

lemma doRodsTechnique_zero_node (items : List Item) (aw : Int) (n : Nat)
    (best curV curW remV : Int) (h1 : n < items.length) :
    doRodsTechnique 0 items aw n best curV curW remV =
      { state := items, solution := [], value := 0, calls := 1 } := by
  rw [doRodsTechnique]
  rw [if_neg (by omega)]
  split <;> rfl

lemma doRodsTechnique_node (k : Nat) (items : List Item) (aw : Int) (n : Nat)
    (best curV curW remV : Int) (h1 : n < items.length) (h2 : ¬ (curV + remV < best)) :
    doRodsTechnique (k + 1) items aw n best curV curW remV =
      (let it := getItem items n
       let r1 :=
         if curW + it.weight ≤ aw ∧ it.blockedBy < 0 then
           doRodsTechnique k (setSelected items n true) aw (n + 1)
             best (curV + it.value) (curW + it.weight) (remV - it.value)
         else { state := items, solution := [], value := 0, calls := 1 }
       let best1 := if r1.value > best then r1.value else best
       let r2 :=
         doRodsTechnique k
           (setSelected (blockItems (getItem r1.state n) r1.state) n false)
           aw (n + 1) best1 curV curW (remV - it.value)
       let finalState := unblockItems (getItem r2.state n) r2.state
       if r1.value ≥ r2.value then
         { state := finalState, solution := r1.solution, value := r1.value,
           calls := r1.calls + r2.calls + 1 }
       else
         { state := finalState, solution := r2.solution, value := r2.value,
           calls := r1.calls + r2.calls + 1 }) := by
  rw [doRodsTechnique]
  rw [if_neg (by omega), if_neg h2]

/-- The best value the dominance-pruned search can reach from a node with the
prefix before `n` fixed. -/
def rodsM (k : Nat) (items : List Item) (aw : Int) (n : Nat) : Int :=
  valueBefore items n + rodsSpec k items n (aw - weightBefore items n)

lemma rodsM_nonneg (k : Nat) (items : List Item) (aw : Int) (n : Nat)
    (hnn : NonnegItems items) : 0 ≤ rodsM k items aw n := by
  unfold rodsM
  have h1 := valueBefore_nonneg items n hnn
  have h2 := rodsSpec_nonneg k items n (aw - weightBefore items n)
  omega

lemma rodsM_le (k : Nat) (items : List Item) (aw : Int) (n : Nat)
    (hn : n + k = items.length) (hnn : NonnegItems items) :
    rodsM k items aw n ≤ valueBefore items n + valueFrom items n := by
  unfold rodsM
  have h1 := rodsSpec_le_specOpt k items n (aw - weightBefore items n) hn hnn
  have h2 := specOpt_le_valueFrom items n (aw - weightBefore items n) hnn
  omega

lemma valueBefore_congr_sel (l1 l2 : List Item) (n : Nat) (hl : l1.length = l2.length)
    (h : ∀ p, p < n → p < l1.length →
      (getItem l1 p).value = (getItem l2 p).value ∧
      (getItem l1 p).isSelected = (getItem l2 p).isSelected) :
    valueBefore l1 n = valueBefore l2 n := by
  unfold valueBefore
  rw [sumValues_false_eq, sumValues_false_eq,
    take_map_congr selVal selVal l1 l2 n hl (fun p h1 h2 => by
      unfold selVal
      rw [(h p h1 h2).1, (h p h1 h2).2])]

lemma weightBefore_congr_sel (l1 l2 : List Item) (n : Nat) (hl : l1.length = l2.length)
    (h : ∀ p, p < n → p < l1.length →
      (getItem l1 p).weight = (getItem l2 p).weight ∧
      (getItem l1 p).isSelected = (getItem l2 p).isSelected) :
    weightBefore l1 n = weightBefore l2 n := by
  unfold weightBefore
  rw [sumWeights_false_eq, sumWeights_false_eq,
    take_map_congr selWt selWt l1 l2 n hl (fun p h1 h2 => by
      unfold selWt
      rw [(h p h1 h2).1, (h p h1 h2).2])]

lemma doRodsTechnique_spec (k : Nat) :
    ∀ (items : List Item) (aw : Int) (n : Nat) (best : Int),
      n + k = items.length → NonnegItems items →
      (∀ p, p < items.length → (getItem items p).id = p) →
      (∀ p, p < items.length → -1 ≤ (getItem items p).blockedBy ∧
        (getItem items p).blockedBy < (n : Int)) →
      weightBefore items n ≤ aw → 0 ≤ best →
      (doRodsTechnique k items aw n best (valueBefore items n) (weightBefore items n)
        (valueFrom items n)).state.length = items.length ∧
      (∀ p, fieldsEq (getItem (doRodsTechnique k items aw n best (valueBefore items n)
        (weightBefore items n) (valueFrom items n)).state p) (getItem items p)) ∧
      (∀ p, p < n → (getItem (doRodsTechnique k items aw n best (valueBefore items n)
        (weightBefore items n) (valueFrom items n)).state p).isSelected =
        (getItem items p).isSelected) ∧
      0 ≤ (doRodsTechnique k items aw n best (valueBefore items n) (weightBefore items n)
        (valueFrom items n)).value ∧
      (doRodsTechnique k items aw n best (valueBefore items n) (weightBefore items n)
        (valueFrom items n)).value ≤ rodsM k items aw n ∧
      (best < rodsM k items aw n →
        (doRodsTechnique k items aw n best (valueBefore items n) (weightBefore items n)
          (valueFrom items n)).value = rodsM k items aw n) ∧
      ((doRodsTechnique k items aw n best (valueBefore items n) (weightBefore items n)
        (valueFrom items n)).solution = [] →
        (doRodsTechnique k items aw n best (valueBefore items n) (weightBefore items n)
          (valueFrom items n)).value = 0) ∧
      ((doRodsTechnique k items aw n best (valueBefore items n) (weightBefore items n)
        (valueFrom items n)).solution ≠ [] →
        (doRodsTechnique k items aw n best (valueBefore items n) (weightBefore items n)
          (valueFrom items n)).solution.length = items.length ∧
        sumWeights (doRodsTechnique k items aw n best (valueBefore items n)
          (weightBefore items n) (valueFrom items n)).solution false ≤ aw ∧
        sumValues (doRodsTechnique k items aw n best (valueBefore items n)
          (weightBefore items n) (valueFrom items n)).solution false =
        (doRodsTechnique k items aw n best (valueBefore items n) (weightBefore items n)
          (valueFrom items n)).value) := by
  induction k with
  | zero =>
    intro items aw n best hn hnn hids hbb hwle hbest
    have hlen : items.length ≤ n := by omega
    rw [doRodsTechnique_base 0 items aw n best _ _ _ hlen]
    have hwall : sumWeights items false = weightBefore items n :=
      (weightBefore_all items n hlen).symm
    have hvall : sumValues items false = valueBefore items n :=
      (valueBefore_all items n hlen).symm
    have hsv : solutionValue items aw = valueBefore items n := by
      unfold solutionValue
      rw [if_neg (by omega), hvall]
    have hM : rodsM 0 items aw n = valueBefore items n := by
      unfold rodsM
      rw [show rodsSpec 0 items n (aw - weightBefore items n) = 0 from rfl]
      ring
    have hvb0 : 0 ≤ valueBefore items n := valueBefore_nonneg items n hnn
    refine ⟨rfl, fun p => fieldsEq_refl _, fun p _ => rfl, ?_, ?_, ?_, ?_, ?_⟩
    · show 0 ≤ solutionValue items aw
      rw [hsv]; exact hvb0
    · show solutionValue items aw ≤ _
      rw [hsv, hM]
    · intro _
      show solutionValue items aw = _
      rw [hsv, hM]
    · intro hsol
      show solutionValue items aw = 0
      rw [hsv]
      have : items.length = 0 := by
        have := congrArg List.length hsol
        simpa using this
      have hnil : items = [] := List.length_eq_zero.mp this
      rw [hnil] at hvall ⊢
      rw [← hvall]
      rfl
    · intro hsol
      refine ⟨rfl, by rw [hwall]; exact hwle, by rw [hvall, hsv]⟩
  | succ k ih =>
    intro items aw n best hn hnn hids hbb hwle hbest
    have hlt : n < items.length := by omega
    by_cases hpr : valueBefore items n + valueFrom items n < best
    · rw [doRodsTechnique_prune (k + 1) items aw n best _ _ _ hlt hpr]
      have hMle : rodsM (k + 1) items aw n ≤ valueBefore items n + valueFrom items n :=
        rodsM_le (k + 1) items aw n (by omega) hnn
      have hM0 : 0 ≤ rodsM (k + 1) items aw n := rodsM_nonneg (k + 1) items aw n hnn
      exact ⟨rfl, fun p => fieldsEq_refl _, fun p _ => rfl, le_refl 0,
        show (0 : Int) ≤ _ by omega,
        fun h => absurd h (by omega), fun _ => rfl, fun h => absurd rfl h⟩
    · rw [doRodsTechnique_node k items aw n best _ _ _ hlt hpr]
      simp only
      have hvnn : 0 ≤ (getItem items n).value := (hnn _ (getItem_mem items n hlt)).1
      have hwnn : 0 ≤ (getItem items n).weight := (hnn _ (getItem_mem items n hlt)).2
      have hAnn : 0 ≤ valueBefore items n := valueBefore_nonneg items n hnn
      have hInn : 0 ≤ rodsSpec k items (n + 1)
          (aw - weightBefore items n - (getItem items n).weight) := rodsSpec_nonneg _ _ _ _
      have hEnn : 0 ≤ rodsSpec k (blockItems (getItem items n) items) (n + 1)
          (aw - weightBefore items n) := rodsSpec_nonneg _ _ _ _
      have hRsucc : valueFrom items n = (getItem items n).value + valueFrom items (n + 1) :=
        valueFrom_succ items n hlt
      have hMsplit : rodsM (k + 1) items aw n = valueBefore items n +
          (if (getItem items n).weight ≤ aw - weightBefore items n ∧
              (getItem items n).blockedBy < 0 then
            max ((getItem items n).value + rodsSpec k items (n + 1)
                (aw - weightBefore items n - (getItem items n).weight))
              (rodsSpec k (blockItems (getItem items n) items) (n + 1)
                (aw - weightBefore items n))
          else rodsSpec k (blockItems (getItem items n) items) (n + 1)
            (aw - weightBefore items n)) := by
        unfold rodsM
        rw [rodsSpec_succ]
      have hE_le_M : valueBefore items n + rodsSpec k (blockItems (getItem items n) items)
          (n + 1) (aw - weightBefore items n) ≤ rodsM (k + 1) items aw n := by
        rw [hMsplit]
        by_cases hcnd : (getItem items n).weight ≤ aw - weightBefore items n ∧
            (getItem items n).blockedBy < 0
        · rw [if_pos hcnd]
          have := le_max_right ((getItem items n).value + rodsSpec k items (n + 1)
              (aw - weightBefore items n - (getItem items n).weight))
            (rodsSpec k (blockItems (getItem items n) items) (n + 1)
              (aw - weightBefore items n))
          omega
        · rw [if_neg hcnd]
      obtain ⟨cblen, cbcore, cbbb⟩ := blockItems_facts (getItem items n) items
      by_cases hinc : weightBefore items n + (getItem items n).weight ≤ aw ∧
          (getItem items n).blockedBy < 0
      · -- include branch explored
        rw [if_pos hinc]
        have hcond' : (getItem items n).weight ≤ aw - weightBefore items n ∧
            (getItem items n).blockedBy < 0 := ⟨by omega, hinc.2⟩
        have hM' : rodsM (k + 1) items aw n = valueBefore items n +
            max ((getItem items n).value + rodsSpec k items (n + 1)
                (aw - weightBefore items n - (getItem items n).weight))
              (rodsSpec k (blockItems (getItem items n) items) (n + 1)
                (aw - weightBefore items n)) := by
          rw [hMsplit, if_pos hcond']
        have hM1le : valueBefore items n + (getItem items n).value + rodsSpec k items (n + 1)
            (aw - weightBefore items n - (getItem items n).weight) ≤
            rodsM (k + 1) items aw n := by
          rw [hM']
          have := le_max_left ((getItem items n).value + rodsSpec k items (n + 1)
              (aw - weightBefore items n - (getItem items n).weight))
            (rodsSpec k (blockItems (getItem items n) items) (n + 1)
              (aw - weightBefore items n))
          omega
        have hMch : rodsM (k + 1) items aw n = valueBefore items n +
              rodsSpec k (blockItems (getItem items n) items) (n + 1)
                (aw - weightBefore items n) ∨
            rodsM (k + 1) items aw n = valueBefore items n + (getItem items n).value +
              rodsSpec k items (n + 1)
                (aw - weightBefore items n - (getItem items n).weight) := by
          rw [hM']
          rcases max_choice ((getItem items n).value + rodsSpec k items (n + 1)
              (aw - weightBefore items n - (getItem items n).weight))
            (rodsSpec k (blockItems (getItem items n) items) (n + 1)
              (aw - weightBefore items n)) with h | h
          · right; rw [h]; ring
          · left; rw [h]
        have hl1 : (setSelected items n true).length = items.length :=
          setSelected_length items n true
        have hf1 : ∀ p, fieldsEq (getItem (setSelected items n true) p) (getItem items p) :=
          setSelected_fieldsEq items n true
        have hs1ne : ∀ p, p ≠ n → getItem (setSelected items n true) p = getItem items p :=
          fun p hp => getItem_setSelected_ne items n true p hp
        have hs1n : getItem (setSelected items n true) n =
            { getItem items n with isSelected := true } :=
          getItem_setSelected_self items n true hlt
        have hnn1 : NonnegItems (setSelected items n true) :=
          nonneg_transfer items _ hl1 (fun p _ => ⟨(hf1 p).2.2.2.1, (hf1 p).2.2.2.2⟩) hnn
        have hids1 : ∀ p, p < (setSelected items n true).length →
            (getItem (setSelected items n true) p).id = p := by
          intro p hp
          rw [(hf1 p).1]
          exact hids p (by rw [hl1] at hp; omega)
        have hbb1 : ∀ p, p < (setSelected items n true).length →
            -1 ≤ (getItem (setSelected items n true) p).blockedBy ∧
            (getItem (setSelected items n true) p).blockedBy < ((n + 1 : Nat) : Int) := by
          intro p hp
          rw [(hf1 p).2.1]
          obtain ⟨hg1, hg2⟩ := hbb p (by rw [hl1] at hp; omega)
          refine ⟨hg1, by push_cast; omega⟩
        have hvb1 : valueBefore (setSelected items n true) (n + 1) =
            valueBefore items n + (getItem items n).value := by
          rw [valueBefore_succ _ n (by omega), hs1n,
            valueBefore_congr (setSelected items n true) items n (by omega)
              (fun p h1 _ => hs1ne p (by omega))]
          simp [selVal]
        have hwb1 : weightBefore (setSelected items n true) (n + 1) =
            weightBefore items n + (getItem items n).weight := by
          rw [weightBefore_succ _ n (by omega), hs1n,
            weightBefore_congr (setSelected items n true) items n (by omega)
              (fun p h1 _ => hs1ne p (by omega))]
          simp [selWt]
        have hvf1 : valueFrom (setSelected items n true) (n + 1) =
            valueFrom items n - (getItem items n).value := by
          rw [valueFrom_congr (setSelected items n true) items (n + 1) (by omega)
            (fun p _ _ => (hf1 p).2.2.2.1), hRsucc]
          ring
        have hM1 : rodsM k (setSelected items n true) aw (n + 1) =
            valueBefore items n + (getItem items n).value + rodsSpec k items (n + 1)
              (aw - weightBefore items n - (getItem items n).weight) := by
          unfold rodsM
          rw [hvb1, hwb1,
            rodsSpec_congr k (setSelected items n true) items (n + 1) _
              (stateEq_of_setSelected items n true),
            show aw - (weightBefore items n + (getItem items n).weight) =
              aw - weightBefore items n - (getItem items n).weight by ring]
        obtain ⟨ih1len, ih1f, ih1lo, ih1v0, ih1le, ih1eq, ih1solnil, ih1solok⟩ :=
          ih (setSelected items n true) aw (n + 1) best (by rw [hl1]; omega) hnn1 hids1 hbb1
            (by rw [hwb1]; exact hinc.1) hbest
        rw [hvb1, hwb1, hvf1] at ih1len ih1f ih1lo ih1v0 ih1le ih1eq ih1solnil ih1solok
        rw [hM1] at ih1le ih1eq
        rw [hl1] at ih1len
        set r1 := doRodsTechnique k (setSelected items n true) aw (n + 1) best
          (valueBefore items n + (getItem items n).value)
          (weightBefore items n + (getItem items n).weight)
          (valueFrom items n - (getItem items n).value) with hr1def
        have hb1ge1 : best ≤ (if r1.value > best then r1.value else best) := by
          split <;> omega
        have hb1ge2 : r1.value ≤ (if r1.value > best then r1.value else best) := by
          split <;> omega
        have hb1cases : (if r1.value > best then r1.value else best) = best ∨
            (if r1.value > best then r1.value else best) = r1.value := by
          split
          · right; rfl
          · left; rfl
        have hb1nn : 0 ≤ (if r1.value > best then r1.value else best) := by omega
        have f1len : r1.state.length = items.length := ih1len
        have f1f : ∀ p, fieldsEq (getItem r1.state p) (getItem items p) :=
          fun p => fieldsEq_trans (ih1f p) (hf1 p)
        have f1sel : ∀ p, p < n → (getItem r1.state p).isSelected =
            (getItem items p).isSelected := by
          intro p hp
          rw [ih1lo p (by omega), getItem_setSelected_ne items n true p (by omega)]
        obtain ⟨b2len, b2core, b2bb⟩ := blockItems_facts (getItem r1.state n) r1.state
        have hsrc1id : (getItem r1.state n).id = n := by
          rw [(f1f n).1]
          exact hids n hlt
        have hsrc1bl : (getItem r1.state n).blockList = (getItem items n).blockList :=
          (f1f n).2.2.1
        have hBlen : (blockItems (getItem r1.state n) r1.state).length = items.length := by
          rw [b2len, f1len]
        have hl2 : (setSelected (blockItems (getItem r1.state n) r1.state) n false).length =
            items.length := by
          rw [setSelected_length, hBlen]
        have hcomp : ∀ p,
            (getItem (setSelected (blockItems (getItem r1.state n) r1.state) n false) p).id =
              (getItem items p).id ∧
            (getItem (setSelected (blockItems (getItem r1.state n) r1.state) n false)
              p).blockList = (getItem items p).blockList ∧
            (getItem (setSelected (blockItems (getItem r1.state n) r1.state) n false)
              p).value = (getItem items p).value ∧
            (getItem (setSelected (blockItems (getItem r1.state n) r1.state) n false)
              p).weight = (getItem items p).weight := by
          intro p
          have hs := setSelected_fieldsEq (blockItems (getItem r1.state n) r1.state) n false p
          have hbq := b2core p
          have hfq := f1f p
          exact ⟨by rw [hs.1, hbq.1, hfq.1],
            by rw [hs.2.2.1, hbq.2.1, hfq.2.2.1],
            by rw [hs.2.2.2.1, hbq.2.2.1, hfq.2.2.2.1],
            by rw [hs.2.2.2.2, hbq.2.2.2.1, hfq.2.2.2.2]⟩
        have hsel2 : ∀ p, p < n →
            (getItem (setSelected (blockItems (getItem r1.state n) r1.state) n false)
              p).isSelected = (getItem items p).isSelected := by
          intro p hp
          rw [getItem_setSelected_ne _ n false p (by omega), (b2core p).2.2.2.2]
          exact f1sel p hp
        have hsel2n : (getItem (setSelected (blockItems (getItem r1.state n) r1.state) n
            false) n).isSelected = false := by
          rw [getItem_setSelected_self _ n false (by rw [hBlen]; omega)]
        have hbb2 : ∀ p, p < items.length →
            (getItem (setSelected (blockItems (getItem r1.state n) r1.state) n false)
              p).blockedBy =
              (if (getItem items p).blockedBy < 0 ∧ p ∈ (getItem items n).blockList
               then (n : Int) else (getItem items p).blockedBy) := by
          intro p hp
          rw [(setSelected_fieldsEq (blockItems (getItem r1.state n) r1.state) n false p).2.1,
            b2bb p (by rw [f1len]; omega), (f1f p).2.1, hsrc1bl, hsrc1id]
        have hnn2 : NonnegItems (setSelected (blockItems (getItem r1.state n) r1.state) n
            false) :=
          nonneg_transfer items _ hl2 (fun p _ => ⟨(hcomp p).2.2.1, (hcomp p).2.2.2⟩) hnn
        have hids2 : ∀ p,
            p < (setSelected (blockItems (getItem r1.state n) r1.state) n false).length →
            (getItem (setSelected (blockItems (getItem r1.state n) r1.state) n false)
              p).id = p := by
          intro p hp
          rw [(hcomp p).1]
          exact hids p (by rw [hl2] at hp; omega)
        have hbb2inv : ∀ p,
            p < (setSelected (blockItems (getItem r1.state n) r1.state) n false).length →
            -1 ≤ (getItem (setSelected (blockItems (getItem r1.state n) r1.state) n false)
              p).blockedBy ∧
            (getItem (setSelected (blockItems (getItem r1.state n) r1.state) n false)
              p).blockedBy < ((n + 1 : Nat) : Int) := by
          intro p hp
          rw [hl2] at hp
          rw [hbb2 p hp]
          obtain ⟨hg1, hg2⟩ := hbb p hp
          by_cases hcnd : (getItem items p).blockedBy < 0 ∧ p ∈ (getItem items n).blockList
          · rw [if_pos hcnd]
            refine ⟨by omega, by push_cast; omega⟩
          · rw [if_neg hcnd]
            refine ⟨hg1, by push_cast; omega⟩
        have hvb2 : valueBefore (setSelected (blockItems (getItem r1.state n) r1.state) n
            false) (n + 1) = valueBefore items n := by
          rw [valueBefore_succ _ n (by rw [hl2]; omega),
            valueBefore_congr_sel (setSelected (blockItems (getItem r1.state n) r1.state) n
              false) items n (by rw [hl2])
              (fun p h1 _ => ⟨(hcomp p).2.2.1, hsel2 p h1⟩)]
          simp [selVal, hsel2n]
        have hwb2 : weightBefore (setSelected (blockItems (getItem r1.state n) r1.state) n
            false) (n + 1) = weightBefore items n := by
          rw [weightBefore_succ _ n (by rw [hl2]; omega),
            weightBefore_congr_sel (setSelected (blockItems (getItem r1.state n) r1.state) n
              false) items n (by rw [hl2])
              (fun p h1 _ => ⟨(hcomp p).2.2.2, hsel2 p h1⟩)]
          simp [selWt, hsel2n]
        have hvf2 : valueFrom (setSelected (blockItems (getItem r1.state n) r1.state) n
            false) (n + 1) = valueFrom items n - (getItem items n).value := by
          rw [valueFrom_congr (setSelected (blockItems (getItem r1.state n) r1.state) n
            false) items (n + 1) (by rw [hl2])
            (fun p _ _ => (hcomp p).2.2.1), hRsucc]
          ring
        have hM2 : rodsM k (setSelected (blockItems (getItem r1.state n) r1.state) n false)
            aw (n + 1) =
            valueBefore items n + rodsSpec k (blockItems (getItem items n) items) (n + 1)
              (aw - weightBefore items n) := by
          unfold rodsM
          rw [hvb2, hwb2]
          congr 1
          apply rodsSpec_congr
          refine ⟨by rw [hl2, cblen], fun p => ?_⟩
          by_cases hp : p < items.length
          · refine ⟨by rw [(hcomp p).1, (cbcore p).1], ?_,
              by rw [(hcomp p).2.1, (cbcore p).2.1],
              by rw [(hcomp p).2.2.1, (cbcore p).2.2.1],
              by rw [(hcomp p).2.2.2, (cbcore p).2.2.2.1]⟩
            rw [hbb2 p hp, cbbb p hp, hids n hlt]
          · rw [getItem_oob _ p (by rw [hl2]; omega), getItem_oob _ p (by rw [cblen]; omega)]
            exact fieldsEq_refl _
        obtain ⟨ih2len, ih2f, ih2lo, ih2v0, ih2le, ih2eq, ih2solnil, ih2solok⟩ :=
          ih (setSelected (blockItems (getItem r1.state n) r1.state) n false) aw (n + 1)
            (if r1.value > best then r1.value else best) (by rw [hl2]; omega) hnn2 hids2
            hbb2inv (by rw [hwb2]; exact hwle) hb1nn
        rw [hvb2, hwb2, hvf2] at ih2len ih2f ih2lo ih2v0 ih2le ih2eq ih2solnil ih2solok
        rw [hM2] at ih2le ih2eq
        rw [hl2] at ih2len
        set r2 := doRodsTechnique k
          (setSelected (blockItems (getItem r1.state n) r1.state) n false) aw (n + 1)
          (if r1.value > best then r1.value else best) (valueBefore items n)
          (weightBefore items n) (valueFrom items n - (getItem items n).value) with hr2def
        obtain ⟨ulen, ucore, ubb⟩ := unblockItems_facts (getItem r2.state n) r2.state
        have hr2len : r2.state.length = items.length := ih2len
        have hsrc2id : (getItem r2.state n).id = n := by
          rw [(ih2f n).1, (hcomp n).1]
          exact hids n hlt
        have hsrc2bl : (getItem r2.state n).blockList = (getItem items n).blockList := by
          rw [(ih2f n).2.2.1, (hcomp n).2.1]
        have hflen : (unblockItems (getItem r2.state n) r2.state).length = items.length := by
          rw [ulen, hr2len]
        have hfin_bb : ∀ p, p < items.length →
            (getItem (unblockItems (getItem r2.state n) r2.state) p).blockedBy =
              (getItem items p).blockedBy := by
          intro p hp
          rw [ubb p (by rw [hr2len]; omega), (ih2f p).2.1, hbb2 p hp, hsrc2id, hsrc2bl]
          obtain ⟨hg1, hg2⟩ := hbb p hp
          by_cases h1 : (getItem items p).blockedBy < 0 ∧ p ∈ (getItem items n).blockList
          · have hEq : (if (getItem items p).blockedBy < 0 ∧
                  p ∈ (getItem items n).blockList
                then (n : Int) else (getItem items p).blockedBy) = (n : Int) := if_pos h1
            rw [hEq, if_pos (show (n : Int) = (n : Int) ∧ p ∈ (getItem items n).blockList
              from ⟨rfl, h1.2⟩)]
            omega
          · have hEq : (if (getItem items p).blockedBy < 0 ∧
                  p ∈ (getItem items n).blockList
                then (n : Int) else (getItem items p).blockedBy) =
                (getItem items p).blockedBy := if_neg h1
            rw [hEq, if_neg (show ¬ ((getItem items p).blockedBy = (n : Int) ∧
                p ∈ (getItem items n).blockList) from fun hx => by
              have := hx.1
              omega)]
        have hffields : ∀ p, fieldsEq
            (getItem (unblockItems (getItem r2.state n) r2.state) p) (getItem items p) := by
          intro p
          by_cases hp : p < items.length
          · have hu := ucore p
            have h2q := ih2f p
            have hcq := hcomp p
            exact ⟨by rw [hu.1, h2q.1, hcq.1], hfin_bb p hp,
              by rw [hu.2.1, h2q.2.2.1, hcq.2.1],
              by rw [hu.2.2.1, h2q.2.2.2.1, hcq.2.2.1],
              by rw [hu.2.2.2.1, h2q.2.2.2.2, hcq.2.2.2]⟩
          · rw [getItem_oob _ p (by rw [hflen]; omega), getItem_oob items p (by omega)]
            exact fieldsEq_refl _
        have hfsel : ∀ p, p < n →
            (getItem (unblockItems (getItem r2.state n) r2.state) p).isSelected =
              (getItem items p).isSelected := by
          intro p hp
          rw [(ucore p).2.2.2.2, ih2lo p (by omega)]
          exact hsel2 p hp
        rcases le_or_lt r2.value r1.value with hc | hc
        · rw [if_pos (show r1.value ≥ r2.value from hc)]
          refine ⟨hflen, hffields, hfsel, ih1v0, ?_, ?_, ?_, ?_⟩
          · show r1.value ≤ rodsM (k + 1) items aw n
            omega
          · intro hbM
            show r1.value = rodsM (k + 1) items aw n
            rcases hMch with hcase | hcase
            · by_cases hg : (if r1.value > best then r1.value else best) <
                  valueBefore items n + rodsSpec k (blockItems (getItem items n) items)
                    (n + 1) (aw - weightBefore items n)
              · have hr2 := ih2eq hg
                omega
              · rcases hb1cases with hbc | hbc
                · exfalso; omega
                · omega
            · have hr1 := ih1eq (by omega)
              omega
          · intro hsol
            exact ih1solnil hsol
          · intro hsol
            obtain ⟨e1, e2, e3⟩ := ih1solok hsol
            exact ⟨e1.trans hl1, e2, e3⟩
        · rw [if_neg (show ¬ (r1.value ≥ r2.value) by omega)]
          refine ⟨hflen, hffields, hfsel, ih2v0, ?_, ?_, ?_, ?_⟩
          · show r2.value ≤ rodsM (k + 1) items aw n
            omega
          · intro hbM
            show r2.value = rodsM (k + 1) items aw n
            rcases hMch with hcase | hcase
            · by_cases hg : (if r1.value > best then r1.value else best) <
                  valueBefore items n + rodsSpec k (blockItems (getItem items n) items)
                    (n + 1) (aw - weightBefore items n)
              · have hr2 := ih2eq hg
                omega
              · rcases hb1cases with hbc | hbc
                · exfalso; omega
                · exfalso; omega
            · have hr1 := ih1eq (by omega)
              omega
          · intro hsol
            exact ih2solnil hsol
          · intro hsol
            obtain ⟨e1, e2, e3⟩ := ih2solok hsol
            exact ⟨e1.trans hl2, e2, e3⟩
      · -- include branch skipped: the item does not fit or is blocked
        rw [if_neg hinc]
        simp only
        have hcond' : ¬ ((getItem items n).weight ≤ aw - weightBefore items n ∧
            (getItem items n).blockedBy < 0) := fun hx => hinc ⟨by omega, hx.2⟩
        have hM' : rodsM (k + 1) items aw n = valueBefore items n +
            rodsSpec k (blockItems (getItem items n) items) (n + 1)
              (aw - weightBefore items n) := by
          rw [hMsplit, if_neg hcond']
        rw [if_neg (show ¬ ((0 : Int) > best) by omega)]
        have hl2 : (setSelected (blockItems (getItem items n) items) n false).length =
            items.length := by
          rw [setSelected_length, cblen]
        have hcomp : ∀ p,
            (getItem (setSelected (blockItems (getItem items n) items) n false) p).id =
              (getItem items p).id ∧
            (getItem (setSelected (blockItems (getItem items n) items) n false)
              p).blockList = (getItem items p).blockList ∧
            (getItem (setSelected (blockItems (getItem items n) items) n false)
              p).value = (getItem items p).value ∧
            (getItem (setSelected (blockItems (getItem items n) items) n false)
              p).weight = (getItem items p).weight := by
          intro p
          have hs := setSelected_fieldsEq (blockItems (getItem items n) items) n false p
          have hbq := cbcore p
          exact ⟨by rw [hs.1, hbq.1], by rw [hs.2.2.1, hbq.2.1],
            by rw [hs.2.2.2.1, hbq.2.2.1], by rw [hs.2.2.2.2, hbq.2.2.2.1]⟩
        have hsel2 : ∀ p, p < n →
            (getItem (setSelected (blockItems (getItem items n) items) n false)
              p).isSelected = (getItem items p).isSelected := by
          intro p hp
          rw [getItem_setSelected_ne _ n false p (by omega), (cbcore p).2.2.2.2]
        have hsel2n : (getItem (setSelected (blockItems (getItem items n) items) n
            false) n).isSelected = false := by
          rw [getItem_setSelected_self _ n false (by rw [cblen]; omega)]
        have hbb2 : ∀ p, p < items.length →
            (getItem (setSelected (blockItems (getItem items n) items) n false)
              p).blockedBy =
              (if (getItem items p).blockedBy < 0 ∧ p ∈ (getItem items n).blockList
               then (n : Int) else (getItem items p).blockedBy) := by
          intro p hp
          rw [(setSelected_fieldsEq (blockItems (getItem items n) items) n false p).2.1,
            cbbb p hp, hids n hlt]
        have hnn2 : NonnegItems (setSelected (blockItems (getItem items n) items) n false) :=
          nonneg_transfer items _ hl2 (fun p _ => ⟨(hcomp p).2.2.1, (hcomp p).2.2.2⟩) hnn
        have hids2 : ∀ p,
            p < (setSelected (blockItems (getItem items n) items) n false).length →
            (getItem (setSelected (blockItems (getItem items n) items) n false)
              p).id = p := by
          intro p hp
          rw [(hcomp p).1]
          exact hids p (by rw [hl2] at hp; omega)
        have hbb2inv : ∀ p,
            p < (setSelected (blockItems (getItem items n) items) n false).length →
            -1 ≤ (getItem (setSelected (blockItems (getItem items n) items) n false)
              p).blockedBy ∧
            (getItem (setSelected (blockItems (getItem items n) items) n false)
              p).blockedBy < ((n + 1 : Nat) : Int) := by
          intro p hp
          rw [hl2] at hp
          rw [hbb2 p hp]
          obtain ⟨hg1, hg2⟩ := hbb p hp
          by_cases hcnd : (getItem items p).blockedBy < 0 ∧ p ∈ (getItem items n).blockList
          · rw [if_pos hcnd]
            refine ⟨by omega, by push_cast; omega⟩
          · rw [if_neg hcnd]
            refine ⟨hg1, by push_cast; omega⟩
        have hvb2 : valueBefore (setSelected (blockItems (getItem items n) items) n
            false) (n + 1) = valueBefore items n := by
          rw [valueBefore_succ _ n (by rw [hl2]; omega),
            valueBefore_congr_sel (setSelected (blockItems (getItem items n) items) n
              false) items n (by rw [hl2])
              (fun p h1 _ => ⟨(hcomp p).2.2.1, hsel2 p h1⟩)]
          simp [selVal, hsel2n]
        have hwb2 : weightBefore (setSelected (blockItems (getItem items n) items) n
            false) (n + 1) = weightBefore items n := by
          rw [weightBefore_succ _ n (by rw [hl2]; omega),
            weightBefore_congr_sel (setSelected (blockItems (getItem items n) items) n
              false) items n (by rw [hl2])
              (fun p h1 _ => ⟨(hcomp p).2.2.2, hsel2 p h1⟩)]
          simp [selWt, hsel2n]
        have hvf2 : valueFrom (setSelected (blockItems (getItem items n) items) n
            false) (n + 1) = valueFrom items n - (getItem items n).value := by
          rw [valueFrom_congr (setSelected (blockItems (getItem items n) items) n
            false) items (n + 1) (by rw [hl2])
            (fun p _ _ => (hcomp p).2.2.1), hRsucc]
          ring
        have hM2 : rodsM k (setSelected (blockItems (getItem items n) items) n false)
            aw (n + 1) =
            valueBefore items n + rodsSpec k (blockItems (getItem items n) items) (n + 1)
              (aw - weightBefore items n) := by
          unfold rodsM
          rw [hvb2, hwb2]
          congr 1
          apply rodsSpec_congr
          refine ⟨by rw [hl2, cblen], fun p => ?_⟩
          by_cases hp : p < items.length
          · refine ⟨by rw [(hcomp p).1, (cbcore p).1], ?_,
              by rw [(hcomp p).2.1, (cbcore p).2.1],
              by rw [(hcomp p).2.2.1, (cbcore p).2.2.1],
              by rw [(hcomp p).2.2.2, (cbcore p).2.2.2.1]⟩
            rw [hbb2 p hp, cbbb p hp, hids n hlt]
          · rw [getItem_oob _ p (by rw [hl2]; omega), getItem_oob _ p (by rw [cblen]; omega)]
            exact fieldsEq_refl _
        obtain ⟨ih2len, ih2f, ih2lo, ih2v0, ih2le, ih2eq, ih2solnil, ih2solok⟩ :=
          ih (setSelected (blockItems (getItem items n) items) n false) aw (n + 1) best
            (by rw [hl2]; omega) hnn2 hids2 hbb2inv (by rw [hwb2]; exact hwle) hbest
        rw [hvb2, hwb2, hvf2] at ih2len ih2f ih2lo ih2v0 ih2le ih2eq ih2solnil ih2solok
        rw [hM2] at ih2le ih2eq
        rw [hl2] at ih2len
        set r2 := doRodsTechnique k
          (setSelected (blockItems (getItem items n) items) n false) aw (n + 1) best
          (valueBefore items n) (weightBefore items n)
          (valueFrom items n - (getItem items n).value) with hr2def
        obtain ⟨ulen, ucore, ubb⟩ := unblockItems_facts (getItem r2.state n) r2.state
        have hr2len : r2.state.length = items.length := ih2len
        have hsrc2id : (getItem r2.state n).id = n := by
          rw [(ih2f n).1, (hcomp n).1]
          exact hids n hlt
        have hsrc2bl : (getItem r2.state n).blockList = (getItem items n).blockList := by
          rw [(ih2f n).2.2.1, (hcomp n).2.1]
        have hflen : (unblockItems (getItem r2.state n) r2.state).length = items.length := by
          rw [ulen, hr2len]
        have hfin_bb : ∀ p, p < items.length →
            (getItem (unblockItems (getItem r2.state n) r2.state) p).blockedBy =
              (getItem items p).blockedBy := by
          intro p hp
          rw [ubb p (by rw [hr2len]; omega), (ih2f p).2.1, hbb2 p hp, hsrc2id, hsrc2bl]
          obtain ⟨hg1, hg2⟩ := hbb p hp
          by_cases h1 : (getItem items p).blockedBy < 0 ∧ p ∈ (getItem items n).blockList
          · have hEq : (if (getItem items p).blockedBy < 0 ∧
                  p ∈ (getItem items n).blockList
                then (n : Int) else (getItem items p).blockedBy) = (n : Int) := if_pos h1
            rw [hEq, if_pos (show (n : Int) = (n : Int) ∧ p ∈ (getItem items n).blockList
              from ⟨rfl, h1.2⟩)]
            omega
          · have hEq : (if (getItem items p).blockedBy < 0 ∧
                  p ∈ (getItem items n).blockList
                then (n : Int) else (getItem items p).blockedBy) =
                (getItem items p).blockedBy := if_neg h1
            rw [hEq, if_neg (show ¬ ((getItem items p).blockedBy = (n : Int) ∧
                p ∈ (getItem items n).blockList) from fun hx => by
              have := hx.1
              omega)]
        have hffields : ∀ p, fieldsEq
            (getItem (unblockItems (getItem r2.state n) r2.state) p) (getItem items p) := by
          intro p
          by_cases hp : p < items.length
          · have hu := ucore p
            have h2q := ih2f p
            have hcq := hcomp p
            exact ⟨by rw [hu.1, h2q.1, hcq.1], hfin_bb p hp,
              by rw [hu.2.1, h2q.2.2.1, hcq.2.1],
              by rw [hu.2.2.1, h2q.2.2.2.1, hcq.2.2.1],
              by rw [hu.2.2.2.1, h2q.2.2.2.2, hcq.2.2.2]⟩
          · rw [getItem_oob _ p (by rw [hflen]; omega), getItem_oob items p (by omega)]
            exact fieldsEq_refl _
        have hfsel : ∀ p, p < n →
            (getItem (unblockItems (getItem r2.state n) r2.state) p).isSelected =
              (getItem items p).isSelected := by
          intro p hp
          rw [(ucore p).2.2.2.2, ih2lo p (by omega)]
          exact hsel2 p hp
        rcases le_or_lt r2.value (0 : Int) with hc | hc
        · rw [if_pos (show (0 : Int) ≥ r2.value from hc)]
          refine ⟨hflen, hffields, hfsel, le_refl (0 : Int), ?_, ?_, ?_, ?_⟩
          · show (0 : Int) ≤ rodsM (k + 1) items aw n
            omega
          · intro hbM
            show (0 : Int) = rodsM (k + 1) items aw n
            have hr2 := ih2eq (by omega)
            omega
          · intro hsol
            rfl
          · intro hsol
            exact absurd rfl hsol
        · rw [if_neg (show ¬ ((0 : Int) ≥ r2.value) by omega)]
          refine ⟨hflen, hffields, hfsel, ih2v0, ?_, ?_, ?_, ?_⟩
          · show r2.value ≤ rodsM (k + 1) items aw n
            omega
          · intro hbM
            show r2.value = rodsM (k + 1) items aw n
            have hr2 := ih2eq (by omega)
            omega
          · intro hsol
            exact ih2solnil hsol
          · intro hsol
            obtain ⟨e1, e2, e3⟩ := ih2solok hsol
            exact ⟨e1.trans hl2, e2, e3⟩

/-! ### Entry-point corollaries for the dominance-pruned search -/

lemma makeBlockLists_length (l : List Item) : (makeBlockLists l).length = l.length := by
  simp [makeBlockLists]

lemma getItem_makeBlockLists (l : List Item) (p : Nat) (hp : p < l.length) :
    getItem (makeBlockLists l) p =
      { getItem l p with blockList := blockListFor l p } := by
  unfold makeBlockLists
  rw [getItem_eq_getElem _ p (by simpa using hp)]
  simp

lemma resetIds_length (l : List Item) : (resetIds l).length = l.length := by
  simp [resetIds]

lemma getItem_resetIds (l : List Item) (p : Nat) (hp : p < l.length) :
    getItem (resetIds l) p = { getItem l p with id := p } := by
  unfold resetIds
  rw [getItem_eq_getElem _ p (by simpa using hp)]
  simp

lemma blockListFor_mem (l : List Item) (hids : IdsOk l) (a q : Nat)
    (hq : q ∈ blockListFor l a) :
    q < l.length ∧ q ≠ a ∧ (getItem l q).value ≤ (getItem l a).value ∧
      (getItem l a).weight ≤ (getItem l q).weight := by
  unfold blockListFor at hq
  obtain ⟨j, hj, hjq⟩ := List.mem_map.mp hq
  have hjf := List.mem_filter.mp hj
  have hjlen : j < l.length := List.mem_range.mp hjf.1
  have hcond : a ≠ j ∧ (getItem l a).value ≥ (getItem l j).value ∧
      (getItem l a).weight ≤ (getItem l j).weight := of_decide_eq_true hjf.2
  have hqj : q = j := by rw [← hjq, hids j hjlen]
  subst hqj
  exact ⟨hjlen, fun h => hcond.1 h.symm, hcond.2.1, hcond.2.2⟩

/-- The shared root argument: `doRodsTechnique` launched on any state whose
ids are the positions, whose blocking is clear, whose block lists are the
dominance lists of the state itself, computes the spec optimum. -/
lemma doRods_root_facts (l1 : List Item) (aw : Int) (hnn : NonnegItems l1)
    (haw : 0 ≤ aw)
    (hids : ∀ p, p < l1.length → (getItem l1 p).id = p)
    (hub : ∀ p, p < l1.length → (getItem l1 p).blockedBy = -1)
    (hdom : ∀ a p, a < l1.length → p ∈ (getItem l1 a).blockList →
      p < l1.length ∧ (getItem l1 p).value ≤ (getItem l1 a).value ∧
        (getItem l1 a).weight ≤ (getItem l1 p).weight) :
    (doRodsTechnique l1.length l1 aw 0 0 0 0 (sumValues l1 true)).value =
      specOpt (pairsOf l1) aw ∧
    ((doRodsTechnique l1.length l1 aw 0 0 0 0 (sumValues l1 true)).solution = [] →
      (doRodsTechnique l1.length l1 aw 0 0 0 0 (sumValues l1 true)).value = 0) ∧
    ((doRodsTechnique l1.length l1 aw 0 0 0 0 (sumValues l1 true)).solution ≠ [] →
      (doRodsTechnique l1.length l1 aw 0 0 0 0 (sumValues l1 true)).solution.length =
        l1.length ∧
      sumWeights (doRodsTechnique l1.length l1 aw 0 0 0 0
        (sumValues l1 true)).solution false ≤ aw ∧
      sumValues (doRodsTechnique l1.length l1 aw 0 0 0 0
        (sumValues l1 true)).solution false =
        (doRodsTechnique l1.length l1 aw 0 0 0 0 (sumValues l1 true)).value) := by
  have hbb0 : ∀ p, p < l1.length → -1 ≤ (getItem l1 p).blockedBy ∧
      (getItem l1 p).blockedBy < ((0 : Nat) : Int) := by
    intro p hp
    rw [hub p hp]
    refine ⟨le_refl _, by norm_num⟩
  obtain ⟨-, -, -, hv0, hle, heq, hnil, hok⟩ :=
    doRodsTechnique_spec l1.length l1 aw 0 0 (by omega) hnn hids hbb0
      (by rw [weightBefore_zero]; exact haw) (le_refl 0)
  have hsubj : doRodsTechnique l1.length l1 aw 0 0 0 0 (sumValues l1 true) =
      doRodsTechnique l1.length l1 aw 0 0 (valueBefore l1 0) (weightBefore l1 0)
        (valueFrom l1 0) := rfl
  rw [← hsubj] at hv0 hle heq hnil hok
  have hM0 : rodsM l1.length l1 aw 0 = specOpt (pairsOf l1) aw := by
    unfold rodsM
    rw [valueBefore_zero, weightBefore_zero, zero_add, sub_zero]
    exact rodsSpec_eq_specOpt l1 aw hnn haw (fun p hp => by rw [hub p hp]; norm_num) hdom
  rw [hM0] at hle heq
  refine ⟨?_, hnil, hok⟩
  rcases lt_or_eq_of_le (specOpt_nonneg (pairsOf l1) aw) with hpos | hzero
  · exact heq hpos
  · omega

lemma rodsTechnique_facts (items : List Item) (aw : Int) (hnn : NonnegItems items)
    (haw : 0 ≤ aw) (hids : IdsOk items) (hub : AllUnblocked items) :
    (rodsTechnique items aw).value = specOpt (pairsOf items) aw ∧
    ((rodsTechnique items aw).solution = [] → (rodsTechnique items aw).value = 0) ∧
    ((rodsTechnique items aw).solution ≠ [] →
      (rodsTechnique items aw).solution.length = items.length ∧
      sumWeights (rodsTechnique items aw).solution false ≤ aw ∧
      sumValues (rodsTechnique items aw).solution false = (rodsTechnique items aw).value) := by
  have hlen1 : (makeBlockLists items).length = items.length := makeBlockLists_length items
  have hv1 : ∀ q, q < items.length →
      (getItem (makeBlockLists items) q).value = (getItem items q).value := by
    intro q hq
    rw [getItem_makeBlockLists items q hq]
  have hw1 : ∀ q, q < items.length →
      (getItem (makeBlockLists items) q).weight = (getItem items q).weight := by
    intro q hq
    rw [getItem_makeBlockLists items q hq]
  have hnn1 : NonnegItems (makeBlockLists items) :=
    nonneg_transfer items _ hlen1
      (fun p hp => ⟨hv1 p (by omega), hw1 p (by omega)⟩) hnn
  have hids1 : ∀ p, p < (makeBlockLists items).length →
      (getItem (makeBlockLists items) p).id = p := by
    intro p hp
    rw [getItem_makeBlockLists items p (by omega)]
    exact hids p (by omega)
  have hub1 : ∀ p, p < (makeBlockLists items).length →
      (getItem (makeBlockLists items) p).blockedBy = -1 := by
    intro p hp
    rw [getItem_makeBlockLists items p (by omega)]
    exact hub p (by omega)
  have hdom1 : ∀ a p, a < (makeBlockLists items).length →
      p ∈ (getItem (makeBlockLists items) a).blockList →
      p < (makeBlockLists items).length ∧
      (getItem (makeBlockLists items) p).value ≤ (getItem (makeBlockLists items) a).value ∧
      (getItem (makeBlockLists items) a).weight ≤
        (getItem (makeBlockLists items) p).weight := by
    intro a p ha hp
    rw [getItem_makeBlockLists items a (by omega)] at hp
    have hp' : p ∈ blockListFor items a := hp
    obtain ⟨hplen, -, hval, hwt⟩ := blockListFor_mem items hids a p hp'
    refine ⟨by omega, ?_, ?_⟩
    · rw [hv1 p hplen, hv1 a (by omega)]
      exact hval
    · rw [hw1 p hplen, hw1 a (by omega)]
      exact hwt
  have hpairs1 : pairsOf (makeBlockLists items) = pairsOf items := by
    have := pairsOf_drop_congr (makeBlockLists items) items 0 hlen1
      (fun p _ hp => ⟨hv1 p (by omega), hw1 p (by omega)⟩)
    rwa [List.drop_zero, List.drop_zero] at this
  obtain ⟨hval, hnil, hok⟩ :=
    doRods_root_facts (makeBlockLists items) aw hnn1 haw hids1 hub1 hdom1
  have hsubj : rodsTechnique items aw =
      doRodsTechnique (makeBlockLists items).length (makeBlockLists items) aw 0 0 0 0
        (sumValues (makeBlockLists items) true) := rfl
  rw [← hsubj] at hval hnil hok
  rw [hpairs1] at hval
  rw [hlen1] at hok
  exact ⟨hval, hnil, hok⟩

lemma rodsTechniqueSorted_facts (items : List Item) (aw : Int) (hnn : NonnegItems items)
    (haw : 0 ≤ aw) (hub : AllUnblocked items) :
    (rodsTechniqueSorted items aw).value = specOpt (pairsOf items) aw ∧
    ((rodsTechniqueSorted items aw).solution = [] →
      (rodsTechniqueSorted items aw).value = 0) ∧
    ((rodsTechniqueSorted items aw).solution ≠ [] →
      sumWeights (rodsTechniqueSorted items aw).solution false ≤ aw ∧
      sumValues (rodsTechniqueSorted items aw).solution false =
        (rodsTechniqueSorted items aw).value) := by
  have hperm : (((makeBlockLists items).insertionSort
      fun a b => b.blockList.length ≤ a.blockList.length)).Perm (makeBlockLists items) :=
    List.perm_insertionSort _ _
  have hlen1 : (makeBlockLists items).length = items.length := makeBlockLists_length items
  have hv1 : ∀ q, q < items.length →
      (getItem (makeBlockLists items) q).value = (getItem items q).value := by
    intro q hq
    rw [getItem_makeBlockLists items q hq]
  have hw1 : ∀ q, q < items.length →
      (getItem (makeBlockLists items) q).weight = (getItem items q).weight := by
    intro q hq
    rw [getItem_makeBlockLists items q hq]
  have hnn1 : NonnegItems (makeBlockLists items) :=
    nonneg_transfer items _ hlen1
      (fun p hp => ⟨hv1 p (by omega), hw1 p (by omega)⟩) hnn
  have hnnS : NonnegItems ((makeBlockLists items).insertionSort
      fun a b => b.blockList.length ≤ a.blockList.length) :=
    fun it hit => hnn1 it (hperm.mem_iff.mp hit)
  have hlenS : (((makeBlockLists items).insertionSort
      fun a b => b.blockList.length ≤ a.blockList.length)).length = items.length := by
    rw [hperm.length_eq, hlen1]
  have hlenR : (resetIds ((makeBlockLists items).insertionSort
      fun a b => b.blockList.length ≤ a.blockList.length)).length = items.length := by
    rw [resetIds_length, hlenS]
  have hvR : ∀ q, q < items.length →
      (getItem (resetIds ((makeBlockLists items).insertionSort
        fun a b => b.blockList.length ≤ a.blockList.length)) q).value =
      (getItem ((makeBlockLists items).insertionSort
        fun a b => b.blockList.length ≤ a.blockList.length) q).value := by
    intro q hq
    rw [getItem_resetIds _ q (by omega)]
  have hwR : ∀ q, q < items.length →
      (getItem (resetIds ((makeBlockLists items).insertionSort
        fun a b => b.blockList.length ≤ a.blockList.length)) q).weight =
      (getItem ((makeBlockLists items).insertionSort
        fun a b => b.blockList.length ≤ a.blockList.length) q).weight := by
    intro q hq
    rw [getItem_resetIds _ q (by omega)]
  have hnnR : NonnegItems (resetIds ((makeBlockLists items).insertionSort
      fun a b => b.blockList.length ≤ a.blockList.length)) := by
    refine nonneg_transfer ((makeBlockLists items).insertionSort
      fun a b => b.blockList.length ≤ a.blockList.length) _ (by rw [hlenR, hlenS]) ?_ hnnS
    intro p hp
    rw [hlenR] at hp
    exact ⟨hvR p hp, hwR p hp⟩
  have hidsR : IdsOk (resetIds ((makeBlockLists items).insertionSort
      fun a b => b.blockList.length ≤ a.blockList.length)) := by
    intro p hp
    rw [hlenR] at hp
    rw [getItem_resetIds _ p (by omega)]
  set l2 := makeBlockLists (resetIds ((makeBlockLists items).insertionSort
    fun a b => b.blockList.length ≤ a.blockList.length)) with hl2def
  have hlen2 : l2.length = items.length := by
    rw [hl2def, makeBlockLists_length, hlenR]
  have hv2 : ∀ q, q < items.length →
      (getItem l2 q).value = (getItem (resetIds ((makeBlockLists items).insertionSort
        fun a b => b.blockList.length ≤ a.blockList.length)) q).value := by
    intro q hq
    rw [hl2def, getItem_makeBlockLists _ q (by rw [hlenR]; omega)]
  have hw2 : ∀ q, q < items.length →
      (getItem l2 q).weight = (getItem (resetIds ((makeBlockLists items).insertionSort
        fun a b => b.blockList.length ≤ a.blockList.length)) q).weight := by
    intro q hq
    rw [hl2def, getItem_makeBlockLists _ q (by rw [hlenR]; omega)]
  have hnn2 : NonnegItems l2 := by
    refine nonneg_transfer (resetIds ((makeBlockLists items).insertionSort
      fun a b => b.blockList.length ≤ a.blockList.length)) _ (by rw [hlen2, hlenR]) ?_ hnnR
    intro p hp
    rw [hlen2] at hp
    exact ⟨hv2 p hp, hw2 p hp⟩
  have hids2 : ∀ p, p < l2.length → (getItem l2 p).id = p := by
    intro p hp
    rw [hlen2] at hp
    rw [hl2def, getItem_makeBlockLists _ p (by rw [hlenR]; omega)]
    exact hidsR p (by rw [hlenR]; omega)
  have hub2 : ∀ p, p < l2.length → (getItem l2 p).blockedBy =
      (getItem ((makeBlockLists items).insertionSort
        fun a b => b.blockList.length ≤ a.blockList.length) p).blockedBy := by
    intro p hp
    rw [hlen2] at hp
    rw [hl2def, getItem_makeBlockLists _ p (by rw [hlenR]; omega),
      getItem_resetIds _ p (by rw [hlenS]; omega)]
  have hdom2 : ∀ a p, a < l2.length → p ∈ (getItem l2 a).blockList →
      p < l2.length ∧ (getItem l2 p).value ≤ (getItem l2 a).value ∧
        (getItem l2 a).weight ≤ (getItem l2 p).weight := by
    intro a p ha hp
    rw [hlen2] at ha
    rw [hl2def, getItem_makeBlockLists _ a (by rw [hlenR]; omega)] at hp
    have hp' : p ∈ blockListFor (resetIds ((makeBlockLists items).insertionSort
      fun a b => b.blockList.length ≤ a.blockList.length)) a := hp
    obtain ⟨hplen, -, hval, hwt⟩ := blockListFor_mem _ hidsR a p hp'
    rw [hlenR] at hplen
    refine ⟨by rw [hlen2]; omega, ?_, ?_⟩
    · rw [hv2 p hplen, hv2 a (by omega)]
      exact hval
    · rw [hw2 p hplen, hw2 a (by omega)]
      exact hwt
  have hpairs2 : pairsOf l2 = pairsOf ((makeBlockLists items).insertionSort
      fun a b => b.blockList.length ≤ a.blockList.length) := by
    have := pairsOf_drop_congr l2 ((makeBlockLists items).insertionSort
      fun a b => b.blockList.length ≤ a.blockList.length) 0 (by rw [hlen2, hlenS])
      (fun p _ hp => by
        rw [hlen2] at hp
        exact ⟨(hv2 p hp).trans (hvR p hp), (hw2 p hp).trans (hwR p hp)⟩)
    rwa [List.drop_zero, List.drop_zero] at this
  have hpairs1 : pairsOf (makeBlockLists items) = pairsOf items := by
    have := pairsOf_drop_congr (makeBlockLists items) items 0 hlen1
      (fun p _ hp => ⟨hv1 p (by omega), hw1 p (by omega)⟩)
    rwa [List.drop_zero, List.drop_zero] at this
  have hspecS : specOpt (pairsOf ((makeBlockLists items).insertionSort
      fun a b => b.blockList.length ≤ a.blockList.length)) aw =
      specOpt (pairsOf items) aw := by
    have hpp : (pairsOf ((makeBlockLists items).insertionSort
        fun a b => b.blockList.length ≤ a.blockList.length)).Perm (pairsOf items) := by
      rw [← hpairs1]
      exact hperm.map _
    refine specOpt_perm hpp ?_ aw
    intro p hp
    obtain ⟨it, hit, rfl⟩ := List.mem_map.mp hp
    exact (hnnS it hit).2
  have hub1 : ∀ p, p < (makeBlockLists items).length →
      (getItem (makeBlockLists items) p).blockedBy = -1 := by
    intro p hp
    rw [getItem_makeBlockLists items p (by omega)]
    exact hub p (by omega)
  have hub1m : ∀ it, it ∈ makeBlockLists items → it.blockedBy = -1 := by
    intro it hit
    obtain ⟨p, hp, rfl⟩ := List.mem_iff_getElem.mp hit
    rw [← getItem_eq_getElem _ p hp]
    exact hub1 p hp
  have hubS : ∀ p, p < (((makeBlockLists items).insertionSort
      fun a b => b.blockList.length ≤ a.blockList.length)).length →
      (getItem ((makeBlockLists items).insertionSort
        fun a b => b.blockList.length ≤ a.blockList.length) p).blockedBy = -1 := by
    intro p hp
    exact hub1m _ (hperm.mem_iff.mp (getItem_mem _ p hp))
  have hub2' : ∀ p, p < l2.length → (getItem l2 p).blockedBy = -1 := by
    intro p hp
    rw [hub2 p hp]
    exact hubS p (by rw [hlenS]; rw [hlen2] at hp; omega)
  obtain ⟨hval, hnil, hok⟩ := doRods_root_facts l2 aw hnn2 haw hids2 hub2' hdom2
  have hsubj : rodsTechniqueSorted items aw =
      doRodsTechnique l2.length l2 aw 0 0 0 0 (sumValues l2 true) := rfl
  rw [← hsubj] at hval hnil hok
  rw [hpairs2, hspecS] at hval
  exact ⟨hval, hnil, fun h => ⟨(hok h).2.1, (hok h).2.2⟩⟩

/-! ### Concrete inputs used by the witnesses and counterexamples -/

/-- Two items `(value 1, weight 1)` and `(value 2, weight 2)` in driver state. -/
def w2Items : List Item :=
  [⟨0, -1, [], 1, 1, false⟩, ⟨1, -1, [], 2, 2, false⟩]

/-- One item of value 1 and weight 2 (too heavy for capacity 1). -/
def c3Items : List Item :=
  [⟨0, -1, [], 1, 2, false⟩]

/-- Two identical items: any single-item selection ties. -/
def tieItems : List Item :=
  [⟨0, -1, [], 1, 1, false⟩, ⟨1, -1, [], 1, 1, false⟩]

/-- Three items `(1,1), (2,2), (3,3)` in driver state. -/
def triItems : List Item :=
  [⟨0, -1, [], 1, 1, false⟩, ⟨1, -1, [], 2, 2, false⟩, ⟨2, -1, [], 3, 3, false⟩]

/-- One item that is already selected on entry. -/
def preSelItems : List Item :=
  [⟨0, -1, [], 5, 1, true⟩]

/-! ### The claims -/

/-- Claim C1: on every non-empty collection of items with strictly positive
values and weights, handed over in driver state (sequential ids, nothing
blocked, nothing selected), and every capacity `aw ≥ 0`, all four solvers
return the optimal 0/1-knapsack value `specOpt`, and in particular the
dominance-pruned search returns the same value as branch and bound. -/
theorem C1_solvers_agree (items : List Item) (aw : Int) (hne : items ≠ [])
    (hpos : PosItems items) (haw : 0 ≤ aw) (hids : IdsOk items)
    (hub : AllUnblocked items) (huns : AllUnselected items) :
    (exhaustiveSearch items aw).value = specOpt (pairsOf items) aw ∧
    (branchAndBound items aw).value = specOpt (pairsOf items) aw ∧
    (rodsTechnique items aw).value = specOpt (pairsOf items) aw ∧
    (rodsTechniqueSorted items aw).value = specOpt (pairsOf items) aw ∧
    (dynamicProgramming items aw).value = specOpt (pairsOf items) aw ∧
    (rodsTechnique items aw).value = (branchAndBound items aw).value := by
  have hnn := hpos.nonneg
  have h1 := (exhaustiveSearch_facts items aw hnn haw).1
  have h2 := (branchAndBound_facts items aw hnn haw).1
  have h3 := (rodsTechnique_facts items aw hnn haw hids hub).1
  have h4 := (rodsTechniqueSorted_facts items aw hnn haw hub).1
  have h5 := (dynamicProgramming_facts items aw hne hpos haw huns).1
  exact ⟨h1, h2, h3, h4, h5, by rw [h3, h2]⟩

/-- Witness for C1 at a concrete input. -/
theorem C1_solvers_agree_witness :
    ((w2Items ≠ []) ∧ PosItems w2Items ∧ (0 : Int) ≤ 2 ∧ IdsOk w2Items ∧
      AllUnblocked w2Items ∧ AllUnselected w2Items) ∧
    ((exhaustiveSearch w2Items 2).value = specOpt (pairsOf w2Items) 2 ∧
     (branchAndBound w2Items 2).value = specOpt (pairsOf w2Items) 2 ∧
     (rodsTechnique w2Items 2).value = specOpt (pairsOf w2Items) 2 ∧
     (rodsTechniqueSorted w2Items 2).value = specOpt (pairsOf w2Items) 2 ∧
     (dynamicProgramming w2Items 2).value = specOpt (pairsOf w2Items) 2 ∧
     (rodsTechnique w2Items 2).value = (branchAndBound w2Items 2).value) :=
  ⟨⟨by decide, by unfold PosItems; decide, by decide, by unfold IdsOk; decide,
    by unfold AllUnblocked; decide, by unfold AllUnselected; decide⟩,
   C1_solvers_agree w2Items 2 (by decide) (by unfold PosItems; decide) (by decide)
     (by unfold IdsOk; decide) (by unfold AllUnblocked; decide)
     (by unfold AllUnselected; decide)⟩

/-- Claim C2: under the same preconditions, every solver's returned selection
weighs no more than the capacity (an empty selection weighs 0). -/
theorem C2_weight_within_capacity (items : List Item) (aw : Int) (hne : items ≠ [])
    (hpos : PosItems items) (haw : 0 ≤ aw) (hids : IdsOk items)
    (hub : AllUnblocked items) (huns : AllUnselected items) :
    sumWeights (exhaustiveSearch items aw).solution false ≤ aw ∧
    sumWeights (branchAndBound items aw).solution false ≤ aw ∧
    sumWeights (rodsTechnique items aw).solution false ≤ aw ∧
    sumWeights (rodsTechniqueSorted items aw).solution false ≤ aw ∧
    sumWeights (dynamicProgramming items aw).solution false ≤ aw := by
  have hnn := hpos.nonneg
  refine ⟨(exhaustiveSearch_facts items aw hnn haw).2.2.1, ?_, ?_, ?_,
    (dynamicProgramming_facts items aw hne hpos haw huns).2.2.1⟩
  · by_cases h : (branchAndBound items aw).solution = []
    · rw [h]
      show (0 : Int) ≤ aw
      exact haw
    · exact ((branchAndBound_facts items aw hnn haw).2.2 h).2.1
  · by_cases h : (rodsTechnique items aw).solution = []
    · rw [h]
      show (0 : Int) ≤ aw
      exact haw
    · exact ((rodsTechnique_facts items aw hnn haw hids hub).2.2 h).2.1
  · by_cases h : (rodsTechniqueSorted items aw).solution = []
    · rw [h]
      show (0 : Int) ≤ aw
      exact haw
    · exact ((rodsTechniqueSorted_facts items aw hnn haw hub).2.2 h).1

/-- Witness for C2 at a concrete input. -/
theorem C2_weight_within_capacity_witness :
    ((w2Items ≠ []) ∧ PosItems w2Items ∧ (0 : Int) ≤ 2 ∧ IdsOk w2Items ∧
      AllUnblocked w2Items ∧ AllUnselected w2Items) ∧
    (sumWeights (exhaustiveSearch w2Items 2).solution false ≤ 2 ∧
     sumWeights (branchAndBound w2Items 2).solution false ≤ 2 ∧
     sumWeights (rodsTechnique w2Items 2).solution false ≤ 2 ∧
     sumWeights (rodsTechniqueSorted w2Items 2).solution false ≤ 2 ∧
     sumWeights (dynamicProgramming w2Items 2).solution false ≤ 2) :=
  ⟨⟨by decide, by unfold PosItems; decide, by decide, by unfold IdsOk; decide,
    by unfold AllUnblocked; decide, by unfold AllUnselected; decide⟩,
   C2_weight_within_capacity w2Items 2 (by decide) (by unfold PosItems; decide) (by decide)
     (by unfold IdsOk; decide) (by unfold AllUnblocked; decide)
     (by unfold AllUnselected; decide)⟩

/-- Claim C3 (corrected): the returned value always equals the sum of the
selected values of the returned selection, but — contrary to the claim — the
bounded searches can return an absent (`nil`) selection together with value 0;
the selection is not always a full item array. -/
theorem C3_selection_value_consistency (items : List Item) (aw : Int) (hne : items ≠ [])
    (hpos : PosItems items) (haw : 0 ≤ aw) (hids : IdsOk items)
    (hub : AllUnblocked items) (huns : AllUnselected items) :
    sumValues (exhaustiveSearch items aw).solution false = (exhaustiveSearch items aw).value ∧
    sumValues (branchAndBound items aw).solution false = (branchAndBound items aw).value ∧
    sumValues (rodsTechnique items aw).solution false = (rodsTechnique items aw).value ∧
    sumValues (rodsTechniqueSorted items aw).solution false =
      (rodsTechniqueSorted items aw).value ∧
    sumValues (dynamicProgramming items aw).solution false =
      (dynamicProgramming items aw).value := by
  have hnn := hpos.nonneg
  refine ⟨(exhaustiveSearch_facts items aw hnn haw).2.2.2, ?_, ?_, ?_,
    (dynamicProgramming_facts items aw hne hpos haw huns).2.1⟩
  · by_cases h : (branchAndBound items aw).solution = []
    · rw [h, (branchAndBound_facts items aw hnn haw).2.1 h]
      rfl
    · exact ((branchAndBound_facts items aw hnn haw).2.2 h).2.2
  · by_cases h : (rodsTechnique items aw).solution = []
    · rw [h, (rodsTechnique_facts items aw hnn haw hids hub).2.1 h]
      rfl
    · exact ((rodsTechnique_facts items aw hnn haw hids hub).2.2 h).2.2
  · by_cases h : (rodsTechniqueSorted items aw).solution = []
    · rw [h, (rodsTechniqueSorted_facts items aw hnn haw hub).2.1 h]
      rfl
    · exact ((rodsTechniqueSorted_facts items aw hnn haw hub).2.2 h).2

/-- Witness for C3 at a concrete input. -/
theorem C3_selection_value_consistency_witness :
    ((w2Items ≠ []) ∧ PosItems w2Items ∧ (0 : Int) ≤ 2 ∧ IdsOk w2Items ∧
      AllUnblocked w2Items ∧ AllUnselected w2Items) ∧
    (sumValues (exhaustiveSearch w2Items 2).solution false =
      (exhaustiveSearch w2Items 2).value ∧
     sumValues (branchAndBound w2Items 2).solution false = (branchAndBound w2Items 2).value ∧
     sumValues (rodsTechnique w2Items 2).solution false = (rodsTechnique w2Items 2).value ∧
     sumValues (rodsTechniqueSorted w2Items 2).solution false =
       (rodsTechniqueSorted w2Items 2).value ∧
     sumValues (dynamicProgramming w2Items 2).solution false =
       (dynamicProgramming w2Items 2).value) :=
  ⟨⟨by decide, by unfold PosItems; decide, by decide, by unfold IdsOk; decide,
    by unfold AllUnblocked; decide, by unfold AllUnselected; decide⟩,
   C3_selection_value_consistency w2Items 2 (by decide) (by unfold PosItems; decide)
     (by decide) (by unfold IdsOk; decide) (by unfold AllUnblocked; decide)
     (by unfold AllUnselected; decide)⟩

/-- Counterexample for C3: on a well-formed input (one positive item, capacity
1), branch and bound returns the `nil` selection with value 0 — not a full
selection object. -/
theorem C3_nil_solution_counterexample :
    c3Items ≠ [] ∧ PosItems c3Items ∧ (0 : Int) ≤ 1 ∧
    (branchAndBound c3Items 1).solution = [] ∧ (branchAndBound c3Items 1).value = 0 := by
  refine ⟨by decide, by unfold PosItems; decide, by decide, by decide, by decide⟩

/-- Claim C4 (corrected): the searches perform no input validation and never
signal an `InvalidInput` condition — on the malformed input "empty collection
with negative capacity" both `exhaustiveSearch` and `branchAndBound` complete
normally and leak the `-1` overweight sentinel as the returned "optimal"
value instead of rejecting.  (`dynamicProgramming` performs no validation
either, but on an empty collection or a negative capacity the Go code stops
with an out-of-range index panic rather than a signalled rejection; the
list-based model does not reproduce that panic, so this theorem is scoped to
the two searches.) -/
theorem C4_no_input_validation (aw : Int) (haw : aw < 0) :
    (exhaustiveSearch [] aw).value = -1 ∧ (branchAndBound [] aw).value = -1 := by
  have hs : solutionValue [] aw = -1 := by
    unfold solutionValue
    rw [if_pos (show sumWeights [] false > aw from by
      show (0 : Int) > aw
      omega)]
  exact ⟨hs, hs⟩

/-- Witness for C4 at a concrete input. -/
theorem C4_no_input_validation_witness :
    (-1 : Int) < 0 ∧
    ((exhaustiveSearch [] (-1)).value = -1 ∧ (branchAndBound [] (-1)).value = -1) :=
  ⟨by decide, C4_no_input_validation (-1) (by decide)⟩

/-- Counterexample for C4: on the empty collection (malformed input), the
exhaustive search completes normally with a definite result instead of
failing fast. -/
theorem C4_empty_input_counterexample :
    exhaustiveSearch ([] : List Item) 5 =
      { state := [], solution := [], value := 0, calls := 1 } := by decide

/-- Claim C5 (corrected): the exhaustive search compares the branches with a
strict `>`, so when the include branch's score equals the exclude branch's
score the EXCLUDE branch's assignment is returned, not the include branch's. -/
theorem C5_ties_favor_exclude (k : Nat) (items : List Item) (aw : Int) (n : Nat)
    (h1 : n < items.length)
    (heq : (doExhaustiveSearch k (setSelected items n true) aw (n + 1)).value =
      (doExhaustiveSearch k (setSelected (doExhaustiveSearch k (setSelected items n true) aw
        (n + 1)).state n false) aw (n + 1)).value) :
    (doExhaustiveSearch (k + 1) items aw n).solution =
      (doExhaustiveSearch k (setSelected (doExhaustiveSearch k (setSelected items n true) aw
        (n + 1)).state n false) aw (n + 1)).solution := by
  rw [doExhaustiveSearch_node k items aw n h1]
  simp only
  rw [if_neg (by omega)]

/-- Witness for C5 at a concrete input. -/
theorem C5_ties_favor_exclude_witness :
    (0 < tieItems.length ∧
      (doExhaustiveSearch 1 (setSelected tieItems 0 true) 1 (0 + 1)).value =
        (doExhaustiveSearch 1 (setSelected (doExhaustiveSearch 1 (setSelected tieItems 0 true)
          1 (0 + 1)).state 0 false) 1 (0 + 1)).value) ∧
    (doExhaustiveSearch (1 + 1) tieItems 1 0).solution =
      (doExhaustiveSearch 1 (setSelected (doExhaustiveSearch 1 (setSelected tieItems 0 true)
        1 (0 + 1)).state 0 false) 1 (0 + 1)).solution :=
  ⟨⟨by decide, by decide⟩, C5_ties_favor_exclude 1 tieItems 1 0 (by decide) (by decide)⟩

/-- Counterexample for C5: two identical items, capacity 1 — the two branches
tie at the root, the include branch's assignment selects item 0, yet the
returned assignment leaves item 0 unselected (the exclude branch won). -/
theorem C5_tie_counterexample :
    (doExhaustiveSearch 1 (setSelected tieItems 0 true) 1 1).value =
      (doExhaustiveSearch 1 (setSelected (doExhaustiveSearch 1 (setSelected tieItems 0 true)
        1 1).state 0 false) 1 1).value ∧
    (getItem (doExhaustiveSearch 1 (setSelected tieItems 0 true) 1 1).solution 0).isSelected =
      true ∧
    (getItem (exhaustiveSearch tieItems 1).solution 0).isSelected = false := by decide

/-- Claim C6: the exhaustive search never prunes: on any `n`-item input it
makes exactly `2^(n+1) - 1` recursive calls (all `2^n` leaves plus the
internal decision points). -/
theorem C6_exhaustive_call_count (items : List Item) (aw : Int) :
    (exhaustiveSearch items aw).calls = 2 ^ (items.length + 1) - 1 :=
  exhaustiveSearch_calls items aw

/-- Claim C7 (corrected): branch and bound never makes more calls than the
exhaustive search (it prunes a tree of the same shape), which is the provable
half of the claimed ordering; the other half is refuted by
the counterexample, where the dominance-pruned search makes MORE calls than
branch and bound because its exclude branch is recursed into unconditionally. -/
theorem C7_exhaustive_ge_branchAndBound (items : List Item) (aw : Int) :
    (branchAndBound items aw).calls ≤ (exhaustiveSearch items aw).calls := by
  rw [exhaustiveSearch_calls items aw]
  exact doBranchAndBound_calls_le items.length items aw 0 0 0 0 (sumValues items true)

/-- Counterexample for C7: on three items `(1,1), (2,2), (3,3)` with capacity
3, branch and bound makes 13 calls but the dominance-pruned search makes 15 —
the claimed ordering `branchAndBound ≥ doRodsTechnique` fails. -/
theorem C7_rods_more_calls_counterexample :
    PosItems triItems ∧ IdsOk triItems ∧ AllUnblocked triItems ∧ AllUnselected triItems ∧
    (branchAndBound triItems 3).calls = 13 ∧ (rodsTechnique triItems 3).calls = 15 ∧
    (branchAndBound triItems 3).calls < (rodsTechnique triItems 3).calls := by
  refine ⟨by unfold PosItems; decide, by unfold IdsOk; decide,
    by unfold AllUnblocked; decide, by unfold AllUnselected; decide,
    by decide, by decide, by decide⟩

/-- Claim C8: at any node of the dominance-pruned search (any state reachable
with the search's invariants), (i) blocking never overwrites an entry that is
already blocked, (ii) unblocking clears exactly the entries blocked by this
node's id, and (iii) after the node's whole subtree unwinds, every item's
`blockedBy` equals its value on entry — no block leaks to sibling subtrees. -/
theorem C8_unwind_restores_blocks (k : Nat) (items : List Item) (aw : Int) (n : Nat)
    (best : Int) (hn : n + k = items.length) (hnn : NonnegItems items)
    (hids : ∀ p, p < items.length → (getItem items p).id = p)
    (hbb : ∀ p, p < items.length → -1 ≤ (getItem items p).blockedBy ∧
      (getItem items p).blockedBy < (n : Int))
    (hwle : weightBefore items n ≤ aw) (hbest : 0 ≤ best) :
    (∀ p, p < items.length → 0 ≤ (getItem items p).blockedBy →
      (getItem (blockItems (getItem items n) items) p).blockedBy =
        (getItem items p).blockedBy) ∧
    (∀ p, p < items.length →
      (getItem (unblockItems (getItem items n) items) p).blockedBy =
        (if (getItem items p).blockedBy = ((getItem items n).id : Int) ∧
            p ∈ (getItem items n).blockList then -1
         else (getItem items p).blockedBy)) ∧
    (∀ p, (getItem (doRodsTechnique k items aw n best (valueBefore items n)
        (weightBefore items n) (valueFrom items n)).state p).blockedBy =
      (getItem items p).blockedBy) := by
  refine ⟨?_, ?_, ?_⟩
  · intro p hp hge
    rw [(blockItems_facts (getItem items n) items).2.2 p hp, if_neg (fun hx => by
      have := hx.1
      omega)]
  · intro p hp
    exact (unblockItems_facts (getItem items n) items).2.2 p hp
  · intro p
    obtain ⟨-, hf, -, -, -, -, -, -⟩ :=
      doRodsTechnique_spec k items aw n best hn hnn hids hbb hwle hbest
    exact (hf p).2.1

/-- Witness for C8 at a concrete input. -/
theorem C8_unwind_restores_blocks_witness :
    ((0 + 2 = w2Items.length) ∧ NonnegItems w2Items ∧
      (∀ p, p < w2Items.length → (getItem w2Items p).id = p) ∧
      (∀ p, p < w2Items.length → -1 ≤ (getItem w2Items p).blockedBy ∧
        (getItem w2Items p).blockedBy < ((0 : Nat) : Int)) ∧
      weightBefore w2Items 0 ≤ 5 ∧ (0 : Int) ≤ 0) ∧
    ((∀ p, p < w2Items.length → 0 ≤ (getItem w2Items p).blockedBy →
      (getItem (blockItems (getItem w2Items 0) w2Items) p).blockedBy =
        (getItem w2Items p).blockedBy) ∧
    (∀ p, p < w2Items.length →
      (getItem (unblockItems (getItem w2Items 0) w2Items) p).blockedBy =
        (if (getItem w2Items p).blockedBy = ((getItem w2Items 0).id : Int) ∧
            p ∈ (getItem w2Items 0).blockList then -1
         else (getItem w2Items p).blockedBy)) ∧
    (∀ p, (getItem (doRodsTechnique 2 w2Items 5 0 0 (valueBefore w2Items 0)
        (weightBefore w2Items 0) (valueFrom w2Items 0)).state p).blockedBy =
      (getItem w2Items p).blockedBy)) :=
  ⟨⟨by decide, by unfold NonnegItems; decide, by decide, by decide, by decide, by decide⟩,
   C8_unwind_restores_blocks 2 w2Items 5 0 0 (by decide) (by unfold NonnegItems; decide)
     (by decide) (by decide) (by decide) (by decide)⟩

/-- Claim C9: with the items fixed (and meeting the preconditions), the value
dynamic programming returns is monotone in the capacity. -/
theorem C9_capacity_monotone (items : List Item) (c1 c2 : Int) (hne : items ≠ [])
    (hpos : PosItems items) (huns : AllUnselected items) (h1 : 0 ≤ c1) (h12 : c1 ≤ c2) :
    (dynamicProgramming items c1).value ≤ (dynamicProgramming items c2).value := by
  rw [(dynamicProgramming_facts items c1 hne hpos h1 huns).1,
    (dynamicProgramming_facts items c2 hne hpos (by omega) huns).1]
  exact specOpt_mono (pairsOf items) c1 c2 h12

/-- Witness for C9 at a concrete input. -/
theorem C9_capacity_monotone_witness :
    ((w2Items ≠ []) ∧ PosItems w2Items ∧ AllUnselected w2Items ∧ (0 : Int) ≤ 1 ∧
      (1 : Int) ≤ 2) ∧
    (dynamicProgramming w2Items 1).value ≤ (dynamicProgramming w2Items 2).value :=
  ⟨⟨by decide, by unfold PosItems; decide, by unfold AllUnselected; decide, by decide,
    by decide⟩,
   C9_capacity_monotone w2Items 1 2 (by decide) (by unfold PosItems; decide)
     (by unfold AllUnselected; decide) (by decide) (by decide)⟩

/-- Claim C10 (corrected): dynamic programming returns the very array it was
given (`state` and `solution` are the same list), and reconstruction only
ever turns `isSelected` on, so initially selected items stay selected; the
returned value is guaranteed to match the selection when all items start
unselected — but, contrary to the claim's "only when", a pre-selected input
can still produce a matching value, so the match is not exclusive to clean
inputs. -/
theorem C10_dp_alias_monotone_selection (items : List Item) (aw : Int) :
    (dynamicProgramming items aw).state = (dynamicProgramming items aw).solution ∧
    (∀ p, selUp (getItem (dynamicProgramming items aw).solution p) (getItem items p)) ∧
    (items ≠ [] → PosItems items → 0 ≤ aw → AllUnselected items →
      sumValues (dynamicProgramming items aw).solution false =
        (dynamicProgramming items aw).value) := by
  obtain ⟨-, hstate, hsel⟩ := dynamicProgramming_selUp items aw
  refine ⟨hstate, hsel, fun hne hpos haw huns => ?_⟩
  exact (dynamicProgramming_facts items aw hne hpos haw huns).2.1

/-- Witness for C10 at a concrete input. -/
theorem C10_dp_alias_monotone_selection_witness :
    (dynamicProgramming w2Items 2).state = (dynamicProgramming w2Items 2).solution ∧
    (∀ p, selUp (getItem (dynamicProgramming w2Items 2).solution p) (getItem w2Items p)) ∧
    ((w2Items ≠ []) ∧ PosItems w2Items ∧ (0 : Int) ≤ 2 ∧ AllUnselected w2Items) ∧
    sumValues (dynamicProgramming w2Items 2).solution false =
      (dynamicProgramming w2Items 2).value :=
  ⟨(C10_dp_alias_monotone_selection w2Items 2).1,
   (C10_dp_alias_monotone_selection w2Items 2).2.1,
   ⟨by decide, by unfold PosItems; decide, by decide, by unfold AllUnselected; decide⟩,
   (C10_dp_alias_monotone_selection w2Items 2).2.2 (by decide)
     (by unfold PosItems; decide) (by decide) (by unfold AllUnselected; decide)⟩

/-- Counterexample for C10: an input with a pre-selected item — the returned
value still matches the selection's value sum, refuting the claim that the
match holds ONLY when all items start unselected. -/
theorem C10_preselected_counterexample :
    ¬ AllUnselected preSelItems ∧
    (dynamicProgramming preSelItems 1).value = 5 ∧
    sumValues (dynamicProgramming preSelItems 1).solution false =
      (dynamicProgramming preSelItems 1).value := by
  refine ⟨fun h => ?_, by decide, by decide⟩
  have := h ⟨0, -1, [], 5, 1, true⟩ (by decide)
  simp at this
